import Mathlib

/-!
# waLBerla boundary handling collection

A shallow embedding of `src/boundary/BoundaryHandlingCollection.h`, followed by the
vertex weights of `src/pe_coupling/amr/weight_assignment/MetisAssignmentFunctor.cpp`.

* The boost tuple of heterogeneous handlers (`Tuple boundaryHandlers_`) is a list of
  handler objects; every private `cons<Head, Tail>` / `null_type` helper of the class
  is a structural recursion over that list, collected in namespace `Tuple`.
* `flag_t` is a natural number; the width of the type is `FlagField.digits`
  (`std::numeric_limits< flag_t >::digits`).
* The flag field contents are a total map from cells to masks.
* `WALBERLA_ASSERT` is a debug-only check; the embedding follows the release build,
  where it expands to nothing.  Where the code itself branches on the macro `NDEBUG`
  (in `pack`), and where the assertion is `WALBERLA_ASSERT( false )`, which stops every
  debug build that reaches it (`operator==`, the base case of
  `createBoundaryConfiguration`), the build configuration is a parameter.
* A serialization buffer is a list of typed items (flag mapping, raw mask, payload word).
* Every call into a handler is recorded in a trace (`calls`), so that statements about
  which handler is invoked, and with which arguments, can be made.
-/

namespace walberla
namespace boundary

/-- The unsigned integer type of a flag mask (`FlagField_T::flag_t`). -/
abbrev flag_t := Nat

/-- The values of `cell_idx_t`, a signed 32-bit integer: an integer is brought into the
range `-2^31 .. 2^31 - 1` modulo `2^32` (two's complement). -/
def cell_idx_t.wrap (i : Int) : Int := (i + 2147483648) % 4294967296 - 2147483648

/-- The sum of two values of `uint_t`, an unsigned 64-bit integer: the sum modulo `2^64`. -/
def uint_t.add (a b : Nat) : Nat := (a + b) % 18446744073709551616

/-- Modelled from the spec: the cast `cell_idx_c` of `core/DataTypes.h`, which is not part
of the sources at hand, applied to a value of `uint_t` in a release build, where it is a
`static_cast` to `cell_idx_t`: the value modulo `2^32`, read as a signed 32-bit
integer. -/
def cell_idx_c (v : Nat) : Int :=
  cell_idx_t.wrap ((v % 18446744073709551616 : Nat) : Int)

/-- Cell coordinates `x, y, z` (`cell_idx_t` each). -/
structure Cell where
  x : Int
  y : Int
  z : Int
deriving DecidableEq

/-- Modelled from the spec: `core/cell/CellInterval.h` is not part of the sources at hand.
An axis-aligned box of cells given by its minimal and maximal corner. -/
structure CellInterval where
  xMin : Int
  yMin : Int
  zMin : Int
  xMax : Int
  yMax : Int
  zMax : Int
deriving DecidableEq

namespace CellInterval

/-- Modelled from the spec: `CellInterval::empty()`, no cell lies in the box. -/
def empty (ci : CellInterval) : Bool :=
  decide (ci.xMax < ci.xMin) || decide (ci.yMax < ci.yMin) || decide (ci.zMax < ci.zMin)

/-- Modelled from the spec: `CellInterval::contains(x,y,z)`. -/
def contains (ci : CellInterval) (c : Cell) : Bool :=
  decide (ci.xMin ≤ c.x) && decide (c.x ≤ ci.xMax) &&
  decide (ci.yMin ≤ c.y) && decide (c.y ≤ ci.yMax) &&
  decide (ci.zMin ≤ c.z) && decide (c.z ≤ ci.zMax)

/-- Modelled from the spec: `CellInterval::intersect(other)` ("clips any interval to the
bounding box"): the componentwise maximum of the minimal corners and minimum of the
maximal corners. -/
def intersect (ci other : CellInterval) : CellInterval :=
  { xMin := max ci.xMin other.xMin, yMin := max ci.yMin other.yMin,
    zMin := max ci.zMin other.zMin, xMax := min ci.xMax other.xMax,
    yMax := min ci.yMax other.yMax, zMax := min ci.zMax other.zMax }

/-- The values taken by the loop `for( auto v = lo; v <= hi; ++v )`, in order. -/
def loopRange (lo hi : Int) : List Int :=
  (List.range (hi + 1 - lo).toNat).map (fun (i : Nat) => lo + (i : Int))

/-- The cells visited by the triple loop over `z`, then `y`, then `x` (x runs fastest),
in the order of the visit. -/
def cells (ci : CellInterval) : List Cell :=
  (loopRange ci.zMin ci.zMax).flatMap (fun z =>
    (loopRange ci.yMin ci.yMax).flatMap (fun y =>
      (loopRange ci.xMin ci.xMax).map (fun x => Cell.mk x y z)))

end CellInterval

/-- The contents of a flag field: one mask per cell. -/
abbrev FlagData := Cell → flag_t

namespace FlagData

/-- Replace the mask of one cell. -/
def set (f : FlagData) (c : Cell) (v : flag_t) : FlagData :=
  fun d => if d = c then v else f d

/-- Modelled from the spec: `FlagField::addMask(x,y,z,mask)` of `field/FlagField.h`, which
is not part of the sources at hand: `value |= mask`. -/
def addMask (f : FlagData) (c : Cell) (mask : flag_t) : FlagData :=
  f.set c (f c ||| mask)

/-- Modelled from the spec: `FlagField::addFlag(x,y,z,flag)`, "writes the bit directly
onto the raw field": `value |= flag`. -/
def addFlag (f : FlagData) (c : Cell) (flag : flag_t) : FlagData :=
  f.set c (f c ||| flag)

/-- Modelled from the spec: `FlagField::removeMask(x,y,z,mask)`, `value &= ~mask`.  On
natural numbers the bits of `mask` that are set in the value are flipped off. -/
def removeMask (f : FlagData) (c : Cell) (mask : flag_t) : FlagData :=
  f.set c (f c ^^^ (f c &&& mask))

/-- Modelled from the spec: `FlagField::removeFlag(x,y,z,flag)`, "the raw bit is
cleared": `value &= ~flag`. -/
def removeFlag (f : FlagData) (c : Cell) (flag : flag_t) : FlagData :=
  f.set c (f c ^^^ (f c &&& flag))

/-- Modelled from the spec: `FlagField::isFlagSet(x,y,z,flag)`, "the bit is currently
set": `(value & flag) == flag`. -/
def isFlagSet (f : FlagData) (c : Cell) (flag : flag_t) : Bool :=
  (f c &&& flag) == flag

end FlagData

/-- Modelled from the spec: the flag field (`field/FlagField.h` is not part of the
sources at hand): its identity (the address the pointer `flagField_` holds), the width
of `flag_t`, its interior size, its number of ghost layers and its contents. -/
structure FlagField where
  id : Nat
  digits : Nat
  xSize : Nat
  ySize : Nat
  zSize : Nat
  nrOfGhostLayers : Nat
  data : FlagData
  isRegistered : flag_t → Bool

/-- The parameter object handed through to a handler (`BoundaryConfiguration`), opaque
to the collection. -/
abbrev BoundaryConfiguration := Nat

/-- A neighbour direction (`stencil::Direction`), an enumeration value. -/
abbrev Direction := Nat

/-- Modelled from the spec: one item written to or read from a serialization buffer (the
buffer type `Buffer_T` is a template parameter): the name-to-bit dictionary of a flag
field, the raw mask of a cell, or one word of the per-cell payload of a handler. -/
inductive BufferItem where
  | flagMapping (mapping : List (Nat × flag_t))
  | mask (raw : flag_t)
  | payload (word : Nat)
deriving DecidableEq

/-- A serialization buffer: the items in the order written. -/
abbrev Buffer := List BufferItem

/-- One call of the collection into a handler: the operation, the Boundary-Handling UID
of the handler called and the arguments passed. -/
inductive Call where
  | isEmpty (handler : Nat) (c : Cell)
  | setFlag (handler : Nat) (flag : flag_t) (c : Cell) (parameter : BoundaryConfiguration)
  | setFlagCells (handler : Nat) (flag : flag_t) (cells : CellInterval)
      (parameter : BoundaryConfiguration)
  | removeFlag (handler : Nat) (flag : flag_t) (c : Cell)
  | clear (handler : Nat) (c : Cell)
  | checkConsistency (handler : Nat) (cells : CellInterval)
  | refresh (handler : Nat) (cells : CellInterval)
  | execute (handler : Nat) (cells : CellInterval)
  | unpack (handler : Nat) (flag : flag_t) (c : Cell)
  | beforeBoundaryTreatment (handler : Nat)
  | afterBoundaryTreatment (handler : Nat)
  | executeLayers (handler : Nat) (numberOfGhostLayersToInclude : Nat)
  | executeCell (handler : Nat) (c : Cell)
  | executeRange (handler : Nat) (range : List Cell)
deriving DecidableEq

/-- Modelled from the spec: a boundary handler (`BoundaryHandling.h` is not part of the
sources at hand), with the capabilities the collection uses.  A handler is an object
stored by value in the collection: `st` is its private bookkeeping, and each of its
mutating operations maps the flag field contents and `st` to new ones.  `handlingType`
stands for the C++ type of the handler, by which `getBoundaryHandling` selects;
`containsBoundaryConditionUID` and `getBoundaryMaskOf` are the overloads of
`containsBoundaryCondition` and `getBoundaryMask` that take a Boundary UID; the four
overloads of `operator()` are `execute` (interval), `executeLayers`, `executeCell` and
`executeRange`. -/
structure Handler (σ : Type) where
  uid : Nat
  boundaryUIDs : List Nat
  flagFieldId : Nat
  outerBB : CellInterval
  boundaryMask : flag_t
  domainMask : flag_t
  st : σ
  isEmpty : Cell → FlagData → σ → Bool
  setFlag : flag_t → Cell → BoundaryConfiguration → FlagData → σ → FlagData × σ
  setFlagCells : flag_t → CellInterval → BoundaryConfiguration → FlagData → σ → FlagData × σ
  removeFlag : flag_t → Cell → FlagData → σ → FlagData × σ
  clear : Cell → FlagData → σ → FlagData × σ
  checkConsistency : CellInterval → FlagData → σ → Bool
  refresh : CellInterval → FlagData → σ → FlagData × σ
  execute : CellInterval → FlagData → σ → FlagData × σ
  containsBoundaryCondition : flag_t → Bool
  getBoundaryUID : flag_t → Nat
  getFlagMapping : List (Nat × flag_t)
  getNeighborFlagMapping : Buffer → Bool → Buffer × Bool × List flag_t
  translateMask : flag_t → List flag_t → flag_t
  getPackingInterval : Direction → Nat → CellInterval
  getUnpackingInterval : Direction → Nat → CellInterval
  pack : flag_t → Cell → FlagData → σ → Buffer
  unpack : flag_t → Cell → Buffer → FlagData → σ → Buffer × FlagData × σ
  handlingType : Nat
  containsBoundaryConditionUID : Nat → Bool
  getBoundaryMaskOf : Nat → flag_t
  createBoundaryConfiguration : Nat → Nat → BoundaryConfiguration
  beforeBoundaryTreatment : FlagData → σ → FlagData × σ
  afterBoundaryTreatment : FlagData → σ → FlagData × σ
  executeLayers : Nat → FlagData → σ → FlagData × σ
  executeCell : Cell → FlagData → σ → FlagData × σ
  executeRange : List Cell → FlagData → σ → FlagData × σ

/-- The ownership mask `handler.getBoundaryMask() | handler.getDomainMask()`. -/
def Handler.ownership {σ : Type} (h : Handler σ) : flag_t :=
  h.boundaryMask ||| h.domainMask

/-- The test `( (handler.getBoundaryMask() | handler.getDomainMask()) & flag ) == flag`. -/
def Handler.owns {σ : Type} (h : Handler σ) (flag : flag_t) : Bool :=
  (h.ownership &&& flag) == flag

/-- What the helpers of the collection read and write besides the handlers: the flag
field contents and the trace of handler calls. -/
structure Mem where
  flags : FlagData
  calls : List Call

/-- Call a mutating operation of a handler: it acts on the flag field and on the private
state of the handler, and the call is appended to the trace. -/
def Handler.invoke {σ : Type} (h : Handler σ) (call : Call)
    (op : FlagData → σ → FlagData × σ) (m : Mem) : Handler σ × Mem :=
  ({ h with st := (op m.flags h.st).2 },
   { flags := (op m.flags h.st).1, calls := m.calls ++ [call] })

/-- Why a call of the constructor or of a lookup ends in `WALBERLA_ABORT`. -/
inductive Abort where
  | noGhostLayer
  | differentFlagField
  | boundaryHandlingUIDNotUnique (uid : Nat)
  | boundaryUIDNotUnique (uid : Nat)
  | flagNotRegistered (flag : flag_t)
  | flagNotHandled (flag : flag_t)
  | handlingNotInCollection (uid : Nat)
  | assertionFailed
deriving DecidableEq

/-- Modelled from the spec: the object `make_shared<BoundaryConfiguration>()`, a
default-constructed `BoundaryConfiguration` (`Boundary.h` is not part of the sources at
hand). -/
def defaultBoundaryConfiguration : BoundaryConfiguration := 0

/-- How a call of `getBoundaryHandling< BoundaryHandling_T >( uid )` ends: with the
handler found, with `WALBERLA_ABORT` at run time, or not at all, because the compiler
rejects the call (a failing `static_assert`, or no overload to select). -/
inductive Lookup (α : Type) where
  | found (handler : α)
  | abort
  | rejected

/-! ## The private helpers: recursion over the handler tuple -/

namespace Tuple

variable {σ : Type}

/-- The helper `clear( cons<Head, Tail> & boundaryHandlers, x, y, z )` and its `null_type`
base case: returns the handlers after the visit, the memory, and the mask of removed
flags. -/
def clear (c : Cell) : List (Handler σ) → Mem → List (Handler σ) × Mem × flag_t
  | [], m => ([], m, 0)
  | h :: t, m =>
    let before := m.flags c
    let r := h.invoke (Call.clear h.uid c) (h.clear c) m
    let removedFlags := before ^^^ r.2.flags c
    let m1 : Mem := { r.2 with flags := r.2.flags.addMask c before }
    let rest := clear c t m1
    (r.1 :: rest.1, rest.2.1, removedFlags ||| rest.2.2)

/-- The helper `setFlag( cons<Head, Tail> & boundaryHandlers, flag, x, y, z, parameter )`
and its `null_type` base case. -/
def setFlag (flag : flag_t) (c : Cell) (parameter : BoundaryConfiguration) :
    List (Handler σ) → Mem → List (Handler σ) × Mem
  | [], m => ([], { m with flags := m.flags.addFlag c flag })
  | h :: t, m =>
    if h.owns flag then
      let m1 : Mem := { m with flags := m.flags.removeFlag c flag }
      let r := h.invoke (Call.setFlag h.uid flag c parameter) (h.setFlag flag c parameter) m1
      let rest := setFlag flag c parameter t r.2
      (r.1 :: rest.1, rest.2)
    else
      let rest := setFlag flag c parameter t m
      (h :: rest.1, rest.2)

/-- The helper `setFlag( cons<Head, Tail> & boundaryHandlers, flag, cells, parameter )`
and its `null_type` base case.  The slice iterator `beginSliceXYZ( cells )` visits the
cells of the interval. -/
def setFlagCells (flag : flag_t) (cells : CellInterval) (parameter : BoundaryConfiguration) :
    List (Handler σ) → Mem → List (Handler σ) × Mem
  | [], m => ([], { m with flags := cells.cells.foldl (fun f c => f.addFlag c flag) m.flags })
  | h :: t, m =>
    if h.owns flag then
      let m1 : Mem :=
        if m.flags.isFlagSet (Cell.mk cells.xMin cells.yMin cells.zMin) flag then
          { m with flags := cells.cells.foldl (fun f c => f.removeFlag c flag) m.flags }
        else m
      let r := h.invoke (Call.setFlagCells h.uid flag cells parameter)
        (h.setFlagCells flag cells parameter) m1
      let rest := setFlagCells flag cells parameter t r.2
      (r.1 :: rest.1, rest.2)
    else
      let rest := setFlagCells flag cells parameter t m
      (h :: rest.1, rest.2)

/-- The helper `flagsToRemove( cons<Head, Tail> & boundaryHandlers, flag, x, y, z )` and
its `null_type` base case. -/
def flagsToRemove (flag : flag_t) (c : Cell) (f : FlagData) : List (Handler σ) → flag_t
  | [] => 0
  | h :: t =>
    let mask := if h.owns flag then h.ownership &&& f c else 0
    mask ||| flagsToRemove flag c f t

/-- The helper `removeFlag( cons<Head, Tail> & boundaryHandlers, flag, x, y, z )` and its
`null_type` base case. -/
def removeFlag (flag : flag_t) (c : Cell) : List (Handler σ) → Mem → List (Handler σ) × Mem
  | [], m => ([], { m with flags := m.flags.removeFlag c flag })
  | h :: t, m =>
    if h.owns flag then
      let m1 : Mem := { m with flags := m.flags.addFlag c flag }
      let r := h.invoke (Call.removeFlag h.uid flag c) (h.removeFlag flag c) m1
      let rest := removeFlag flag c t r.2
      (r.1 :: rest.1, rest.2)
    else
      let rest := removeFlag flag c t m
      (h :: rest.1, rest.2)

/-- The helper `consideredByAllHandlers( cons<Head, Tail> & boundaryHandlers, x, y, z )`
and its `null_type` base case; the handlers consulted are appended to the trace. -/
def consideredByAllHandlers (c : Cell) (f : FlagData) :
    List (Handler σ) → List Call → Bool × List Call
  | [], calls => (true, calls)
  | h :: t, calls =>
    if h.isEmpty c f h.st then (false, calls ++ [Call.isEmpty h.uid c])
    else consideredByAllHandlers c f t (calls ++ [Call.isEmpty h.uid c])

/-- The helper `checkConsistency( cons<Head, Tail> & boundaryHandlers, cells )` and its
`null_type` base case: the tail is evaluated first and `&&` short-circuits. -/
def checkConsistency (cells : CellInterval) (f : FlagData) :
    List (Handler σ) → List Call → Bool × List Call
  | [], calls => (true, calls)
  | h :: t, calls =>
    let rest := checkConsistency cells f t calls
    if rest.1 then (h.checkConsistency cells f h.st, rest.2 ++ [Call.checkConsistency h.uid cells])
    else (false, rest.2)

/-- The helper `refresh( cons<Head, Tail> & boundaryHandlers, cells )` and its `null_type`
base case. -/
def refresh (cells : CellInterval) : List (Handler σ) → Mem → List (Handler σ) × Mem
  | [], m => ([], m)
  | h :: t, m =>
    let r := h.invoke (Call.refresh h.uid cells) (h.refresh cells) m
    let rest := refresh cells t r.2
    (r.1 :: rest.1, rest.2)

/-- The helper `execute( cons<Head, Tail> & boundaryHandlers, cells )` and its `null_type`
base case. -/
def execute (cells : CellInterval) : List (Handler σ) → Mem → List (Handler σ) × Mem
  | [], m => ([], m)
  | h :: t, m =>
    let r := h.invoke (Call.execute h.uid cells) (h.execute cells) m
    let rest := execute cells t r.2
    (r.1 :: rest.1, rest.2)

/-- The helper `numberOfMatchingBoundaryHandlers( cons<Head, Tail> &, uid )` and its
`null_type` base case. -/
def numberOfMatchingBoundaryHandlers (uid : Nat) : List (Handler σ) → Nat
  | [] => 0
  | h :: t => (if h.uid = uid then 1 else 0) + numberOfMatchingBoundaryHandlers uid t

/-- The helper `getBoundaryUIDs( cons<Head, Tail> &, uids )` and its `null_type` base
case: appends the UIDs of every handler to `uids`. -/
def getBoundaryUIDs : List (Handler σ) → List Nat → List Nat
  | [], uids => uids
  | h :: t, uids => getBoundaryUIDs t (uids ++ h.boundaryUIDs)

/-- The helper `checkForIdenticalFlagFields( cons<Head, Tail> & )` and its `null_type`
base case, for a collection attached to the flag field `flagFieldId` with the bounding
box `outerBB`. -/
def checkForIdenticalFlagFields (flagFieldId : Nat) (outerBB : CellInterval) :
    List (Handler σ) → Bool
  | [] => true
  | h :: t =>
    checkForIdenticalFlagFields flagFieldId outerBB t &&
      decide (h.flagFieldId = flagFieldId) && decide (h.outerBB = outerBB)

/-- The helper `isEmpty( cons<Head, Tail> & boundaryHandlers, x, y, z )` and its
`null_type` base case; the handlers consulted are appended to the trace. -/
def isEmpty (c : Cell) (f : FlagData) : List (Handler σ) → List Call → Bool × List Call
  | [], calls => (true, calls)
  | h :: t, calls =>
    if !(h.isEmpty c f h.st) then (false, calls ++ [Call.isEmpty h.uid c])
    else isEmpty c f t (calls ++ [Call.isEmpty h.uid c])

/-- The helper `getBoundaryUID( cons<Head, Tail> & boundaryHandlers, flag )` and its
`null_type` base case, which aborts with one of two messages. -/
def getBoundaryUID (flagField : FlagField) (flag : flag_t) : List (Handler σ) → Except Abort Nat
  | [] =>
    if !flagField.isRegistered flag then Except.error (Abort.flagNotRegistered flag)
    else Except.error (Abort.flagNotHandled flag)
  | h :: t =>
    if h.containsBoundaryCondition flag then Except.ok (h.getBoundaryUID flag)
    else getBoundaryUID flagField flag t

/-- The helper `pack( cons<Head, Tail> & boundaryHandlers, buffer, mask, x, y, z )` and
its `null_type` base case.  The handler asked to pack is `boundaryHandlers_.get_head()`,
the head of the member `boundaryHandlers_` (here `members`), not the head of the argument
`boundaryHandlers` the recursion walks along. -/
def pack (members : List (Handler σ)) (mask : flag_t) (c : Cell) (f : FlagData) :
    List (Handler σ) → Buffer → Buffer
  | [], buffer => buffer
  | _ :: t, buffer =>
    match members with
    | [] => pack members mask c f t buffer
    | first :: _ => pack members mask c f t (buffer ++ first.pack mask c f first.st)

/-- The helper `unpack( cons<Head, Tail> & boundaryHandlers, buffer, mask, x, y, z )` and
its `null_type` base case. -/
def unpack (mask : flag_t) (c : Cell) :
    List (Handler σ) → Buffer → Mem → List (Handler σ) × Buffer × Mem
  | [], buffer, m => ([], buffer, m)
  | h :: t, buffer, m =>
    let flag := h.ownership &&& mask
    if flag ≠ 0 then
      let f1 := m.flags.removeFlag c flag
      let r := h.unpack flag c buffer f1 h.st
      let rest := unpack mask c t r.1
        { flags := r.2.1, calls := m.calls ++ [Call.unpack h.uid flag c] }
      ({ h with st := r.2.2 } :: rest.1, rest.2)
    else
      let rest := unpack mask c t buffer m
      (h :: rest.1, rest.2)

/-- The helper `getBoundaryMask( cons<Head, Tail> & boundaryHandlers, uid )` and its
`null_type` base case, which returns the mask 0. -/
def getBoundaryMask (uid : Nat) : List (Handler σ) → flag_t
  | [] => 0
  | h :: t => if h.containsBoundaryConditionUID uid then h.getBoundaryMaskOf uid
              else getBoundaryMask uid t

/-- The helper `createBoundaryConfiguration( cons<Head, Tail> & boundaryHandlers, uid,
config )` and its `null_type` base case `WALBERLA_ASSERT( false ); return
make_shared<BoundaryConfiguration>();`: the assertion stops a build without `NDEBUG`,
a build with `NDEBUG` returns a default-constructed object. -/
def createBoundaryConfiguration (NDEBUG : Bool) (uid config : Nat) :
    List (Handler σ) → Except Abort BoundaryConfiguration
  | [] => if NDEBUG then Except.ok defaultBoundaryConfiguration
          else Except.error Abort.assertionFailed
  | h :: t => if h.containsBoundaryConditionUID uid
              then Except.ok (h.createBoundaryConfiguration uid config)
              else createBoundaryConfiguration NDEBUG uid config t

/-- The four overloads of `getBoundaryHandling_TypeExists< BoundaryHandling_T, Head,
Tail >( uid, boundaryHandlers )` ("matching type exists"): there is no overload for
`null_type`. -/
def getBoundaryHandling_TypeExists (T uid : Nat) : List (Handler σ) → Lookup (Handler σ)
  | [] => Lookup.rejected
  | [h] =>
    if h.handlingType = T then
      if uid = h.uid then Lookup.found h else Lookup.abort
    else Lookup.abort
  | h :: h2 :: t =>
    if h.handlingType = T then
      if uid = h.uid then Lookup.found h
      else getBoundaryHandling_TypeExists T uid (h2 :: t)
    else getBoundaryHandling_TypeExists T uid (h2 :: t)

/-- The four overloads of `getBoundaryHandling< BoundaryHandling_T, Head, Tail >( uid,
boundaryHandlers )` ("matching type not yet found"): the overload for a last handler of
another type is a `static_assert` that fails, and there is no overload for `null_type`. -/
def getBoundaryHandling (T uid : Nat) : List (Handler σ) → Lookup (Handler σ)
  | [] => Lookup.rejected
  | [h] =>
    if h.handlingType = T then
      if uid = h.uid then Lookup.found h else Lookup.abort
    else Lookup.rejected
  | h :: h2 :: t =>
    if h.handlingType = T then
      if uid = h.uid then Lookup.found h
      else getBoundaryHandling_TypeExists T uid (h2 :: t)
    else getBoundaryHandling T uid (h2 :: t)

/-- The helper `numberOfMatchingHandlers( cons<Head, Tail> &, flag )` and its `null_type`
base case. -/
def numberOfMatchingHandlers (flag : flag_t) : List (Handler σ) → Nat
  | [] => 0
  | h :: t => (if ((h.boundaryMask ||| h.domainMask) &&& flag) = flag then 1 else 0) +
              numberOfMatchingHandlers flag t

/-- The helper `numberOfMatchingHandlersForDomain( cons<Head, Tail> &, flag )` and its
`null_type` base case. -/
def numberOfMatchingHandlersForDomain (flag : flag_t) : List (Handler σ) → Nat
  | [] => 0
  | h :: t => (if (h.domainMask &&& flag) = flag then 1 else 0) +
              numberOfMatchingHandlersForDomain flag t

/-- The helper `numberOfMatchingHandlersForBoundary( cons<Head, Tail> &, flag )` and its
`null_type` base case. -/
def numberOfMatchingHandlersForBoundary (flag : flag_t) : List (Handler σ) → Nat
  | [] => 0
  | h :: t => (if (h.boundaryMask &&& flag) = flag then 1 else 0) +
              numberOfMatchingHandlersForBoundary flag t

/-- The helper `execute( cons<Head, Tail> & boundaryHandlers,
numberOfGhostLayersToInclude )` and its `null_type` base case. -/
def executeLayers (numberOfGhostLayersToInclude : Nat) :
    List (Handler σ) → Mem → List (Handler σ) × Mem
  | [], m => ([], m)
  | h :: t, m =>
    let r := h.invoke (Call.executeLayers h.uid numberOfGhostLayersToInclude)
      (h.executeLayers numberOfGhostLayersToInclude) m
    let rest := executeLayers numberOfGhostLayersToInclude t r.2
    (r.1 :: rest.1, rest.2)

/-- The helper `execute( cons<Head, Tail> & boundaryHandlers, x, y, z )` and its
`null_type` base case. -/
def executeCell (c : Cell) : List (Handler σ) → Mem → List (Handler σ) × Mem
  | [], m => ([], m)
  | h :: t, m =>
    let r := h.invoke (Call.executeCell h.uid c) (h.executeCell c) m
    let rest := executeCell c t r.2
    (r.1 :: rest.1, rest.2)

/-- The helper `execute( cons<Head, Tail> & boundaryHandlers, begin, end )` and its
`null_type` base case; the iterator pair is the list of cells it runs over. -/
def executeRange (range : List Cell) : List (Handler σ) → Mem → List (Handler σ) × Mem
  | [], m => ([], m)
  | h :: t, m =>
    let r := h.invoke (Call.executeRange h.uid range) (h.executeRange range) m
    let rest := executeRange range t r.2
    (r.1 :: rest.1, rest.2)

/-- The helper `beforeBoundaryTreatment( cons<Head, Tail> & boundaryHandlers )` and its
`null_type` base case. -/
def beforeBoundaryTreatment : List (Handler σ) → Mem → List (Handler σ) × Mem
  | [], m => ([], m)
  | h :: t, m =>
    let r := h.invoke (Call.beforeBoundaryTreatment h.uid) h.beforeBoundaryTreatment m
    let rest := beforeBoundaryTreatment t r.2
    (r.1 :: rest.1, rest.2)

/-- The helper `afterBoundaryTreatment( cons<Head, Tail> & boundaryHandlers )` and its
`null_type` base case. -/
def afterBoundaryTreatment : List (Handler σ) → Mem → List (Handler σ) × Mem
  | [], m => ([], m)
  | h :: t, m =>
    let r := h.invoke (Call.afterBoundaryTreatment h.uid) h.afterBoundaryTreatment m
    let rest := afterBoundaryTreatment t r.2
    (r.1 :: rest.1, rest.2)

end Tuple

/-! ## The collection and its public operations -/

/-- The class `BoundaryHandlingCollection< FlagField_T, Tuple >`: the flag field it is
attached to (`flagField_`, with its contents), the cached bounding box `outerBB_`, the
handlers `boundaryHandlers_`, and the trace of the handler calls made so far. -/
structure BoundaryHandlingCollection (σ : Type) where
  flagField : FlagField
  outerBB : CellInterval
  boundaryHandlers : List (Handler σ)
  calls : List Call

namespace BoundaryHandlingCollection

variable {σ : Type}

/-- The memory the private helpers work on. -/
def mem (bhc : BoundaryHandlingCollection σ) : Mem :=
  { flags := bhc.flagField.data, calls := bhc.calls }

/-- Store the handlers and the memory a private helper has left behind. -/
def store (bhc : BoundaryHandlingCollection σ) (handlers : List (Handler σ)) (m : Mem) :
    BoundaryHandlingCollection σ :=
  { bhc with
    flagField := { bhc.flagField with data := m.flags }
    boundaryHandlers := handlers
    calls := m.calls }

/-- The statement `flagField_->removeMask( x, y, z, clear( boundaryHandlers_, x, y, z ) )`. -/
def clearCell (bhc : BoundaryHandlingCollection σ) (c : Cell) : BoundaryHandlingCollection σ :=
  let r := Tuple.clear c bhc.boundaryHandlers bhc.mem
  bhc.store r.1 { r.2.1 with flags := r.2.1.flags.removeMask c r.2.2 }

/-- The public `clear( x, y, z )`. -/
def clear (bhc : BoundaryHandlingCollection σ) (c : Cell) : BoundaryHandlingCollection σ :=
  if !bhc.outerBB.contains c then bhc else bhc.clearCell c

/-- The public `clear( const CellInterval & cells )`. -/
def clearCells (bhc : BoundaryHandlingCollection σ) (cells : CellInterval) :
    BoundaryHandlingCollection σ :=
  let localCells := bhc.outerBB.intersect cells
  if localCells.empty then bhc else localCells.cells.foldl clearCell bhc

/-- The public `setFlag( const flag_t flag, x, y, z, parameter )`. -/
def setFlag (bhc : BoundaryHandlingCollection σ) (flag : flag_t) (c : Cell)
    (parameter : BoundaryConfiguration) : BoundaryHandlingCollection σ :=
  if !bhc.outerBB.contains c then bhc
  else
    let r := Tuple.setFlag flag c parameter bhc.boundaryHandlers bhc.mem
    bhc.store r.1 r.2

/-- The public `setFlag( const flag_t flag, const CellInterval & cells, parameter )`. -/
def setFlagCells (bhc : BoundaryHandlingCollection σ) (flag : flag_t) (cells : CellInterval)
    (parameter : BoundaryConfiguration) : BoundaryHandlingCollection σ :=
  let localCells := bhc.outerBB.intersect cells
  if localCells.empty then bhc
  else
    let r := Tuple.setFlagCells flag localCells parameter bhc.boundaryHandlers bhc.mem
    bhc.store r.1 r.2

/-- One pass of the loop body of `forceFlagHelper` for the bit position `bit`. -/
def forceFlagBit (mask : flag_t) (c : Cell) (bhc : BoundaryHandlingCollection σ) (bit : Nat) :
    BoundaryHandlingCollection σ :=
  let flagToRemove : flag_t := 1 <<< bit
  if (flagToRemove &&& mask) = flagToRemove then
    let r := Tuple.removeFlag flagToRemove c bhc.boundaryHandlers bhc.mem
    bhc.store r.1 r.2
  else bhc

/-- The private `forceFlagHelper( flag, x, y, z, parameter )`. -/
def forceFlagHelper (bhc : BoundaryHandlingCollection σ) (flag : flag_t) (c : Cell)
    (parameter : BoundaryConfiguration) : BoundaryHandlingCollection σ :=
  let mask := Tuple.flagsToRemove flag c bhc.flagField.data bhc.boundaryHandlers
  let b1 := (List.range bhc.flagField.digits).foldl (forceFlagBit mask c) bhc
  let r := Tuple.setFlag flag c parameter b1.boundaryHandlers b1.mem
  b1.store r.1 r.2

/-- The public `forceFlag( const flag_t flag, x, y, z, parameter )`. -/
def forceFlag (bhc : BoundaryHandlingCollection σ) (flag : flag_t) (c : Cell)
    (parameter : BoundaryConfiguration) : BoundaryHandlingCollection σ :=
  if !bhc.outerBB.contains c then bhc else bhc.forceFlagHelper flag c parameter

/-- The public `forceFlag( const flag_t flag, const CellInterval & cells, parameter )`. -/
def forceFlagCells (bhc : BoundaryHandlingCollection σ) (flag : flag_t) (cells : CellInterval)
    (parameter : BoundaryConfiguration) : BoundaryHandlingCollection σ :=
  let localCells := bhc.outerBB.intersect cells
  if localCells.empty then bhc
  else localCells.cells.foldl (fun b c => b.forceFlagHelper flag c parameter) bhc

/-- The public `removeFlag( const flag_t flag, x, y, z )`. -/
def removeFlag (bhc : BoundaryHandlingCollection σ) (flag : flag_t) (c : Cell) :
    BoundaryHandlingCollection σ :=
  if !bhc.outerBB.contains c || !bhc.flagField.data.isFlagSet c flag then bhc
  else
    let r := Tuple.removeFlag flag c bhc.boundaryHandlers bhc.mem
    bhc.store r.1 r.2

/-- The body of the loop of `removeFlag( const flag_t flag, const CellInterval & cells )`. -/
def removeFlagIfSet (flag : flag_t) (bhc : BoundaryHandlingCollection σ) (c : Cell) :
    BoundaryHandlingCollection σ :=
  if bhc.flagField.data.isFlagSet c flag then
    let r := Tuple.removeFlag flag c bhc.boundaryHandlers bhc.mem
    bhc.store r.1 r.2
  else bhc

/-- The public `removeFlag( const flag_t flag, const CellInterval & cells )`. -/
def removeFlagCells (bhc : BoundaryHandlingCollection σ) (flag : flag_t)
    (cells : CellInterval) : BoundaryHandlingCollection σ :=
  let localCells := bhc.outerBB.intersect cells
  if localCells.empty then bhc else localCells.cells.foldl (removeFlagIfSet flag) bhc

/-- The public `consideredByAllHandlers( x, y, z )`: the answer, and the collection with
the consulted handlers appended to its trace. -/
def consideredByAllHandlers (bhc : BoundaryHandlingCollection σ) (c : Cell) :
    Bool × BoundaryHandlingCollection σ :=
  let r := Tuple.consideredByAllHandlers c bhc.flagField.data bhc.boundaryHandlers bhc.calls
  (r.1, { bhc with calls := r.2 })

/-- The triple loop of `consideredByAllHandlers( const CellInterval & cells )` over the
cells still to visit, leaving at the first cell that is not considered. -/
def consideredByAllHandlersLoop :
    List Cell → BoundaryHandlingCollection σ → Bool × BoundaryHandlingCollection σ
  | [], bhc => (true, bhc)
  | c :: rest, bhc =>
    let r := bhc.consideredByAllHandlers c
    if !r.1 then (false, r.2) else consideredByAllHandlersLoop rest r.2

/-- The public `consideredByAllHandlers( const CellInterval & cells )`. -/
def consideredByAllHandlersCells (bhc : BoundaryHandlingCollection σ) (cells : CellInterval) :
    Bool × BoundaryHandlingCollection σ :=
  consideredByAllHandlersLoop cells.cells bhc

/-- The public `checkConsistency( const CellInterval & cells )`. -/
def checkConsistencyCells (bhc : BoundaryHandlingCollection σ) (cells : CellInterval) :
    Bool × BoundaryHandlingCollection σ :=
  let r := Tuple.checkConsistency cells bhc.flagField.data bhc.boundaryHandlers bhc.calls
  (r.1, { bhc with calls := r.2 })

/-- The public `refresh( const CellInterval & cells )`. -/
def refreshCells (bhc : BoundaryHandlingCollection σ) (cells : CellInterval) :
    BoundaryHandlingCollection σ :=
  let r := Tuple.refresh cells bhc.boundaryHandlers bhc.mem
  bhc.store r.1 r.2

/-- The public `operator()( const CellInterval & cells )`. -/
def executeCells (bhc : BoundaryHandlingCollection σ) (cells : CellInterval) :
    BoundaryHandlingCollection σ :=
  let r := Tuple.execute cells bhc.boundaryHandlers bhc.mem
  bhc.store r.1 r.2

/-- The initialiser of `outerBB_`: the index range of the field with all ghost layers,
with the sums taken in `uint_t` and the casts, negations and differences in `cell_idx_t`. -/
def initOuterBB (flagField : FlagField) : CellInterval :=
  { xMin := cell_idx_t.wrap (-cell_idx_c flagField.nrOfGhostLayers)
    yMin := cell_idx_t.wrap (-cell_idx_c flagField.nrOfGhostLayers)
    zMin := cell_idx_t.wrap (-cell_idx_c flagField.nrOfGhostLayers)
    xMax := cell_idx_t.wrap
      (cell_idx_c (uint_t.add flagField.xSize flagField.nrOfGhostLayers) - 1)
    yMax := cell_idx_t.wrap
      (cell_idx_c (uint_t.add flagField.ySize flagField.nrOfGhostLayers) - 1)
    zMax := cell_idx_t.wrap
      (cell_idx_c (uint_t.add flagField.zSize flagField.nrOfGhostLayers) - 1) }

/-- The private `checkForUniqueBoundaryHandlingUIDs( cons<Head, Tail> & )` and its
`null_type` base case: walks the tuple, counting for every head the handlers of the
whole collection (`allHandlers`, the member `boundaryHandlers_`) with the same UID. -/
def checkForUniqueBoundaryHandlingUIDs (allHandlers : List (Handler σ)) :
    List (Handler σ) → Except Abort Unit
  | [] => Except.ok ()
  | h :: t =>
    if Tuple.numberOfMatchingBoundaryHandlers h.uid allHandlers ≠ 1 then
      Except.error (Abort.boundaryHandlingUIDNotUnique h.uid)
    else checkForUniqueBoundaryHandlingUIDs allHandlers t

/-- The private `getBoundaryUIDs()`. -/
def getBoundaryUIDs (boundaryHandlers : List (Handler σ)) : List Nat :=
  Tuple.getBoundaryUIDs boundaryHandlers []

/-- The loop "check for unique boundaries" of the constructor. -/
def checkForUniqueBoundaryUIDs (uids : List Nat) : List Nat → Except Abort Unit
  | [] => Except.ok ()
  | uid :: rest =>
    if uids.count uid ≠ 1 then Except.error (Abort.boundaryUIDNotUnique uid)
    else checkForUniqueBoundaryUIDs uids rest

/-- The constructor `BoundaryHandlingCollection( identifier, flagField, boundaryHandlers )`
(the identifier only names the collection in messages and is left out). -/
def construct (flagField : FlagField) (boundaryHandlers : List (Handler σ)) :
    Except Abort (BoundaryHandlingCollection σ) :=
  let outerBB := initOuterBB flagField
  if flagField.nrOfGhostLayers < 1 then Except.error Abort.noGhostLayer
  else if !Tuple.checkForIdenticalFlagFields flagField.id outerBB boundaryHandlers then
    Except.error Abort.differentFlagField
  else
    match checkForUniqueBoundaryHandlingUIDs boundaryHandlers boundaryHandlers with
    | Except.error e => Except.error e
    | Except.ok _ =>
      let uids := getBoundaryUIDs boundaryHandlers
      match checkForUniqueBoundaryUIDs uids uids with
      | Except.error e => Except.error e
      | Except.ok _ =>
        Except.ok { flagField := flagField, outerBB := outerBB,
                    boundaryHandlers := boundaryHandlers, calls := [] }

/-- The public `isEmpty( x, y, z )`: the answer, and the collection with the consulted
handlers appended to its trace. -/
def isEmpty (bhc : BoundaryHandlingCollection σ) (c : Cell) :
    Bool × BoundaryHandlingCollection σ :=
  let r := Tuple.isEmpty c bhc.flagField.data bhc.boundaryHandlers bhc.calls
  (r.1, { bhc with calls := r.2 })

/-- The public `consideredByAllHandlers( begin, end )` for the cells an iterator range
runs through. -/
def consideredByAllHandlersRange (bhc : BoundaryHandlingCollection σ) (range : List Cell) :
    Bool × BoundaryHandlingCollection σ :=
  consideredByAllHandlersLoop range bhc

/-- The public `getBoundaryUID( const flag_t flag )`. -/
def getBoundaryUID (bhc : BoundaryHandlingCollection σ) (flag : flag_t) : Except Abort Nat :=
  Tuple.getBoundaryUID bhc.flagField flag bhc.boundaryHandlers

/-- The body of the triple loop of `pack`: the raw mask of the cell, then the helper. -/
def packCell (bhc : BoundaryHandlingCollection σ) (buffer : Buffer) (c : Cell) : Buffer :=
  let mask := bhc.flagField.data c
  Tuple.pack bhc.boundaryHandlers mask c bhc.flagField.data bhc.boundaryHandlers
    (buffer ++ [BufferItem.mask mask])

/-- The public `pack( buffer, direction, numberOfLayers, assumeIdenticalFlagMapping )`,
for a build with (`NDEBUG = true`) or without the macro `NDEBUG` defined.  The flag
mapping and the packing interval are those of `boundaryHandlers_.get_head()`: with an
empty tuple the function cannot be instantiated, and there is no result. -/
def pack (bhc : BoundaryHandlingCollection σ) (NDEBUG : Bool) (buffer : Buffer)
    (direction : Direction) (numberOfLayers : Nat) (assumeIdenticalFlagMapping : Bool) :
    Option Buffer :=
  match bhc.boundaryHandlers with
  | [] => none
  | first :: _ =>
    let buffer1 :=
      if NDEBUG && assumeIdenticalFlagMapping then buffer
      else buffer ++ [BufferItem.flagMapping first.getFlagMapping]
    some ((first.getPackingInterval direction numberOfLayers).cells.foldl bhc.packCell buffer1)

/-- The body of the triple loop of `unpack` for one cell: read the mask, translate it
unless the mappings are identical, write it into the field, then the helper.  There is
no result when the buffer does not hold a mask at the read position. -/
def unpackCell (identicalFlagMapping : Bool) (flagMapping : List flag_t)
    (s : Option (Buffer × BoundaryHandlingCollection σ)) (c : Cell) :
    Option (Buffer × BoundaryHandlingCollection σ) :=
  match s with
  | none => none
  | some (buffer, bhc) =>
    match buffer, bhc.boundaryHandlers with
    | BufferItem.mask raw :: rest, first :: _ =>
      let mask := if !identicalFlagMapping then first.translateMask raw flagMapping else raw
      let r := Tuple.unpack mask c bhc.boundaryHandlers rest
        { flags := bhc.flagField.data.set c mask, calls := bhc.calls }
      some (r.2.1, bhc.store r.1 r.2.2)
    | _, _ => none

/-- The public `unpack( buffer, direction, numberOfLayers, assumeIdenticalFlagMapping )`:
the rest of the buffer and the collection afterwards. -/
def unpack (bhc : BoundaryHandlingCollection σ) (buffer : Buffer) (direction : Direction)
    (numberOfLayers : Nat) (assumeIdenticalFlagMapping : Bool) :
    Option (Buffer × BoundaryHandlingCollection σ) :=
  match bhc.boundaryHandlers with
  | [] => none
  | first :: _ =>
    let r := first.getNeighborFlagMapping buffer assumeIdenticalFlagMapping
    let interval := first.getUnpackingInterval direction numberOfLayers
    interval.cells.foldl (unpackCell r.2.1 r.2.2) (some (r.1, bhc.clearCells interval))

/-- The public `getBoundaryMask( const BoundaryUID & uid )`. -/
def getBoundaryMask (bhc : BoundaryHandlingCollection σ) (uid : Nat) : flag_t :=
  Tuple.getBoundaryMask uid bhc.boundaryHandlers

/-- The public `createBoundaryConfiguration( uid, config )`, for a build with
(`NDEBUG = true`) or without the macro `NDEBUG` defined. -/
def createBoundaryConfiguration (bhc : BoundaryHandlingCollection σ) (NDEBUG : Bool)
    (uid config : Nat) : Except Abort BoundaryConfiguration :=
  Tuple.createBoundaryConfiguration NDEBUG uid config bhc.boundaryHandlers

/-- The public `getBoundaryHandling< BoundaryHandling_T >( uid )`, both the `const`
member and the one that casts its result. -/
def getBoundaryHandling (bhc : BoundaryHandlingCollection σ) (T uid : Nat) :
    Lookup (Handler σ) :=
  Tuple.getBoundaryHandling T uid bhc.boundaryHandlers

/-- The public `numberOfMatchingHandlers( flag )`. -/
def numberOfMatchingHandlers (bhc : BoundaryHandlingCollection σ) (flag : flag_t) : Nat :=
  Tuple.numberOfMatchingHandlers flag bhc.boundaryHandlers

/-- The public `numberOfMatchingHandlersForDomain( flag )`. -/
def numberOfMatchingHandlersForDomain (bhc : BoundaryHandlingCollection σ) (flag : flag_t) :
    Nat :=
  Tuple.numberOfMatchingHandlersForDomain flag bhc.boundaryHandlers

/-- The public `numberOfMatchingHandlersForBoundary( flag )`. -/
def numberOfMatchingHandlersForBoundary (bhc : BoundaryHandlingCollection σ)
    (flag : flag_t) : Nat :=
  Tuple.numberOfMatchingHandlersForBoundary flag bhc.boundaryHandlers

/-- The public `beforeBoundaryTreatment()`. -/
def beforeBoundaryTreatment (bhc : BoundaryHandlingCollection σ) :
    BoundaryHandlingCollection σ :=
  let r := Tuple.beforeBoundaryTreatment bhc.boundaryHandlers bhc.mem
  bhc.store r.1 r.2

/-- The public `afterBoundaryTreatment()`. -/
def afterBoundaryTreatment (bhc : BoundaryHandlingCollection σ) :
    BoundaryHandlingCollection σ :=
  let r := Tuple.afterBoundaryTreatment bhc.boundaryHandlers bhc.mem
  bhc.store r.1 r.2

/-- The public `operator()( const uint_t numberOfGhostLayersToInclude )`. -/
def executeLayers (bhc : BoundaryHandlingCollection σ) (numberOfGhostLayersToInclude : Nat) :
    BoundaryHandlingCollection σ :=
  let r := Tuple.executeLayers numberOfGhostLayersToInclude bhc.boundaryHandlers bhc.mem
  bhc.store r.1 r.2

/-- The public `operator()( x, y, z )`. -/
def executeCell (bhc : BoundaryHandlingCollection σ) (c : Cell) :
    BoundaryHandlingCollection σ :=
  let r := Tuple.executeCell c bhc.boundaryHandlers bhc.mem
  bhc.store r.1 r.2

/-- The public `operator()( const CellIterator & begin, const CellIterator & end )`. -/
def executeRange (bhc : BoundaryHandlingCollection σ) (range : List Cell) :
    BoundaryHandlingCollection σ :=
  let r := Tuple.executeRange range bhc.boundaryHandlers bhc.mem
  bhc.store r.1 r.2

/-- The member `getGhostLayerCellInterval( numberOfGhostLayersToInclude )`, with the sums
taken in `uint_t` and the casts, negations and differences in `cell_idx_t`. -/
def getGhostLayerCellInterval (bhc : BoundaryHandlingCollection σ)
    (numberOfGhostLayersToInclude : Nat) : CellInterval :=
  { xMin := cell_idx_t.wrap (-cell_idx_c numberOfGhostLayersToInclude)
    yMin := cell_idx_t.wrap (-cell_idx_c numberOfGhostLayersToInclude)
    zMin := cell_idx_t.wrap (-cell_idx_c numberOfGhostLayersToInclude)
    xMax := cell_idx_t.wrap
      (cell_idx_c (uint_t.add bhc.flagField.xSize numberOfGhostLayersToInclude) - 1)
    yMax := cell_idx_t.wrap
      (cell_idx_c (uint_t.add bhc.flagField.ySize numberOfGhostLayersToInclude) - 1)
    zMax := cell_idx_t.wrap
      (cell_idx_c (uint_t.add bhc.flagField.zSize numberOfGhostLayersToInclude) - 1) }

/-- The public `checkConsistency( const uint_t numberOfGhostLayersToInclude )`. -/
def checkConsistencyLayers (bhc : BoundaryHandlingCollection σ)
    (numberOfGhostLayersToInclude : Nat) : Bool × BoundaryHandlingCollection σ :=
  let cells := bhc.getGhostLayerCellInterval numberOfGhostLayersToInclude
  bhc.checkConsistencyCells cells

/-- The member `operator==`, `WALBERLA_ASSERT( false ); return false;`, for a build with
(`NDEBUG = true`) or without the macro `NDEBUG` defined: the assertion stops a build
without it. -/
def operatorEq (NDEBUG : Bool) (_lhs _rhs : BoundaryHandlingCollection σ) :
    Except Abort Bool :=
  if NDEBUG then Except.ok false else Except.error Abort.assertionFailed

/-- The member `operator!=`, `return !operator==( rhs );`. -/
def operatorNe (NDEBUG : Bool) (lhs rhs : BoundaryHandlingCollection σ) :
    Except Abort Bool :=
  match operatorEq NDEBUG lhs rhs with
  | Except.ok equal => Except.ok (!equal)
  | Except.error abort => Except.error abort

end BoundaryHandlingCollection

/-! ## Example handlers -/

/-- A handler in the style of `BoundaryHandling`: `setFlag` sets the flag, `removeFlag`
and `clear` remove the handler's own bits, and the private state counts the mutating
calls received.  It has a boundary condition for every non-zero flag inside its boundary
mask (none for its domain flags) and reports its first Boundary UID for it.  Its payload
for a cell whose mask meets its ownership mask is one word, `100 * uid + state`;
unpacking takes one payload word off the buffer into the state and sets the flag.  It
packs the cells `x = 0 .. n-1` and unpacks into the cells `x = -n .. -1` of the row
`y = z = 0`. -/
def plainHandler (uid : Nat) (boundaryUIDs : List Nat) (flagFieldId : Nat)
    (outerBB : CellInterval) (boundaryMask domainMask : flag_t) : Handler Nat :=
  { uid := uid
    boundaryUIDs := boundaryUIDs
    flagFieldId := flagFieldId
    outerBB := outerBB
    boundaryMask := boundaryMask
    domainMask := domainMask
    st := 0
    isEmpty := fun c f _ => (f c &&& (boundaryMask ||| domainMask)) == 0
    setFlag := fun flag c _ f n => (f.addFlag c flag, n + 1)
    setFlagCells := fun flag cells _ f n =>
      (cells.cells.foldl (fun g c => g.addFlag c flag) f, n + 1)
    removeFlag := fun flag c f n => (f.removeFlag c flag, n + 1)
    clear := fun c f n => (f.removeMask c (boundaryMask ||| domainMask), n + 1)
    checkConsistency := fun _ _ _ => true
    refresh := fun _ f n => (f, n + 1)
    execute := fun _ f n => (f, n + 1)
    containsBoundaryCondition := fun flag =>
      decide (flag ≠ 0) && (boundaryMask &&& flag) == flag
    getBoundaryUID := fun _ => boundaryUIDs.headD 0
    getFlagMapping := [(0, 1), (1, 2), (2, 4), (3, 8)]
    getNeighborFlagMapping := fun buffer assumeIdenticalFlagMapping =>
      if assumeIdenticalFlagMapping then (buffer, true, [])
      else
        match buffer with
        | BufferItem.flagMapping mapping :: rest =>
          (rest, decide (mapping = [(0, 1), (1, 2), (2, 4), (3, 8)]), mapping.map Prod.snd)
        | _ => (buffer, true, [])
    translateMask := fun mask _ => mask
    getPackingInterval := fun _ n => CellInterval.mk 0 0 0 ((n : Int) - 1) 0 0
    getUnpackingInterval := fun _ n => CellInterval.mk (-(n : Int)) 0 0 (-1) 0 0
    pack := fun mask _ _ n =>
      if mask &&& (boundaryMask ||| domainMask) = 0 then [] else [BufferItem.payload (100 * uid + n)]
    unpack := fun flag c buffer f n =>
      match buffer with
      | BufferItem.payload word :: rest => (rest, f.addFlag c flag, word)
      | _ => (buffer, f.addFlag c flag, n)
    handlingType := 0
    containsBoundaryConditionUID := fun boundaryUID => decide (boundaryUID ∈ boundaryUIDs)
    getBoundaryMaskOf := fun _ => boundaryMask
    createBoundaryConfiguration := fun boundaryUID config => 1000 * boundaryUID + config + 1
    beforeBoundaryTreatment := fun f n => (f, n + 1)
    afterBoundaryTreatment := fun f n => (f, n + 1)
    executeLayers := fun _ f n => (f, n + 1)
    executeCell := fun _ f n => (f, n + 1)
    executeRange := fun _ f n => (f, n + 1) }

/-- A flag field of 2 x 2 x 2 interior cells with one ghost layer, all masks zero. -/
def exampleField : FlagField :=
  { id := 7, digits := 8, xSize := 2, ySize := 2, zSize := 2, nrOfGhostLayers := 1,
    data := fun _ => 0, isRegistered := fun flag => decide (flag ∈ [1, 2, 4, 8]) }

/-- The bounding box of `exampleField`. -/
def exampleBB : CellInterval := BoundaryHandlingCollection.initOuterBB exampleField

/-- A collection over `exampleField` with the given handlers. -/
def exampleCollection (handlers : List (Handler Nat)) : BoundaryHandlingCollection Nat :=
  { flagField := exampleField, outerBB := exampleBB, boundaryHandlers := handlers, calls := [] }

/-! ## Contracts of the handlers and notions used in the statements -/

/-- The union of the ownership masks of all handlers of a list. -/
def ownershipUnion {σ : Type} : List (Handler σ) → flag_t
  | [] => 0
  | h :: t => h.ownership ||| ownershipUnion t

/-- The clear of a handler removes exactly the set bits of its ownership mask at the
cell and changes nothing else in the flag field. -/
def Handler.ClearsOwnBits {σ : Type} (h : Handler σ) (c : Cell) : Prop :=
  ∀ (f : FlagData) (st : σ), (h.clear c f st).1 = f.removeMask c h.ownership

/-- The clear of a handler only removes bits from the mask of the cell: no other cell
changes, and every bit set at the cell afterwards was set before. -/
def Handler.ClearOnlyRemoves {σ : Type} (h : Handler σ) (c : Cell) : Prop :=
  ∀ (f : FlagData) (st : σ),
    (∀ d, d ≠ c → (h.clear c f st).1 d = f d) ∧
    (h.clear c f st).1 c &&& f c = (h.clear c f st).1 c

/-- The clear of a handler sets no bit at the cell: every bit set at the cell afterwards
was set before. -/
def Handler.ClearSetsNoBit {σ : Type} (h : Handler σ) (c : Cell) : Prop :=
  ∀ (f : FlagData) (st : σ), (h.clear c f st).1 c &&& f c = (h.clear c f st).1 c

/-- The union, over the handlers of a list, of the bits each handler's clear removes
from the cell when it is run on the flag field `f`. -/
def removedUnion {σ : Type} (c : Cell) (f : FlagData) : List (Handler σ) → flag_t
  | [] => 0
  | h :: t => (f c ^^^ (h.clear c f h.st).1 c) ||| removedUnion c f t

/-- Flag field contents used in examples: mask 13 in the plane `x = 0`, zero elsewhere. -/
def exampleData : FlagData := fun c => if c.x = 0 then 13 else 0

/-- A cell of `exampleField` in the plane `x = 0`. -/
def originCell : Cell := Cell.mk 0 0 0

/-- Example handler with UID 1, boundary mask 1 and domain mask 2. -/
def handlerA : Handler Nat := plainHandler 1 [10] 7 exampleBB 1 2

/-- Example handler with UID 2, boundary mask 4 and domain mask 0. -/
def handlerB : Handler Nat := plainHandler 2 [20, 21] 7 exampleBB 4 0

/-- A collection over `exampleField` with the contents `exampleData`. -/
def exampleCollectionWith (handlers : List (Handler Nat)) (data : FlagData) :
    BoundaryHandlingCollection Nat :=
  { flagField := { exampleField with data := data }, outerBB := exampleBB,
    boundaryHandlers := handlers, calls := [] }

/-- Example handler of another C++ type than the other example handlers: `handlerB`
with the type tag 1. -/
def handlerD : Handler Nat := { handlerB with handlingType := 1 }

/-- Example handler that reports an inconsistency for every region: `handlerB` with
another consistency check. -/
def handlerE : Handler Nat := { handlerB with checkConsistency := fun _ _ _ => false }

/-- Example handler with UID 3, boundary mask 1 and domain mask 8: its ownership mask
overlaps the one of `handlerA` in bit 1. -/
def handlerC : Handler Nat := plainHandler 3 [30] 7 exampleBB 1 8

/-- The calls of `setFlag` that the collection makes for the handlers of a list that own
the flag, one per owner and in list order. -/
def setFlagCalls {σ : Type} (flag : flag_t) (c : Cell) (parameter : BoundaryConfiguration)
    (hs : List (Handler σ)) : List Call :=
  (hs.filter (fun h => h.owns flag)).map (fun h => Call.setFlag h.uid flag c parameter)

/-- Two flag field contents agree everywhere except, possibly, in the bits of `flag` at
the cell `c`. -/
def FlagData.AgreeOff (flag : flag_t) (c : Cell) (f g : FlagData) : Prop :=
  (∀ d, d ≠ c → f d = g d) ∧ ∀ i, flag.testBit i = false → (f c).testBit i = (g c).testBit i

/-- Modelled from the spec: the contract of `BoundaryHandling::setFlag` and
`BoundaryHandling::removeFlag` (`BoundaryHandling.h` is not part of the sources at hand):
each changes at most the addressed flag bit of the addressed cell of the flag field. -/
def Handler.ChangesOnlyFlagBit {σ : Type} (h : Handler σ) : Prop :=
  ∀ (flag : flag_t) (c : Cell) (f : FlagData) (st : σ),
    (∀ p, FlagData.AgreeOff flag c (h.setFlag flag c p f st).1 f) ∧
    FlagData.AgreeOff flag c (h.removeFlag flag c f st).1 f

/-- The handler `k` is the handler `h` with another private state: same identifiers,
masks and operations. -/
def Handler.SameClass {σ : Type} (h k : Handler σ) : Prop :=
  ∃ s, k = { h with st := s }

/-- The contents `forceFlag(flag, cell)` leaves behind when started on the contents `f`
with the handlers `hs`: at the cell, `(old & ~flagsToRemove) | flag`. -/
def forcedData {σ : Type} (flag : flag_t) (c : Cell) (f : FlagData) (hs : List (Handler σ)) :
    FlagData :=
  (f.removeMask c (Tuple.flagsToRemove flag c f hs)).addFlag c flag

/-- Modelled from the spec: the frame contract of the flag operations of a handler
(`BoundaryHandling.h` is not part of the sources at hand): an operation on a cell changes
the flag field at most at that cell, an operation on an interval at most at the cells of
the interval it is handed. -/
def Handler.Local {σ : Type} (h : Handler σ) : Prop :=
  (∀ flag c p f st d, d ≠ c → (h.setFlag flag c p f st).1 d = f d) ∧
  (∀ flag c f st d, d ≠ c → (h.removeFlag flag c f st).1 d = f d) ∧
  (∀ c f st d, d ≠ c → (h.clear c f st).1 d = f d) ∧
  (∀ flag cells p f st d, cells.contains d = false → (h.setFlagCells flag cells p f st).1 d = f d)

/-- The visit `visit` of a handler list runs the operation `op` of every handler exactly
once, in list order: it does nothing for the empty list, and for the list
`pre ++ h :: post` it first visits `pre`, then runs `op h` on the flag field this leaves
and on the private state of `h` (recording the call `call h`), keeps the flag field and
the state that `op h` returns, and goes on to visit `post` from there. -/
def Tuple.VisitsEach {σ : Type}
    (visit : List (Handler σ) → Mem → List (Handler σ) × Mem)
    (op : Handler σ → FlagData → σ → FlagData × σ) (call : Handler σ → Call) : Prop :=
  (∀ m, visit [] m = ([], m)) ∧
  ∀ (pre : List (Handler σ)) (h : Handler σ) (post : List (Handler σ)) (m : Mem),
    visit (pre ++ h :: post) m =
      ((visit pre m).1 ++
        { h with st := (op h (visit pre m).2.flags h.st).2 } ::
          (visit post { flags := (op h (visit pre m).2.flags h.st).1,
                        calls := (visit pre m).2.calls ++ [call h] }).1,
       (visit post { flags := (op h (visit pre m).2.flags h.st).1,
                     calls := (visit pre m).2.calls ++ [call h] }).2)

/-- The region a handler call is about lies in the interval `region`: a call for a cell
addresses a cell of `region`, a call for an interval is handed exactly `region`. -/
def Call.within (region : CellInterval) : Call → Bool
  | Call.isEmpty _ c => region.contains c
  | Call.setFlag _ _ c _ => region.contains c
  | Call.setFlagCells _ _ cells _ => decide (cells = region)
  | Call.removeFlag _ _ c => region.contains c
  | Call.clear _ c => region.contains c
  | Call.checkConsistency _ cells => decide (cells = region)
  | Call.refresh _ cells => decide (cells = region)
  | Call.execute _ cells => decide (cells = region)
  | Call.unpack _ _ c => region.contains c
  | Call.beforeBoundaryTreatment _ => false
  | Call.afterBoundaryTreatment _ => false
  | Call.executeLayers _ _ => false
  | Call.executeCell _ c => region.contains c
  | Call.executeRange _ range => range.all region.contains

/-- From `m` to `n` the flag field has changed at most inside `region`, and the handler
calls made in between are all within `region`. -/
def Mem.Frame (region : CellInterval) (m n : Mem) : Prop :=
  (∀ d, region.contains d = false → n.flags d = m.flags d) ∧
  ∃ new, n.calls = m.calls ++ new ∧ ∀ call ∈ new, call.within region = true

/-- The same for two states of a collection, whose handlers moreover are the same up to
their private state. -/
def BoundaryHandlingCollection.Frame {σ : Type} (region : CellInterval)
    (a b : BoundaryHandlingCollection σ) : Prop :=
  Mem.Frame region a.mem b.mem ∧
  List.Forall₂ Handler.SameClass a.boundaryHandlers b.boundaryHandlers

/-- An operation that takes the collection from `before` to `after` is confined to
`region`: no cell outside `region` has changed, every handler call made in between is
within `region`, and if `region` is empty nothing at all has changed (no handler was
invoked). -/
def BoundaryHandlingCollection.ConfinedTo {σ : Type} (region : CellInterval)
    (before after : BoundaryHandlingCollection σ) : Prop :=
  (∀ d, region.contains d = false → after.flagField.data d = before.flagField.data d) ∧
  (∃ new, after.calls = before.calls ++ new ∧ ∀ call ∈ new, call.within region = true) ∧
  (region.empty = true → after = before)

/-- An interval that sticks out of `exampleBB` in the x direction. -/
def exampleInterval : CellInterval :=
  { xMin := 2, yMin := 0, zMin := 0, xMax := 5, yMax := 0, zMax := 0 }

/-- An interval that lies outside `exampleBB`, but is not empty. -/
def outsideInterval : CellInterval :=
  { xMin := 5, yMin := 0, zMin := 0, xMax := 6, yMax := 0, zMax := 0 }

/-- Example handler whose clear sets a bit: `handlerA`, except that its `clear` adds the
bit 32 at the cell. -/
def bitSettingHandler : Handler Nat :=
  { handlerA with clear := fun c f n => (f.addMask c 32, n + 1) }

/-- Example handler that shows on which mask its clear is run: `handlerB`, except that
its `clear` stores the mask it finds at the cell in the state. -/
def maskRecorder : Handler Nat :=
  { handlerB with clear := fun c f _ => (f.removeMask c 4, f c) }

/-- Example handler that shows which interval it is handed: `handlerA`, except that its
`refresh` and its `operator()` store the number of cells of their interval in the state
and its `checkConsistency` accepts the empty interval only. -/
def intervalRecorder : Handler Nat :=
  { handlerA with
    checkConsistency := fun cells _ _ => decide (cells.cells.length = 0)
    refresh := fun cells f _ => (f, cells.cells.length)
    execute := fun cells f _ => (f, cells.cells.length) }

/-- Modelled from the spec: the consistency of the boundary-condition lookups of a handler
(`BoundaryHandling.h` is not part of the sources at hand): it contains a boundary
condition only for flags inside its boundary mask, and the Boundary UID it returns for
such a flag is one of the Boundary UIDs it reports. -/
def Handler.BoundaryConsistent {σ : Type} (h : Handler σ) : Prop :=
  ∀ flag, h.containsBoundaryCondition flag = true →
    h.boundaryMask &&& flag = flag ∧ h.getBoundaryUID flag ∈ h.boundaryUIDs

/-- Modelled from the spec: the consistency of the two reverse lookups of a handler
(`BoundaryHandling.h` is not part of the sources at hand).  For a Boundary UID it
contains, the handler reports that UID among its Boundary UIDs, the mask it returns for
the UID is not empty, it contains a boundary condition for that mask and returns the UID
for it; for a flag it contains a boundary condition for, it contains the Boundary UID it
returns for the flag, and the mask it returns for that UID contains the flag. -/
def Handler.LookupConsistent {σ : Type} (h : Handler σ) : Prop :=
  (∀ u, h.containsBoundaryConditionUID u = true →
    u ∈ h.boundaryUIDs ∧ h.getBoundaryMaskOf u ≠ 0 ∧
    h.containsBoundaryCondition (h.getBoundaryMaskOf u) = true ∧
    h.getBoundaryUID (h.getBoundaryMaskOf u) = u) ∧
  (∀ flag, h.containsBoundaryCondition flag = true →
    h.containsBoundaryConditionUID (h.getBoundaryUID flag) = true ∧
    h.getBoundaryMaskOf (h.getBoundaryUID flag) &&& flag = flag)

/-- Example handler with UID 4, the single Boundary UID 40, boundary mask 4 and domain
mask 0. -/
def handlerF : Handler Nat := plainHandler 4 [40] 7 exampleBB 4 0

/-- Modelled from the spec: the contract of `BoundaryHandling::unpack`
(`BoundaryHandling.h` is not part of the sources at hand): in the flag field it changes at
most the bits of the flag it is handed, at the addressed cell. -/
def Handler.UnpackChangesOnlyFlag {σ : Type} (h : Handler σ) : Prop :=
  ∀ (flag : flag_t) (c : Cell) (buffer : Buffer) (f : FlagData) (st : σ),
    FlagData.AgreeOff flag c (h.unpack flag c buffer f st).2.1 f

/-- The masks that the loop of `unpack` receives, in the order of the cells visited: for
each cell the raw mask read from the buffer, translated unless the flag mappings are
identical; the loop continues from the state that the step for the cell leaves. -/
def BoundaryHandlingCollection.unpackReads {σ : Type} (identicalFlagMapping : Bool)
    (flagMapping : List flag_t) :
    List Cell → Option (Buffer × BoundaryHandlingCollection σ) → List flag_t
  | [], _ => []
  | c :: t, s =>
    match s with
    | some (BufferItem.mask raw :: _, bhc) =>
      match bhc.boundaryHandlers with
      | first :: _ =>
        (if !identicalFlagMapping then first.translateMask raw flagMapping else raw) ::
          unpackReads identicalFlagMapping flagMapping t
            (BoundaryHandlingCollection.unpackCell identicalFlagMapping flagMapping s c)
      | [] => []
    | _ => []

/-- A receiver whose flag field carries the bit 8, owned by no handler, in every cell. -/
def exampleReceiverWithRawBits : BoundaryHandlingCollection Nat :=
  exampleCollectionWith [handlerA, handlerB] (fun _ => 8)

/-- The record of one cell in the buffer as the specification words it: the raw mask of
the cell, followed by the per-cell payload of each handler of the list, each handler once
and in list order. -/
def packedCellSpec {σ : Type} (bhc : BoundaryHandlingCollection σ) (c : Cell) : Buffer :=
  BufferItem.mask (bhc.flagField.data c) ::
    bhc.boundaryHandlers.flatMap (fun h => h.pack (bhc.flagField.data c) c bhc.flagField.data h.st)

/-- The scan order z-major, then y, then x: the cell `a` comes before the cell `b` if it
has the smaller `z`, or the same `z` and the smaller `y`, or the same `z` and `y` and
the smaller `x`. -/
def Cell.scansBefore (a b : Cell) : Prop :=
  a.z < b.z ∨ (a.z = b.z ∧ (a.y < b.y ∨ (a.y = b.y ∧ a.x < b.x)))

/-- The sender of the pack / unpack examples: the handlers `handlerA` and `handlerB` over
the contents `exampleData`. -/
def exampleSender : BoundaryHandlingCollection Nat :=
  exampleCollectionWith [handlerA, handlerB] exampleData

/-- The receiver of the pack / unpack examples: an identically configured collection
over an all-zero flag field. -/
def exampleReceiver : BoundaryHandlingCollection Nat :=
  exampleCollectionWith [handlerA, handlerB] (fun _ => 0)

/-- The calls of `unpack` the collection is to make for one cell with the (translated)
mask `mask`: one for every handler whose ownership mask meets `mask`, in list order, each
with that intersection as its flag argument. -/
def unpackCalls {σ : Type} (mask : flag_t) (c : Cell) (hs : List (Handler σ)) : List Call :=
  (hs.filter (fun h => decide (h.ownership &&& mask ≠ 0))).map
    (fun h => Call.unpack h.uid (h.ownership &&& mask) c)

end boundary

/-! ## The Metis weight assignment functor

A shallow embedding of `MetisAssignmentFunctor::operator()` of
`src/pe_coupling/amr/weight_assignment/MetisAssignmentFunctor.cpp`, as far as the vertex
weights are concerned. -/

namespace pe_coupling
namespace amr

namespace MetisAssignmentFunctor

variable {Block BlockInfo : Type}

end MetisAssignmentFunctor

end amr
end pe_coupling

namespace boundary

/-! ## Theorems -/

/-! ### Bit arithmetic on masks -/

theorem testBit_removed (a m i : Nat) :
    (a ^^^ (a &&& m)).testBit i = (a.testBit i && !m.testBit i) := by
  rw [Nat.testBit_xor, Nat.testBit_and]
  cases a.testBit i <;> cases m.testBit i <;> rfl

theorem removed_or_self (a m : Nat) : (a ^^^ (a &&& m)) ||| a = a := by
  apply Nat.eq_of_testBit_eq
  intro i
  rw [Nat.testBit_or, testBit_removed]
  cases a.testBit i <;> cases m.testBit i <;> rfl

theorem xor_removed (a m : Nat) : a ^^^ (a ^^^ (a &&& m)) = a &&& m := by
  apply Nat.eq_of_testBit_eq
  intro i
  rw [Nat.testBit_xor, testBit_removed, Nat.testBit_and]
  cases a.testBit i <;> cases m.testBit i <;> rfl

namespace FlagData

theorem set_same (f : FlagData) (c : Cell) (v : flag_t) : f.set c v c = v := by
  simp [FlagData.set]

theorem set_other (f : FlagData) (c d : Cell) (v : flag_t) (h : d ≠ c) : f.set c v d = f d := by
  simp [FlagData.set, h]

theorem set_set (f : FlagData) (c : Cell) (v w : flag_t) : (f.set c v).set c w = f.set c w := by
  funext d
  by_cases h : d = c <;> simp [FlagData.set, h]

theorem set_self (f : FlagData) (c : Cell) : f.set c (f c) = f := by
  funext d
  by_cases h : d = c <;> simp [FlagData.set, h]

end FlagData

/-! ### clear -/

theorem and_or_and (a m n : Nat) : (a &&& m) ||| (a &&& n) = a &&& (m ||| n) := by
  apply Nat.eq_of_testBit_eq
  intro i
  simp only [Nat.testBit_or, Nat.testBit_and]
  cases a.testBit i <;> cases m.testBit i <;> cases n.testBit i <;> rfl

theorem Tuple.clear_of_clearsOwnBits {σ : Type} (c : Cell) (hs : List (Handler σ))
    (hcl : ∀ h ∈ hs, h.ClearsOwnBits c) (m : Mem) :
    (Tuple.clear c hs m).2.1.flags = m.flags ∧
    (Tuple.clear c hs m).2.2 = m.flags c &&& ownershipUnion hs := by
  induction hs generalizing m with
  | nil => exact ⟨rfl, (Nat.and_zero _).symm⟩
  | cons h t ih =>
    have hh := hcl h (List.mem_cons_self h t)
    have ht : ∀ k ∈ t, k.ClearsOwnBits c := fun k hk => hcl k (List.mem_cons_of_mem h hk)
    have hflags : ((h.invoke (Call.clear h.uid c) (h.clear c) m).2.flags.addMask c (m.flags c))
        = m.flags := by
      simp only [Handler.invoke, hh m.flags h.st, FlagData.addMask, FlagData.removeMask,
        FlagData.set_same, FlagData.set_set, removed_or_self, FlagData.set_self]
    have hrem : m.flags c ^^^ (h.invoke (Call.clear h.uid c) (h.clear c) m).2.flags c
        = m.flags c &&& h.ownership := by
      simp only [Handler.invoke, hh m.flags h.st, FlagData.removeMask, FlagData.set_same,
        xor_removed]
    simp only [Tuple.clear, ownershipUnion]
    rw [hflags, hrem]
    have ih1 := ih ht
      { flags := m.flags, calls := (h.invoke (Call.clear h.uid c) (h.clear c) m).2.calls }
    refine ⟨ih1.1, ?_⟩
    rw [ih1.2, and_or_and]

/-- C1: for a cell inside the outer bounding box and handlers whose clear removes exactly
the set bits of their ownership mask at the cell and changes nothing else, `clear(cell)`
leaves the mask of the cell equal to the old mask with every bit of the union of the
ownership masks removed; a bit owned by no handler keeps its old value, a bit owned by
some handler is off afterwards, and every other cell is unchanged. -/
theorem clear_removes_exactly_owned_bits {σ : Type} (bhc : BoundaryHandlingCollection σ)
    (c : Cell) (hin : bhc.outerBB.contains c = true)
    (hcl : ∀ h ∈ bhc.boundaryHandlers, h.ClearsOwnBits c) :
    (bhc.clear c).flagField.data c =
      bhc.flagField.data c ^^^ (bhc.flagField.data c &&& ownershipUnion bhc.boundaryHandlers) ∧
    (∀ i, (ownershipUnion bhc.boundaryHandlers).testBit i = false →
      ((bhc.clear c).flagField.data c).testBit i = (bhc.flagField.data c).testBit i) ∧
    (∀ i, (ownershipUnion bhc.boundaryHandlers).testBit i = true →
      ((bhc.clear c).flagField.data c).testBit i = false) ∧
    (∀ d, d ≠ c → (bhc.clear c).flagField.data d = bhc.flagField.data d) := by
  have key := Tuple.clear_of_clearsOwnBits c bhc.boundaryHandlers hcl bhc.mem
  have hdata : (bhc.clear c).flagField.data =
      bhc.flagField.data.removeMask c (bhc.flagField.data c &&& ownershipUnion bhc.boundaryHandlers) := by
    simp only [BoundaryHandlingCollection.clear, hin, Bool.not_true, Bool.false_eq_true,
      if_false, BoundaryHandlingCollection.clearCell, BoundaryHandlingCollection.store,
      key.1, key.2]
    rfl
  have hc : (bhc.clear c).flagField.data c =
      bhc.flagField.data c ^^^ (bhc.flagField.data c &&& ownershipUnion bhc.boundaryHandlers) := by
    rw [hdata]
    simp only [FlagData.removeMask, FlagData.set_same]
    apply Nat.eq_of_testBit_eq
    intro i
    simp only [testBit_removed, Nat.testBit_and]
    cases (bhc.flagField.data c).testBit i <;>
      cases (ownershipUnion bhc.boundaryHandlers).testBit i <;> rfl
  refine ⟨hc, ?_, ?_, ?_⟩
  · intro i hi
    rw [hc, testBit_removed, hi]
    simp
  · intro i hi
    rw [hc, testBit_removed, hi]
    simp
  · intro d hd
    rw [hdata]
    exact FlagData.set_other _ _ _ _ hd

/-- C1, at an example: handlers owning the bits 1, 2 and 4, a cell with mask 13; the mask
afterwards is 8. -/
theorem clear_removes_exactly_owned_bits_witness :
    ((exampleCollectionWith [handlerA, handlerB] exampleData).clear originCell).flagField.data
        originCell = 8 ∧
    ((exampleCollectionWith [handlerA, handlerB] exampleData).clear originCell).flagField.data
        originCell =
      exampleData originCell ^^^ (exampleData originCell &&& ownershipUnion [handlerA, handlerB]) :=
  ⟨by decide,
   (clear_removes_exactly_owned_bits (exampleCollectionWith [handlerA, handlerB] exampleData)
      originCell (by decide)
      (by
        intro h hh
        simp only [exampleCollectionWith, List.mem_cons, List.mem_singleton,
          List.not_mem_nil, or_false] at hh
        rcases hh with rfl | rfl <;> intro f st <;> rfl)).1⟩

theorem sub_or_self (g a : Nat) (h : g &&& a = g) : g ||| a = a := by
  apply Nat.eq_of_testBit_eq
  intro i
  have hi : (g &&& a).testBit i = g.testBit i := by rw [h]
  rw [Nat.testBit_and] at hi
  rw [Nat.testBit_or]
  cases hg : g.testBit i <;> cases ha : a.testBit i <;> simp_all

theorem lor_swap (x y z : Nat) : x ||| (y ||| z) = y ||| (x ||| z) := by
  apply Nat.eq_of_testBit_eq
  intro i
  simp only [Nat.testBit_or]
  cases x.testBit i <;> cases y.testBit i <;> cases z.testBit i <;> rfl

theorem Tuple.clear_of_clearOnlyRemoves {σ : Type} (c : Cell) (hs : List (Handler σ))
    (hcl : ∀ h ∈ hs, h.ClearOnlyRemoves c) (m : Mem) :
    (Tuple.clear c hs m).2.1.flags = m.flags ∧
    (Tuple.clear c hs m).2.2 = removedUnion c m.flags hs := by
  induction hs generalizing m with
  | nil => exact ⟨rfl, rfl⟩
  | cons h t ih =>
    have hh := hcl h (List.mem_cons_self h t)
    have ht : ∀ k ∈ t, k.ClearOnlyRemoves c := fun k hk => hcl k (List.mem_cons_of_mem h hk)
    have hflags : ((h.invoke (Call.clear h.uid c) (h.clear c) m).2.flags.addMask c (m.flags c))
        = m.flags := by
      funext d
      by_cases hd : d = c
      · subst hd
        simp only [Handler.invoke, FlagData.addMask, FlagData.set_same]
        exact sub_or_self _ _ (hh m.flags h.st).2
      · simp only [Handler.invoke, FlagData.addMask, FlagData.set_other _ _ _ _ hd]
        exact (hh m.flags h.st).1 d hd
    simp only [Tuple.clear, removedUnion]
    rw [hflags]
    have ih1 := ih ht
      { flags := m.flags, calls := (h.invoke (Call.clear h.uid c) (h.clear c) m).2.calls }
    refine ⟨ih1.1, ?_⟩
    rw [ih1.2]
    rfl

theorem removedUnion_perm {σ : Type} (c : Cell) (f : FlagData) {hs hs' : List (Handler σ)}
    (hp : hs.Perm hs') : removedUnion c f hs = removedUnion c f hs' := by
  induction hp with
  | nil => rfl
  | cons x _ ih => simp only [removedUnion, ih]
  | swap x y l => simp only [removedUnion]; exact lor_swap _ _ _
  | trans _ _ ih1 ih2 => exact ih1.trans ih2

theorem plainHandler_clearOnlyRemoves (uid : Nat) (boundaryUIDs : List Nat) (flagFieldId : Nat)
    (outerBB : CellInterval) (boundaryMask domainMask : flag_t) (c : Cell) :
    (plainHandler uid boundaryUIDs flagFieldId outerBB boundaryMask domainMask).ClearOnlyRemoves
      c := by
  intro f st
  have e : (plainHandler uid boundaryUIDs flagFieldId outerBB boundaryMask domainMask).clear
      c f st = (f.removeMask c (boundaryMask ||| domainMask), st + 1) := rfl
  rw [e]
  refine ⟨?_, ?_⟩
  · intro d hd
    exact FlagData.set_other _ _ _ _ hd
  · simp only [FlagData.removeMask, FlagData.set_same]
    apply Nat.eq_of_testBit_eq
    intro i
    simp only [Nat.testBit_and, testBit_removed]
    cases (f c).testBit i <;> simp

/-- C2: two collections over the same flag field whose handler lists are permutations
of each other produce the same flag field contents by `clear(cell)`, for every cell,
provided the clear of each handler only removes bits from the mask of the cell. -/
theorem clear_independent_of_handler_order {σ : Type}
    (a b : BoundaryHandlingCollection σ) (c : Cell)
    (hfield : a.flagField = b.flagField) (hbb : a.outerBB = b.outerBB)
    (hperm : a.boundaryHandlers.Perm b.boundaryHandlers)
    (hcl : ∀ h ∈ a.boundaryHandlers, h.ClearOnlyRemoves c) :
    (a.clear c).flagField = (b.clear c).flagField := by
  have hclb : ∀ h ∈ b.boundaryHandlers, h.ClearOnlyRemoves c :=
    fun h hh => hcl h (hperm.mem_iff.mpr hh)
  have ka := Tuple.clear_of_clearOnlyRemoves c a.boundaryHandlers hcl a.mem
  have kb := Tuple.clear_of_clearOnlyRemoves c b.boundaryHandlers hclb b.mem
  have hmem : a.mem.flags = b.mem.flags := by
    simp only [BoundaryHandlingCollection.mem, hfield]
  by_cases hin : b.outerBB.contains c = true
  · simp only [BoundaryHandlingCollection.clear, hbb, hin, Bool.not_true, Bool.false_eq_true,
      if_false, BoundaryHandlingCollection.clearCell, BoundaryHandlingCollection.store,
      ka.1, ka.2, kb.1, kb.2, hmem, removedUnion_perm c b.mem.flags hperm, hfield]
  · simp only [BoundaryHandlingCollection.clear, hbb, hin, Bool.not_false, if_true, hfield]

/-- C2, at an example: the handlers of the example in reversed order give the same result
of `clear`. -/
theorem clear_independent_of_handler_order_witness :
    ((exampleCollectionWith [handlerA, handlerB] exampleData).clear originCell).flagField =
    ((exampleCollectionWith [handlerB, handlerA] exampleData).clear originCell).flagField :=
  clear_independent_of_handler_order
    (exampleCollectionWith [handlerA, handlerB] exampleData)
    (exampleCollectionWith [handlerB, handlerA] exampleData) originCell rfl rfl
    (List.Perm.swap handlerB handlerA [])
    (by
      intro h hh
      simp only [exampleCollectionWith, List.mem_cons, List.mem_singleton,
        List.not_mem_nil, or_false] at hh
      rcases hh with rfl | rfl <;> exact plainHandler_clearOnlyRemoves _ _ _ _ _ _ _)

/-! ### setFlag -/

theorem Tuple.setFlag_calls {σ : Type} (flag : flag_t) (c : Cell)
    (p : BoundaryConfiguration) (hs : List (Handler σ)) (m : Mem) :
    (Tuple.setFlag flag c p hs m).2.calls = m.calls ++ setFlagCalls flag c p hs := by
  induction hs generalizing m with
  | nil => simp [Tuple.setFlag, setFlagCalls]
  | cons h t ih =>
    by_cases ho : h.owns flag = true
    · simp only [Tuple.setFlag, ho, if_true, ih, Handler.invoke, setFlagCalls,
        List.filter_cons_of_pos, List.map_cons, List.append_assoc, List.singleton_append]
    · simp only [Tuple.setFlag, ho, if_false, ih, setFlagCalls, List.filter_cons_of_neg,
        not_false_eq_true, Bool.false_eq_true]

theorem filter_eq_find_toList {α : Type} (q : α → Bool) (l : List α)
    (h : (l.filter q).length ≤ 1) : l.filter q = (l.find? q).toList := by
  induction l with
  | nil => rfl
  | cons a t ih =>
    by_cases ha : q a = true
    · rw [List.filter_cons_of_pos ha] at h ⊢
      rw [List.find?_cons_of_pos _ ha]
      have ht : (t.filter q).length = 0 := by
        simp only [List.length_cons] at h
        omega
      rw [List.length_eq_zero.mp ht]
      rfl
    · rw [List.filter_cons_of_neg ha] at h ⊢
      rw [List.find?_cons_of_neg _ ha]
      exact ih h

theorem Tuple.setFlag_first_owner {σ : Type} (flag : flag_t) (c : Cell)
    (p : BoundaryConfiguration) (pre : List (Handler σ)) (h : Handler σ)
    (post : List (Handler σ)) (m : Mem) (hpre : ∀ k ∈ pre, k.owns flag = false)
    (ho : h.owns flag = true) :
    Tuple.setFlag flag c p (pre ++ h :: post) m =
      (pre ++ { h with st := (h.setFlag flag c p (m.flags.removeFlag c flag) h.st).2 } ::
          (Tuple.setFlag flag c p post
            { flags := (h.setFlag flag c p (m.flags.removeFlag c flag) h.st).1,
              calls := m.calls ++ [Call.setFlag h.uid flag c p] }).1,
       (Tuple.setFlag flag c p post
          { flags := (h.setFlag flag c p (m.flags.removeFlag c flag) h.st).1,
            calls := m.calls ++ [Call.setFlag h.uid flag c p] }).2) := by
  induction pre with
  | nil =>
    simp only [List.nil_append, Tuple.setFlag, ho, if_true]
    rfl
  | cons a t ih =>
    have ha := hpre a (List.mem_cons_self _ _)
    rw [List.cons_append]
    simp only [Tuple.setFlag, ha, Bool.false_eq_true, if_false]
    rw [ih (fun k hk => hpre k (List.mem_cons_of_mem _ hk))]
    rfl

theorem Tuple.setFlag_of_no_owner {σ : Type} (flag : flag_t) (c : Cell)
    (p : BoundaryConfiguration) (hs : List (Handler σ))
    (hno : ∀ h ∈ hs, h.owns flag = false) (m : Mem) :
    Tuple.setFlag flag c p hs m = (hs, { m with flags := m.flags.addFlag c flag }) := by
  induction hs generalizing m with
  | nil => rfl
  | cons h t ih =>
    have hh := hno h (List.mem_cons_self h t)
    have ht : ∀ k ∈ t, k.owns flag = false := fun k hk => hno k (List.mem_cons_of_mem h hk)
    simp only [Tuple.setFlag, hh, Bool.false_eq_true, if_false, ih ht]

/-- C3, refuted as stated: with two handlers whose ownership masks both contain the flag,
`setFlag(flag, cell)` on a cell inside the bounding box runs the set operation of both
handlers, the later one (UID 3) after the first one (UID 1): both handlers, whose state
counts the operations they have run, have run one afterwards. -/
theorem setFlag_invokes_later_owner_too :
    exampleBB.contains originCell = true ∧
    handlerA.owns 1 = true ∧ handlerC.owns 1 = true ∧
    ((exampleCollectionWith [handlerA, handlerC] exampleData).setFlag 1 originCell 0).calls =
      [Call.setFlag 1 1 originCell 0, Call.setFlag 3 1 originCell 0] ∧
    (exampleCollectionWith [handlerA, handlerC] exampleData).boundaryHandlers.map Handler.st =
      [0, 0] ∧
    ((exampleCollectionWith [handlerA, handlerC] exampleData).setFlag 1 originCell
      0).boundaryHandlers.map Handler.st = [1, 1] ∧
    ((exampleCollectionWith [handlerA, handlerC] exampleData).setFlag 1 originCell
      0).boundaryHandlers =
      [{ handlerA with
          st := (handlerA.setFlag 1 originCell 0 (exampleData.removeFlag originCell 1) 0).2 },
       { handlerC with
          st := (handlerC.setFlag 1 originCell 0
            ((handlerA.setFlag 1 originCell 0 (exampleData.removeFlag originCell 1)
              0).1.removeFlag originCell 1) 0).2 }] :=
  ⟨by decide, by decide, by decide, by decide, by decide, by decide, rfl⟩

/-- C3, amended: for every handler list, flag and cell inside the outer bounding box,
`setFlag(flag, cell)` runs the set operation of exactly the handlers whose ownership
mask fully contains the flag, once each and in list order, with the flag, the cell and
the parameter passed on: the handlers ahead of the first owner are left as they are, the
set operation of the first owner runs on the flag field with the flag removed at the cell
and its results are kept, and the same holds for the handlers after it, later owners
included; no handler that does not own the flag is invoked, and when at most one handler
owns the flag the call made, if any, is to the first owner in list order. -/
theorem setFlag_invokes_every_owner_in_order {σ : Type} (bhc : BoundaryHandlingCollection σ)
    (flag : flag_t) (c : Cell) (p : BoundaryConfiguration)
    (hin : bhc.outerBB.contains c = true) :
    (bhc.setFlag flag c p).calls =
      bhc.calls ++ (bhc.boundaryHandlers.filter (fun h => h.owns flag)).map
        (fun h => Call.setFlag h.uid flag c p) ∧
    ((bhc.boundaryHandlers.filter (fun h => h.owns flag)).length ≤ 1 →
      (bhc.setFlag flag c p).calls =
        bhc.calls ++ ((bhc.boundaryHandlers.find? (fun h => h.owns flag)).toList.map
          (fun h => Call.setFlag h.uid flag c p))) ∧
    bhc.setFlag flag c p =
      bhc.store (Tuple.setFlag flag c p bhc.boundaryHandlers bhc.mem).1
        (Tuple.setFlag flag c p bhc.boundaryHandlers bhc.mem).2 ∧
    (∀ (pre : List (Handler σ)) (h : Handler σ) (post : List (Handler σ)) (m : Mem),
      (∀ k ∈ pre, k.owns flag = false) → h.owns flag = true →
      Tuple.setFlag flag c p (pre ++ h :: post) m =
        (pre ++ { h with st := (h.setFlag flag c p (m.flags.removeFlag c flag) h.st).2 } ::
            (Tuple.setFlag flag c p post
              { flags := (h.setFlag flag c p (m.flags.removeFlag c flag) h.st).1,
                calls := m.calls ++ [Call.setFlag h.uid flag c p] }).1,
         (Tuple.setFlag flag c p post
            { flags := (h.setFlag flag c p (m.flags.removeFlag c flag) h.st).1,
              calls := m.calls ++ [Call.setFlag h.uid flag c p] }).2)) ∧
    (∀ (hs : List (Handler σ)) (m : Mem), (∀ h ∈ hs, h.owns flag = false) →
      Tuple.setFlag flag c p hs m = (hs, { m with flags := m.flags.addFlag c flag })) := by
  have key : (bhc.setFlag flag c p).calls =
      bhc.calls ++ (bhc.boundaryHandlers.filter (fun h => h.owns flag)).map
        (fun h => Call.setFlag h.uid flag c p) := by
    simp only [BoundaryHandlingCollection.setFlag, hin, Bool.not_true, Bool.false_eq_true,
      if_false, BoundaryHandlingCollection.store, Tuple.setFlag_calls]
    rfl
  refine ⟨key, ?_, ?_, ?_, ?_⟩
  · intro hlen
    rw [key]
    rw [filter_eq_find_toList _ _ hlen]
  · simp only [BoundaryHandlingCollection.setFlag, hin, Bool.not_true, Bool.false_eq_true,
      if_false]
  · intro pre h post m hpre ho
    exact Tuple.setFlag_first_owner flag c p pre h post m hpre ho
  · intro hs m hno
    exact Tuple.setFlag_of_no_owner flag c p hs hno m

/-- C3 amended, at an example: only `handlerA` owns the flag 2; it is the one called, and
the only handler that has run an operation afterwards. -/
theorem setFlag_invokes_every_owner_in_order_witness :
    exampleBB.contains originCell = true ∧
    ((exampleCollectionWith [handlerB, handlerA, handlerC] exampleData).setFlag 2 originCell
      5).calls = [Call.setFlag 1 2 originCell 5] ∧
    ((exampleCollectionWith [handlerB, handlerA, handlerC] exampleData).setFlag 2 originCell
      5).boundaryHandlers.map Handler.st = [0, 1, 0] ∧
    ((exampleCollectionWith [handlerB, handlerA, handlerC] exampleData).setFlag 2 originCell
      5).flagField.data originCell = 15 :=
  ⟨by decide,
   (setFlag_invokes_every_owner_in_order
      (exampleCollectionWith [handlerB, handlerA, handlerC] exampleData) 2 originCell 5
      (by decide)).1,
   by decide, by decide⟩

/-- C4: if no handler's ownership mask contains the flag then, for a cell inside the outer
bounding box, `setFlag(flag, cell)` invokes no handler (the trace and the handlers are
unchanged) and changes the flag field only by setting the flag at that cell: the new mask
is `old | flag`, the bits outside the flag and all other cells keep their values. -/
theorem setFlag_unowned_writes_raw_bit {σ : Type} (bhc : BoundaryHandlingCollection σ)
    (flag : flag_t) (c : Cell) (p : BoundaryConfiguration)
    (hin : bhc.outerBB.contains c = true)
    (hno : ∀ h ∈ bhc.boundaryHandlers, h.owns flag = false) :
    (bhc.setFlag flag c p).calls = bhc.calls ∧
    (bhc.setFlag flag c p).boundaryHandlers = bhc.boundaryHandlers ∧
    (bhc.setFlag flag c p).flagField.data c = bhc.flagField.data c ||| flag ∧
    (∀ i, flag.testBit i = false →
      ((bhc.setFlag flag c p).flagField.data c).testBit i = (bhc.flagField.data c).testBit i) ∧
    (∀ d, d ≠ c → (bhc.setFlag flag c p).flagField.data d = bhc.flagField.data d) := by
  have key : bhc.setFlag flag c p =
      bhc.store bhc.boundaryHandlers { bhc.mem with flags := bhc.mem.flags.addFlag c flag } := by
    simp only [BoundaryHandlingCollection.setFlag, hin, Bool.not_true, Bool.false_eq_true,
      if_false, Tuple.setFlag_of_no_owner flag c p bhc.boundaryHandlers hno]
  have hc : (bhc.setFlag flag c p).flagField.data c = bhc.flagField.data c ||| flag := by
    rw [key]
    exact FlagData.set_same _ _ _
  refine ⟨by rw [key]; rfl, by rw [key]; rfl, hc, ?_, ?_⟩
  · intro i hi
    rw [hc, Nat.testBit_or, hi, Bool.or_false]
  · intro d hd
    rw [key]
    exact FlagData.set_other _ _ _ _ hd

/-- C4, at an example: no handler owns the flag 16; the mask 13 becomes 29 and the trace
stays empty. -/
theorem setFlag_unowned_writes_raw_bit_witness :
    ((exampleCollectionWith [handlerA, handlerB] exampleData).setFlag 16 originCell 0).calls
      = [] ∧
    ((exampleCollectionWith [handlerA, handlerB] exampleData).setFlag 16 originCell
      0).flagField.data originCell = 29 :=
  ⟨(setFlag_unowned_writes_raw_bit (exampleCollectionWith [handlerA, handlerB] exampleData)
      16 originCell 0 (by decide) (by decide)).1,
   by decide⟩

/-! ### Handlers keep their class, flag fields agree off a flag -/

theorem Handler.SameClass.sameRefl {σ : Type} (h : Handler σ) : h.SameClass h := ⟨h.st, rfl⟩

theorem Handler.SameClass.sameTrans {σ : Type} {h k l : Handler σ} (a : h.SameClass k)
    (b : k.SameClass l) : h.SameClass l := by
  obtain ⟨s, rfl⟩ := a
  obtain ⟨t, rfl⟩ := b
  exact ⟨t, rfl⟩

theorem Handler.SameClass.invoke {σ : Type} (h : Handler σ) (call : Call)
    (op : FlagData → σ → FlagData × σ) (m : Mem) : h.SameClass (h.invoke call op m).1 :=
  ⟨_, rfl⟩

theorem Handler.SameClass.ownership {σ : Type} {h k : Handler σ} (a : h.SameClass k) :
    k.ownership = h.ownership := by
  obtain ⟨s, rfl⟩ := a
  rfl

theorem Handler.SameClass.owns {σ : Type} {h k : Handler σ} (a : h.SameClass k)
    (flag : flag_t) : k.owns flag = h.owns flag := by
  obtain ⟨s, rfl⟩ := a
  rfl

theorem Handler.SameClass.changesOnlyFlagBit {σ : Type} {h k : Handler σ}
    (a : h.SameClass k) (hc : h.ChangesOnlyFlagBit) : k.ChangesOnlyFlagBit := by
  obtain ⟨s, rfl⟩ := a
  exact hc

theorem sameClass_refl_list {σ : Type} (hs : List (Handler σ)) :
    List.Forall₂ Handler.SameClass hs hs := by
  induction hs with
  | nil => exact List.Forall₂.nil
  | cons h t ih => exact List.Forall₂.cons (Handler.SameClass.sameRefl h) ih

theorem sameClass_trans_list {σ : Type} {as bs cs : List (Handler σ)}
    (x : List.Forall₂ Handler.SameClass as bs) (y : List.Forall₂ Handler.SameClass bs cs) :
    List.Forall₂ Handler.SameClass as cs := by
  induction x generalizing cs with
  | nil => cases y; exact List.Forall₂.nil
  | cons hab _ ih =>
    cases y with
    | cons hbc rest => exact List.Forall₂.cons (hab.sameTrans hbc) (ih rest)

theorem sameClass_forall {σ : Type} {as bs : List (Handler σ)}
    (x : List.Forall₂ Handler.SameClass as bs) (P : Handler σ → Prop)
    (hP : ∀ h k : Handler σ, h.SameClass k → P h → P k) (hall : ∀ h ∈ as, P h) :
    ∀ k ∈ bs, P k := by
  induction x with
  | nil => intro k hk; cases hk
  | cons hab _ ih =>
    intro k hk
    rcases List.mem_cons.mp hk with rfl | hk
    · exact hP _ _ hab (hall _ (List.mem_cons_self _ _))
    · exact ih (fun h hh => hall h (List.mem_cons_of_mem _ hh)) k hk

theorem Tuple.flagsToRemove_sameClass {σ : Type} {as bs : List (Handler σ)}
    (x : List.Forall₂ Handler.SameClass as bs) (flag : flag_t) (c : Cell) (f : FlagData) :
    Tuple.flagsToRemove flag c f bs = Tuple.flagsToRemove flag c f as := by
  induction x with
  | nil => rfl
  | cons hab _ ih => simp only [Tuple.flagsToRemove, hab.owns, hab.ownership, ih]

theorem Tuple.removeFlag_sameClass {σ : Type} (flag : flag_t) (c : Cell)
    (hs : List (Handler σ)) (m : Mem) :
    List.Forall₂ Handler.SameClass hs (Tuple.removeFlag flag c hs m).1 := by
  induction hs generalizing m with
  | nil => exact List.Forall₂.nil
  | cons h t ih =>
    by_cases ho : h.owns flag = true
    · simp only [Tuple.removeFlag, ho, if_true]
      exact List.Forall₂.cons (Handler.SameClass.invoke _ _ _ _) (ih _)
    · simp only [Tuple.removeFlag, ho, if_false, Bool.false_eq_true]
      exact List.Forall₂.cons (Handler.SameClass.sameRefl h) (ih _)

theorem Tuple.setFlag_sameClass {σ : Type} (flag : flag_t) (c : Cell)
    (p : BoundaryConfiguration) (hs : List (Handler σ)) (m : Mem) :
    List.Forall₂ Handler.SameClass hs (Tuple.setFlag flag c p hs m).1 := by
  induction hs generalizing m with
  | nil => exact List.Forall₂.nil
  | cons h t ih =>
    by_cases ho : h.owns flag = true
    · simp only [Tuple.setFlag, ho, if_true]
      exact List.Forall₂.cons (Handler.SameClass.invoke _ _ _ _) (ih _)
    · simp only [Tuple.setFlag, ho, if_false, Bool.false_eq_true]
      exact List.Forall₂.cons (Handler.SameClass.sameRefl h) (ih _)

namespace FlagData

theorem AgreeOff.agreeTrans {flag : flag_t} {c : Cell} {f g k : FlagData}
    (a : AgreeOff flag c f g) (b : AgreeOff flag c g k) : AgreeOff flag c f k :=
  ⟨fun d hd => (a.1 d hd).trans (b.1 d hd), fun i hi => (a.2 i hi).trans (b.2 i hi)⟩

theorem agreeOff_addFlag (flag : flag_t) (c : Cell) (f : FlagData) :
    AgreeOff flag c (f.addFlag c flag) f := by
  refine ⟨fun d hd => set_other _ _ _ _ hd, fun i hi => ?_⟩
  simp only [addFlag, set_same, Nat.testBit_or, hi, Bool.or_false]

theorem agreeOff_removeFlag (flag : flag_t) (c : Cell) (f : FlagData) :
    AgreeOff flag c (f.removeFlag c flag) f := by
  refine ⟨fun d hd => set_other _ _ _ _ hd, fun i hi => ?_⟩
  simp only [removeFlag, set_same, testBit_removed, hi, Bool.not_false, Bool.and_true]

theorem AgreeOff.removeFlag_eq {flag : flag_t} {c : Cell} {f g : FlagData}
    (a : AgreeOff flag c f g) : f.removeFlag c flag = g.removeFlag c flag := by
  funext d
  by_cases hd : d = c
  · subst hd
    simp only [removeFlag, set_same]
    apply Nat.eq_of_testBit_eq
    intro i
    simp only [testBit_removed]
    cases hi : flag.testBit i
    · rw [a.2 i hi]
    · simp
  · simp only [removeFlag, set_other _ _ _ _ hd]
    exact a.1 d hd

theorem AgreeOff.addFlag_eq {flag : flag_t} {c : Cell} {f g : FlagData}
    (a : AgreeOff flag c f g) : f.addFlag c flag = g.addFlag c flag := by
  funext d
  by_cases hd : d = c
  · subst hd
    simp only [addFlag, set_same]
    apply Nat.eq_of_testBit_eq
    intro i
    simp only [Nat.testBit_or]
    cases hi : flag.testBit i
    · rw [a.2 i hi]
    · simp
  · simp only [addFlag, set_other _ _ _ _ hd]
    exact a.1 d hd

end FlagData

theorem Tuple.removeFlag_flags {σ : Type} (flag : flag_t) (c : Cell) (hs : List (Handler σ))
    (hc : ∀ h ∈ hs, h.ChangesOnlyFlagBit) (m : Mem) :
    (Tuple.removeFlag flag c hs m).2.flags = m.flags.removeFlag c flag := by
  induction hs generalizing m with
  | nil => rfl
  | cons h t ih =>
    have hh := hc h (List.mem_cons_self h t)
    have ht : ∀ k ∈ t, k.ChangesOnlyFlagBit := fun k hk => hc k (List.mem_cons_of_mem h hk)
    by_cases ho : h.owns flag = true
    · simp only [Tuple.removeFlag, ho, if_true, ih ht]
      apply FlagData.AgreeOff.removeFlag_eq
      exact ((hh flag c (m.flags.addFlag c flag) h.st).2).agreeTrans
        (FlagData.agreeOff_addFlag flag c m.flags)
    · simp only [Tuple.removeFlag, ho, if_false, Bool.false_eq_true, ih ht]

theorem Tuple.setFlag_flags {σ : Type} (flag : flag_t) (c : Cell) (p : BoundaryConfiguration)
    (hs : List (Handler σ)) (hc : ∀ h ∈ hs, h.ChangesOnlyFlagBit) (m : Mem) :
    (Tuple.setFlag flag c p hs m).2.flags = m.flags.addFlag c flag := by
  induction hs generalizing m with
  | nil => rfl
  | cons h t ih =>
    have hh := hc h (List.mem_cons_self h t)
    have ht : ∀ k ∈ t, k.ChangesOnlyFlagBit := fun k hk => hc k (List.mem_cons_of_mem h hk)
    by_cases ho : h.owns flag = true
    · simp only [Tuple.setFlag, ho, if_true, ih ht]
      apply FlagData.AgreeOff.addFlag_eq
      exact ((hh flag c (m.flags.removeFlag c flag) h.st).1 p).agreeTrans
        (FlagData.agreeOff_removeFlag flag c m.flags)
    · simp only [Tuple.setFlag, ho, if_false, Bool.false_eq_true, ih ht]

/-! ### forceFlag -/

theorem two_pow_and_eq_iff (n mask : Nat) :
    ((1 <<< n) &&& mask = 1 <<< n) ↔ mask.testBit n = true := by
  rw [Nat.one_shiftLeft]
  constructor
  · intro h
    have hn : (2 ^ n &&& mask).testBit n = (2 ^ n).testBit n := by rw [h]
    rw [Nat.testBit_and, Nat.testBit_two_pow_self, Bool.true_and] at hn
    exact hn
  · intro h
    apply Nat.eq_of_testBit_eq
    intro i
    rw [Nat.testBit_and, Nat.testBit_two_pow]
    by_cases hi : n = i
    · subst hi
      simp [h]
    · simp [hi]

theorem removeMask_zero (f : FlagData) (c : Cell) : f.removeMask c 0 = f := by
  simp only [FlagData.removeMask, Nat.and_zero, Nat.xor_zero, FlagData.set_self]

theorem removeMask_step_set (f : FlagData) (c : Cell) (mask n : Nat)
    (h : mask.testBit n = true) :
    (f.removeMask c (mask % 2 ^ n)).removeFlag c (1 <<< n) =
      f.removeMask c (mask % 2 ^ (n + 1)) := by
  simp only [FlagData.removeMask, FlagData.removeFlag, FlagData.set_same, FlagData.set_set,
    Nat.one_shiftLeft]
  refine congrArg (f.set c) ?_
  apply Nat.eq_of_testBit_eq
  intro i
  simp only [testBit_removed, Nat.testBit_mod_two_pow, Nat.testBit_two_pow]
  by_cases h1 : i < n
  · have h2 : i < n + 1 := by omega
    have h3 : ¬ n = i := by omega
    simp [h1, h2, h3]
  · by_cases h4 : n = i
    · subst h4
      simp [h]
    · have h5 : ¬ i < n + 1 := by omega
      simp [h1, h4, h5]

theorem removeMask_step_unset (f : FlagData) (c : Cell) (mask n : Nat)
    (h : ¬ mask.testBit n = true) :
    f.removeMask c (mask % 2 ^ n) = f.removeMask c (mask % 2 ^ (n + 1)) := by
  simp only [FlagData.removeMask]
  refine congrArg (f.set c) ?_
  apply Nat.eq_of_testBit_eq
  intro i
  simp only [testBit_removed, Nat.testBit_mod_two_pow]
  by_cases h1 : i < n
  · have h2 : i < n + 1 := by omega
    simp [h1, h2]
  · by_cases h4 : n = i
    · subst h4
      simp [h]
    · have h5 : ¬ i < n + 1 := by omega
      simp [h1, h5]

namespace BoundaryHandlingCollection

theorem store_handlers {σ : Type} (bhc : BoundaryHandlingCollection σ)
    (a : List (Handler σ)) (m : Mem) : (bhc.store a m).boundaryHandlers = a := rfl

theorem store_mem {σ : Type} (bhc : BoundaryHandlingCollection σ)
    (a : List (Handler σ)) (m : Mem) : (bhc.store a m).mem = m := rfl

theorem store_store {σ : Type} (bhc : BoundaryHandlingCollection σ)
    (a b : List (Handler σ)) (m n : Mem) : (bhc.store a m).store b n = bhc.store b n := rfl

theorem forceFlagBits_spec {σ : Type} (bhc : BoundaryHandlingCollection σ) (mask : flag_t)
    (c : Cell) (hc : ∀ h ∈ bhc.boundaryHandlers, h.ChangesOnlyFlagBit) (n : Nat) :
    ∃ hs cs, List.Forall₂ Handler.SameClass bhc.boundaryHandlers hs ∧
      (List.range n).foldl (forceFlagBit mask c) bhc =
        bhc.store hs { flags := bhc.flagField.data.removeMask c (mask % 2 ^ n), calls := cs } := by
  induction n with
  | zero =>
    refine ⟨bhc.boundaryHandlers, bhc.calls, sameClass_refl_list _, ?_⟩
    simp only [List.range_zero, List.foldl_nil, pow_zero, Nat.mod_one, removeMask_zero]
    rfl
  | succ n ih =>
    obtain ⟨hs, cs, hsame, heq⟩ := ih
    rw [List.range_succ, List.foldl_append, heq]
    simp only [List.foldl_cons, List.foldl_nil, forceFlagBit, two_pow_and_eq_iff]
    by_cases hb : mask.testBit n = true
    · have hc1 : ∀ h ∈ hs, h.ChangesOnlyFlagBit :=
        sameClass_forall hsame _ (fun _ _ a b => a.changesOnlyFlagBit b) hc
      have hfl := Tuple.removeFlag_flags (1 <<< n) c hs hc1
        { flags := bhc.flagField.data.removeMask c (mask % 2 ^ n), calls := cs }
      rw [removeMask_step_set _ _ _ _ hb] at hfl
      refine ⟨(Tuple.removeFlag (1 <<< n) c hs
          { flags := bhc.flagField.data.removeMask c (mask % 2 ^ n), calls := cs }).1,
        (Tuple.removeFlag (1 <<< n) c hs
          { flags := bhc.flagField.data.removeMask c (mask % 2 ^ n), calls := cs }).2.calls,
        sameClass_trans_list hsame (Tuple.removeFlag_sameClass (1 <<< n) c hs _), ?_⟩
      simp only [hb, if_true, store_store, store_handlers, store_mem]
      rw [← hfl]
    · refine ⟨hs, cs, hsame, ?_⟩
      simp only [hb, if_false, Bool.false_eq_true]
      rw [removeMask_step_unset _ _ _ _ hb]

end BoundaryHandlingCollection

theorem Tuple.testBit_flagsToRemove {σ : Type} (flag : flag_t) (c : Cell) (f : FlagData)
    (hs : List (Handler σ)) (i : Nat) :
    (Tuple.flagsToRemove flag c f hs).testBit i = true ↔
      ∃ h ∈ hs, h.owns flag = true ∧ h.ownership.testBit i = true ∧ (f c).testBit i = true := by
  induction hs with
  | nil => simp [Tuple.flagsToRemove]
  | cons h t ih =>
    simp only [Tuple.flagsToRemove, Nat.testBit_or, Bool.or_eq_true, ih, List.mem_cons,
      exists_eq_or_imp]
    by_cases ho : h.owns flag = true
    · simp only [ho, if_true, Nat.testBit_and, Bool.and_eq_true, true_and]
    · simp only [ho, if_false, Bool.false_eq_true, Nat.zero_testBit, false_and]

theorem Tuple.flagsToRemove_lt {σ : Type} (flag : flag_t) (c : Cell) (f : FlagData)
    (hs : List (Handler σ)) (n : Nat) (hw : ∀ h ∈ hs, h.ownership < 2 ^ n) :
    Tuple.flagsToRemove flag c f hs < 2 ^ n := by
  apply Nat.lt_pow_two_of_testBit
  intro i hi
  cases hb : (Tuple.flagsToRemove flag c f hs).testBit i with
  | false => rfl
  | true =>
    obtain ⟨h, hh, _, hbit, _⟩ := (Tuple.testBit_flagsToRemove flag c f hs i).mp hb
    have hlt : h.ownership < 2 ^ i :=
      Nat.lt_of_lt_of_le (hw h hh) (Nat.pow_le_pow_right (by decide) hi)
    rw [Nat.testBit_lt_two_pow hlt] at hbit
    exact absurd hbit (by decide)

theorem owns_testBit {σ : Type} (h : Handler σ) (flag : flag_t) (ho : h.owns flag = true)
    (i : Nat) (hf : flag.testBit i = true) : h.ownership.testBit i = true := by
  have e : h.ownership &&& flag = flag := by
    simpa [Handler.owns] using ho
  have hi : (h.ownership &&& flag).testBit i = flag.testBit i := by rw [e]
  rw [Nat.testBit_and, hf] at hi
  simpa using hi

namespace BoundaryHandlingCollection

theorem forceFlagHelper_spec {σ : Type} (bhc : BoundaryHandlingCollection σ) (flag : flag_t)
    (c : Cell) (p : BoundaryConfiguration)
    (hc : ∀ h ∈ bhc.boundaryHandlers, h.ChangesOnlyFlagBit)
    (hw : ∀ h ∈ bhc.boundaryHandlers, h.ownership < 2 ^ bhc.flagField.digits) :
    ∃ hs cs, List.Forall₂ Handler.SameClass bhc.boundaryHandlers hs ∧
      bhc.forceFlagHelper flag c p =
        bhc.store hs
          { flags := (bhc.flagField.data.removeMask c
              (Tuple.flagsToRemove flag c bhc.flagField.data bhc.boundaryHandlers)).addFlag c flag,
            calls := cs } := by
  obtain ⟨hs, cs, hsame, heq⟩ := forceFlagBits_spec bhc
    (Tuple.flagsToRemove flag c bhc.flagField.data bhc.boundaryHandlers) c hc
    bhc.flagField.digits
  rw [Nat.mod_eq_of_lt (Tuple.flagsToRemove_lt flag c _ _ _ hw)] at heq
  have hc1 : ∀ h ∈ hs, h.ChangesOnlyFlagBit :=
    sameClass_forall hsame _ (fun _ _ a b => a.changesOnlyFlagBit b) hc
  have hfl := Tuple.setFlag_flags flag c p hs hc1
    { flags := bhc.flagField.data.removeMask c
        (Tuple.flagsToRemove flag c bhc.flagField.data bhc.boundaryHandlers), calls := cs }
  refine ⟨(Tuple.setFlag flag c p hs
      { flags := bhc.flagField.data.removeMask c
          (Tuple.flagsToRemove flag c bhc.flagField.data bhc.boundaryHandlers), calls := cs }).1,
    (Tuple.setFlag flag c p hs
      { flags := bhc.flagField.data.removeMask c
          (Tuple.flagsToRemove flag c bhc.flagField.data bhc.boundaryHandlers),
        calls := cs }).2.calls,
    sameClass_trans_list hsame (Tuple.setFlag_sameClass flag c p hs _), ?_⟩
  simp only [forceFlagHelper, heq, store_store, store_handlers, store_mem]
  rw [← hfl]

end BoundaryHandlingCollection

/-- The mask `(old & ~flagsToRemove) | flag` that `forceFlagHelper` leaves at the cell:
bit by bit. -/
theorem testBit_forced {σ : Type} (flag : flag_t) (c : Cell) (f : FlagData)
    (hs : List (Handler σ)) (i : Nat) :
    (((f.removeMask c (Tuple.flagsToRemove flag c f hs)).addFlag c flag) c).testBit i =
      (((f c).testBit i && !(Tuple.flagsToRemove flag c f hs).testBit i) || flag.testBit i) := by
  simp only [FlagData.addFlag, FlagData.removeMask, FlagData.set_same, Nat.testBit_or,
    testBit_removed]

theorem forced_restricted {σ : Type} (flag : flag_t) (c : Cell) (f : FlagData)
    (hs : List (Handler σ)) (h : Handler σ) (hh : h ∈ hs) (ho : h.owns flag = true) :
    ((f.removeMask c (Tuple.flagsToRemove flag c f hs)).addFlag c flag) c &&& h.ownership
      = flag := by
  apply Nat.eq_of_testBit_eq
  intro i
  rw [Nat.testBit_and, testBit_forced]
  cases hf : flag.testBit i with
  | true => simp [owns_testBit h flag ho i hf]
  | false =>
    cases hown : h.ownership.testBit i with
    | false => simp
    | true =>
      cases hold : (f c).testBit i with
      | false => simp
      | true =>
        have : (Tuple.flagsToRemove flag c f hs).testBit i = true :=
          (Tuple.testBit_flagsToRemove flag c f hs i).mpr ⟨h, hh, ho, hown, hold⟩
        simp [this]

theorem forced_idempotent {σ : Type} (flag : flag_t) (c : Cell) (f : FlagData)
    (hs : List (Handler σ)) :
    ((((f.removeMask c (Tuple.flagsToRemove flag c f hs)).addFlag c flag).removeMask c
        (Tuple.flagsToRemove flag c
          ((f.removeMask c (Tuple.flagsToRemove flag c f hs)).addFlag c flag) hs)).addFlag c flag)
      = (f.removeMask c (Tuple.flagsToRemove flag c f hs)).addFlag c flag := by
  funext d
  by_cases hd : d = c
  · subst hd
    apply Nat.eq_of_testBit_eq
    intro i
    rw [testBit_forced flag d _ hs i, testBit_forced flag d f hs i]
    cases hf : flag.testBit i with
    | true => simp
    | false =>
      cases hold : (f d).testBit i with
      | false => simp
      | true =>
        cases hm1 : (Tuple.flagsToRemove flag d f hs).testBit i with
        | true => simp
        | false =>
          cases hm2 : (Tuple.flagsToRemove flag d
              ((f.removeMask d (Tuple.flagsToRemove flag d f hs)).addFlag d flag) hs).testBit i with
          | false => simp
          | true =>
            obtain ⟨h, hh, ho, hown, _⟩ := (Tuple.testBit_flagsToRemove flag d _ hs i).mp hm2
            have : (Tuple.flagsToRemove flag d f hs).testBit i = true :=
              (Tuple.testBit_flagsToRemove flag d f hs i).mpr ⟨h, hh, ho, hown, hold⟩
            rw [hm1] at this
            exact absurd this (by decide)
  · simp only [FlagData.addFlag, FlagData.removeMask, FlagData.set_other _ _ _ _ hd]

theorem BoundaryHandlingCollection.forceFlag_spec {σ : Type}
    (bhc : BoundaryHandlingCollection σ) (flag : flag_t) (c : Cell)
    (p : BoundaryConfiguration) (hin : bhc.outerBB.contains c = true)
    (hc : ∀ h ∈ bhc.boundaryHandlers, h.ChangesOnlyFlagBit)
    (hw : ∀ h ∈ bhc.boundaryHandlers, h.ownership < 2 ^ bhc.flagField.digits) :
    (bhc.forceFlag flag c p).flagField.data =
      forcedData flag c bhc.flagField.data bhc.boundaryHandlers ∧
    (bhc.forceFlag flag c p).outerBB = bhc.outerBB ∧
    (bhc.forceFlag flag c p).flagField.digits = bhc.flagField.digits ∧
    List.Forall₂ Handler.SameClass bhc.boundaryHandlers
      (bhc.forceFlag flag c p).boundaryHandlers := by
  obtain ⟨hs, cs, hsame, heq⟩ := bhc.forceFlagHelper_spec flag c p hc hw
  have e : bhc.forceFlag flag c p = bhc.forceFlagHelper flag c p := by
    simp only [BoundaryHandlingCollection.forceFlag, hin, Bool.not_true, Bool.false_eq_true,
      if_false]
  rw [e, heq]
  exact ⟨rfl, rfl, rfl, hsame⟩

/-- C5: after `forceFlag(flag, cell)` on a cell inside the outer bounding box the flag is
set at the cell and, for every handler whose ownership mask contains the flag, the mask
of the cell restricted to that ownership mask is exactly the flag; the handlers are
assumed to change at most the addressed flag bit of the addressed cell in `setFlag` and
`removeFlag`, and their masks to be values of `flag_t` (below `2 ^ digits`). -/
theorem forceFlag_leaves_exactly_the_flag_in_its_group {σ : Type}
    (bhc : BoundaryHandlingCollection σ) (flag : flag_t) (c : Cell)
    (p : BoundaryConfiguration) (hin : bhc.outerBB.contains c = true)
    (hc : ∀ h ∈ bhc.boundaryHandlers, h.ChangesOnlyFlagBit)
    (hw : ∀ h ∈ bhc.boundaryHandlers, h.ownership < 2 ^ bhc.flagField.digits) :
    (bhc.forceFlag flag c p).flagField.data.isFlagSet c flag = true ∧
    ∀ h ∈ bhc.boundaryHandlers, h.owns flag = true →
      (bhc.forceFlag flag c p).flagField.data c &&& h.ownership = flag := by
  have key := (bhc.forceFlag_spec flag c p hin hc hw).1
  refine ⟨?_, ?_⟩
  · rw [key]
    simp only [FlagData.isFlagSet, forcedData, beq_iff_eq]
    apply Nat.eq_of_testBit_eq
    intro i
    rw [Nat.testBit_and, testBit_forced]
    cases flag.testBit i <;> simp
  · intro h hh ho
    rw [key]
    exact forced_restricted flag c _ _ h hh ho

theorem plainHandler_changesOnlyFlagBit (uid : Nat) (boundaryUIDs : List Nat)
    (flagFieldId : Nat) (outerBB : CellInterval) (boundaryMask domainMask : flag_t) :
    (plainHandler uid boundaryUIDs flagFieldId outerBB boundaryMask
      domainMask).ChangesOnlyFlagBit := by
  intro flag c f st
  exact ⟨fun _ => FlagData.agreeOff_addFlag flag c f, FlagData.agreeOff_removeFlag flag c f⟩

theorem example_changesOnlyFlagBit :
    ∀ h ∈ [handlerA, handlerB], h.ChangesOnlyFlagBit := by
  intro h hh
  simp only [List.mem_cons, List.mem_singleton, List.not_mem_nil, or_false] at hh
  rcases hh with rfl | rfl <;> exact plainHandler_changesOnlyFlagBit _ _ _ _ _ _

/-- C5, at an example: the cell carries 13 = 8 + 4 + 1; forcing the flag 2 of the handler
owning the bits 1 and 2 removes the bit 1 and leaves 14, whose restriction to the
ownership mask 3 is the flag 2. -/
theorem forceFlag_leaves_exactly_the_flag_in_its_group_witness :
    ((exampleCollectionWith [handlerA, handlerB] exampleData).forceFlag 2 originCell
      0).flagField.data originCell = 14 ∧
    ((exampleCollectionWith [handlerA, handlerB] exampleData).forceFlag 2 originCell
      0).flagField.data originCell &&& handlerA.ownership = 2 :=
  ⟨by decide,
   (forceFlag_leaves_exactly_the_flag_in_its_group
      (exampleCollectionWith [handlerA, handlerB] exampleData) 2 originCell 0 (by decide)
      example_changesOnlyFlagBit (by decide)).2 handlerA (List.mem_cons_self _ _) (by decide)⟩

/-- C6: for single-bit flags `f1 = 1 << k1` and `f2 = 1 << k2` owned by the same handler
`H`, a cell inside the outer bounding box and every initial state, `forceFlag(f1, cell)`
followed by `forceFlag(f2, cell)` leaves exactly the bit `f2` of the ownership mask of `H`
set at the cell, and calling `forceFlag(f1, cell)` twice leaves the same flag field as
calling it once; the handlers are taken to obey their contract (`setFlag` / `removeFlag`
change at most the addressed flag bit of the addressed cell) and to have masks of type
`flag_t`. -/
theorem forceFlag_twice_leaves_the_second_flag {σ : Type}
    (bhc : BoundaryHandlingCollection σ) (H : Handler σ) (hH : H ∈ bhc.boundaryHandlers)
    (k1 k2 : Nat) (ho1 : H.owns (1 <<< k1) = true) (ho2 : H.owns (1 <<< k2) = true)
    (c : Cell) (p q : BoundaryConfiguration) (hin : bhc.outerBB.contains c = true)
    (hc : ∀ h ∈ bhc.boundaryHandlers, h.ChangesOnlyFlagBit)
    (hw : ∀ h ∈ bhc.boundaryHandlers, h.ownership < 2 ^ bhc.flagField.digits) :
    ((bhc.forceFlag (1 <<< k1) c p).forceFlag (1 <<< k2) c q).flagField.data c &&& H.ownership
      = 1 <<< k2 ∧
    (bhc.forceFlag (1 <<< k1) c p).flagField.data c &&& H.ownership = 1 <<< k1 ∧
    ((bhc.forceFlag (1 <<< k1) c p).forceFlag (1 <<< k1) c q).flagField.data =
      (bhc.forceFlag (1 <<< k1) c p).flagField.data := by
  obtain ⟨hd1, hbb1, hdig1, hsame1⟩ := bhc.forceFlag_spec (1 <<< k1) c p hin hc hw
  have hin1 : (bhc.forceFlag (1 <<< k1) c p).outerBB.contains c = true := by rw [hbb1]; exact hin
  have hc1 : ∀ h ∈ (bhc.forceFlag (1 <<< k1) c p).boundaryHandlers, h.ChangesOnlyFlagBit :=
    sameClass_forall hsame1 _ (fun _ _ a b => a.changesOnlyFlagBit b) hc
  have hw1 : ∀ h ∈ (bhc.forceFlag (1 <<< k1) c p).boundaryHandlers,
      h.ownership < 2 ^ (bhc.forceFlag (1 <<< k1) c p).flagField.digits := by
    rw [hdig1]
    exact sameClass_forall hsame1 (fun h => h.ownership < 2 ^ bhc.flagField.digits)
      (fun _ _ a b => by
        show _ < _
        rw [a.ownership]
        exact b) hw
  have hd2 := fun flag => ((bhc.forceFlag (1 <<< k1) c p).forceFlag_spec flag c q hin1 hc1 hw1).1
  refine ⟨?_, ?_, ?_⟩
  · rw [hd2, forcedData, Tuple.flagsToRemove_sameClass hsame1]
    exact forced_restricted (1 <<< k2) c _ _ H hH ho2
  · rw [hd1]
    exact forced_restricted (1 <<< k1) c _ _ H hH ho1
  · rw [hd2, forcedData, Tuple.flagsToRemove_sameClass hsame1, hd1]
    exact forced_idempotent (1 <<< k1) c _ _

/-- C6, at an example: the cell carries the flag 1 of `handlerA` (mask 13); forcing the
flag 2 and then the flag 1 of `handlerA` leaves 13, with only the bit 1 of the ownership
mask 3 set. -/
theorem forceFlag_twice_leaves_the_second_flag_witness :
    (((exampleCollectionWith [handlerA, handlerB] exampleData).forceFlag (1 <<< 1) originCell
      0).forceFlag (1 <<< 0) originCell 0).flagField.data originCell = 13 ∧
    (((exampleCollectionWith [handlerA, handlerB] exampleData).forceFlag (1 <<< 1) originCell
      0).forceFlag (1 <<< 0) originCell 0).flagField.data originCell &&& handlerA.ownership
      = 1 <<< 0 :=
  ⟨by decide,
   (forceFlag_twice_leaves_the_second_flag
      (exampleCollectionWith [handlerA, handlerB] exampleData) handlerA
      (List.mem_cons_self _ _) 1 0 (by decide) (by decide) originCell 0 0 (by decide)
      example_changesOnlyFlagBit (by decide)).1⟩

/-! ### removeFlag -/

theorem removed_and_flag (x flag : Nat) : (x ^^^ (x &&& flag)) &&& flag = 0 := by
  apply Nat.eq_of_testBit_eq
  intro i
  rw [Nat.testBit_and, testBit_removed, Nat.zero_testBit]
  cases x.testBit i <;> cases flag.testBit i <;> rfl

theorem Tuple.removeFlag_clears {σ : Type} (flag : flag_t) (c : Cell) (hs : List (Handler σ))
    (m : Mem) : (Tuple.removeFlag flag c hs m).2.flags c &&& flag = 0 := by
  induction hs generalizing m with
  | nil =>
    simp only [Tuple.removeFlag, FlagData.removeFlag, FlagData.set_same]
    exact removed_and_flag _ _
  | cons h t ih =>
    by_cases ho : h.owns flag = true
    · simp only [Tuple.removeFlag, ho, if_true]
      exact ih _
    · simp only [Tuple.removeFlag, ho, if_false, Bool.false_eq_true]
      exact ih _

theorem Tuple.removeFlag_of_no_owner {σ : Type} (flag : flag_t) (c : Cell)
    (hs : List (Handler σ)) (hno : ∀ h ∈ hs, h.owns flag = false) (m : Mem) :
    Tuple.removeFlag flag c hs m = (hs, { m with flags := m.flags.removeFlag c flag }) := by
  induction hs generalizing m with
  | nil => rfl
  | cons h t ih =>
    have hh := hno h (List.mem_cons_self h t)
    have ht : ∀ k ∈ t, k.owns flag = false := fun k hk => hno k (List.mem_cons_of_mem h hk)
    simp only [Tuple.removeFlag, hh, Bool.false_eq_true, if_false, ih ht]

/-- C7: `removeFlag(flag, cell)` leaves the whole state unchanged (flag field, handlers and
trace: no handler is invoked) when the cell lies outside the outer bounding box or the
flag is not set at the cell; when the flag is set at a cell inside the box, no bit of the
flag is set at the cell afterwards; and if moreover no handler owns the flag, no handler
is invoked and the flag field changes only by the removal of the flag at that cell. -/
theorem removeFlag_noop_or_clears_bit {σ : Type} (bhc : BoundaryHandlingCollection σ)
    (flag : flag_t) (c : Cell) :
    ((bhc.outerBB.contains c = false ∨ bhc.flagField.data.isFlagSet c flag = false) →
      bhc.removeFlag flag c = bhc) ∧
    ((bhc.outerBB.contains c = true ∧ bhc.flagField.data.isFlagSet c flag = true) →
      (bhc.removeFlag flag c).flagField.data c &&& flag = 0) ∧
    ((bhc.outerBB.contains c = true ∧ bhc.flagField.data.isFlagSet c flag = true ∧
        ∀ h ∈ bhc.boundaryHandlers, h.owns flag = false) →
      (bhc.removeFlag flag c).calls = bhc.calls ∧
      (bhc.removeFlag flag c).boundaryHandlers = bhc.boundaryHandlers ∧
      (bhc.removeFlag flag c).flagField.data c =
        bhc.flagField.data c ^^^ (bhc.flagField.data c &&& flag) ∧
      (∀ i, flag.testBit i = false →
        ((bhc.removeFlag flag c).flagField.data c).testBit i =
          (bhc.flagField.data c).testBit i) ∧
      (∀ d, d ≠ c → (bhc.removeFlag flag c).flagField.data d = bhc.flagField.data d)) := by
  refine ⟨?_, ?_, ?_⟩
  · intro h
    rcases h with h | h <;> simp [BoundaryHandlingCollection.removeFlag, h]
  · intro h
    simp only [BoundaryHandlingCollection.removeFlag, h.1, h.2, Bool.not_true, Bool.or_self,
      Bool.false_eq_true, if_false, BoundaryHandlingCollection.store]
    exact Tuple.removeFlag_clears flag c _ _
  · intro h
    have key : bhc.removeFlag flag c =
        bhc.store bhc.boundaryHandlers
          { bhc.mem with flags := bhc.mem.flags.removeFlag c flag } := by
      simp only [BoundaryHandlingCollection.removeFlag, h.1, h.2.1, Bool.not_true,
        Bool.or_self, Bool.false_eq_true, if_false,
        Tuple.removeFlag_of_no_owner flag c bhc.boundaryHandlers h.2.2]
    have hcell : (bhc.removeFlag flag c).flagField.data c =
        bhc.flagField.data c ^^^ (bhc.flagField.data c &&& flag) := by
      rw [key]
      exact FlagData.set_same _ _ _
    refine ⟨by rw [key]; rfl, by rw [key]; rfl, hcell, ?_, ?_⟩
    · intro i hi
      rw [hcell, testBit_removed, hi, Bool.not_false, Bool.and_true]
    · intro d hd
      rw [key]
      exact FlagData.set_other _ _ _ _ hd

/-- C7, at an example: the flag 2 is not set at the cell (mask 13), so nothing happens;
the flag 4 is set and is cleared (by its owner and on the raw field); the flag 8 has
no owner, and removing it leaves 5 with an empty trace. -/
theorem removeFlag_noop_or_clears_bit_witness :
    (exampleCollectionWith [handlerA, handlerB] exampleData).removeFlag 2 originCell =
      exampleCollectionWith [handlerA, handlerB] exampleData ∧
    ((exampleCollectionWith [handlerA, handlerB] exampleData).removeFlag 4
      originCell).flagField.data originCell &&& 4 = 0 ∧
    ((exampleCollectionWith [handlerA, handlerB] exampleData).removeFlag 8
      originCell).calls = [] ∧
    ((exampleCollectionWith [handlerA, handlerB] exampleData).removeFlag 8
      originCell).flagField.data originCell = 5 :=
  ⟨(removeFlag_noop_or_clears_bit (exampleCollectionWith [handlerA, handlerB] exampleData) 2
      originCell).1 (Or.inr (by decide)),
   (removeFlag_noop_or_clears_bit (exampleCollectionWith [handlerA, handlerB] exampleData) 4
      originCell).2.1 ⟨by decide, by decide⟩,
   ((removeFlag_noop_or_clears_bit (exampleCollectionWith [handlerA, handlerB] exampleData) 8
      originCell).2.2 ⟨by decide, by decide, by decide⟩).1,
   by decide⟩

/-! ### Interval operations stay inside the clipped interval -/

theorem CellInterval.mem_loopRange (lo hi v : Int) :
    v ∈ CellInterval.loopRange lo hi ↔ lo ≤ v ∧ v ≤ hi := by
  unfold CellInterval.loopRange
  rw [List.mem_map]
  constructor
  · rintro ⟨i, hi1, rfl⟩
    have h1 := Int.lt_toNat.mp (List.mem_range.mp hi1)
    omega
  · intro h
    have h0 : ((v - lo).toNat : Int) = v - lo := Int.toNat_of_nonneg (by omega)
    refine ⟨(v - lo).toNat, ?_, ?_⟩
    · apply List.mem_range.mpr
      apply Int.lt_toNat.mpr
      omega
    · omega

theorem CellInterval.mem_cells (ci : CellInterval) (c : Cell) :
    c ∈ ci.cells ↔ ci.contains c = true := by
  simp only [CellInterval.cells, List.mem_flatMap, List.mem_map, CellInterval.mem_loopRange,
    CellInterval.contains, Bool.and_eq_true, decide_eq_true_eq]
  constructor
  · rintro ⟨z, hz, y, hy, x, hx, rfl⟩
    exact ⟨⟨⟨⟨⟨hx.1, hx.2⟩, hy.1⟩, hy.2⟩, hz.1⟩, hz.2⟩
  · rintro ⟨⟨⟨⟨⟨h1, h2⟩, h3⟩, h4⟩, h5⟩, h6⟩
    exact ⟨c.z, ⟨h5, h6⟩, c.y, ⟨h3, h4⟩, c.x, ⟨h1, h2⟩, rfl⟩

theorem CellInterval.cells_of_empty (ci : CellInterval) (h : ci.empty = true) :
    ci.cells = [] := by
  apply List.eq_nil_iff_forall_not_mem.mpr
  intro c hc
  have hcon := (ci.mem_cells c).mp hc
  simp only [CellInterval.contains, Bool.and_eq_true, decide_eq_true_eq] at hcon
  simp only [CellInterval.empty, Bool.or_eq_true, decide_eq_true_eq] at h
  omega

theorem ne_of_contains {region : CellInterval} {c d : Cell}
    (hc : region.contains c = true) (hd : region.contains d = false) : d ≠ c := by
  intro e
  rw [e, hc] at hd
  exact absurd hd (by decide)

namespace Mem

theorem Frame.memRefl (region : CellInterval) (m : Mem) : Frame region m m :=
  ⟨fun _ _ => rfl, [], (List.append_nil _).symm, fun _ h => absurd h (List.not_mem_nil _)⟩

theorem Frame.memTrans {region : CellInterval} {m n k : Mem} (a : Frame region m n)
    (b : Frame region n k) : Frame region m k := by
  obtain ⟨a1, na, ha, hwa⟩ := a
  obtain ⟨b1, nb, hb, hwb⟩ := b
  refine ⟨fun d hd => (b1 d hd).trans (a1 d hd), na ++ nb, ?_, ?_⟩
  · rw [hb, ha, List.append_assoc]
  · intro call hcall
    rcases List.mem_append.mp hcall with h | h
    · exact hwa call h
    · exact hwb call h

theorem frame_set (region : CellInterval) (m : Mem) (c : Cell) (v : flag_t)
    (hc : region.contains c = true) :
    Frame region m { m with flags := m.flags.set c v } :=
  ⟨fun _ hd => FlagData.set_other _ _ _ _ (ne_of_contains hc hd), [],
    (List.append_nil _).symm, fun _ h => absurd h (List.not_mem_nil _)⟩

theorem frame_invoke {σ : Type} (region : CellInterval) (h : Handler σ) (call : Call)
    (op : FlagData → σ → FlagData × σ) (m : Mem)
    (hop : ∀ f st d, region.contains d = false → (op f st).1 d = f d)
    (hcall : call.within region = true) : Frame region m (h.invoke call op m).2 :=
  ⟨fun d hd => hop m.flags h.st d hd, [call], rfl, fun x hx => by
    rw [List.mem_singleton.mp hx]
    exact hcall⟩

theorem frame_foldl_flags (region : CellInterval) (g : FlagData → Cell → FlagData)
    (hg : ∀ f c d, d ≠ c → g f c d = f d) (cs : List Cell)
    (hcs : ∀ c ∈ cs, region.contains c = true) (m : Mem) :
    Frame region m { m with flags := cs.foldl g m.flags } := by
  refine ⟨?_, [], (List.append_nil _).symm, fun _ h => absurd h (List.not_mem_nil _)⟩
  intro d hd
  show cs.foldl g m.flags d = m.flags d
  generalize m.flags = f
  induction cs generalizing f with
  | nil => rfl
  | cons c t ih =>
    rw [List.foldl_cons, ih (fun x hx => hcs x (List.mem_cons_of_mem _ hx))]
    exact hg f c d (ne_of_contains (hcs c (List.mem_cons_self _ _)) hd)

end Mem

theorem Tuple.clear_frame {σ : Type} (region : CellInterval) (c : Cell)
    (hc : region.contains c = true) (hs : List (Handler σ)) (hloc : ∀ h ∈ hs, h.Local)
    (m : Mem) :
    Mem.Frame region m (Tuple.clear c hs m).2.1 ∧
    List.Forall₂ Handler.SameClass hs (Tuple.clear c hs m).1 := by
  induction hs generalizing m with
  | nil => exact ⟨Mem.Frame.memRefl _ _, List.Forall₂.nil⟩
  | cons h t ih =>
    have hh := hloc h (List.mem_cons_self h t)
    have ht : ∀ k ∈ t, k.Local := fun k hk => hloc k (List.mem_cons_of_mem h hk)
    have f1 : Mem.Frame region m (h.invoke (Call.clear h.uid c) (h.clear c) m).2 :=
      Mem.frame_invoke region h _ _ m
        (fun f st d hd => hh.2.2.1 c f st d (ne_of_contains hc hd)) hc
    have f2 := Mem.frame_set region (h.invoke (Call.clear h.uid c) (h.clear c) m).2 c
      ((h.invoke (Call.clear h.uid c) (h.clear c) m).2.flags c ||| m.flags c) hc
    have r := ih ht
      { (h.invoke (Call.clear h.uid c) (h.clear c) m).2 with
        flags := (h.invoke (Call.clear h.uid c) (h.clear c) m).2.flags.addMask c (m.flags c) }
    simp only [Tuple.clear]
    exact ⟨(f1.memTrans f2).memTrans r.1, List.Forall₂.cons (Handler.SameClass.invoke _ _ _ _) r.2⟩

theorem Tuple.setFlag_frame {σ : Type} (region : CellInterval) (flag : flag_t) (c : Cell)
    (p : BoundaryConfiguration) (hc : region.contains c = true) (hs : List (Handler σ))
    (hloc : ∀ h ∈ hs, h.Local) (m : Mem) :
    Mem.Frame region m (Tuple.setFlag flag c p hs m).2 := by
  induction hs generalizing m with
  | nil => exact Mem.frame_set region m c _ hc
  | cons h t ih =>
    have hh := hloc h (List.mem_cons_self h t)
    have ht : ∀ k ∈ t, k.Local := fun k hk => hloc k (List.mem_cons_of_mem h hk)
    by_cases ho : h.owns flag = true
    · simp only [Tuple.setFlag, ho, if_true]
      have f1 : Mem.Frame region m { m with flags := m.flags.removeFlag c flag } :=
        Mem.frame_set region m c (m.flags c ^^^ (m.flags c &&& flag)) hc
      have f2 := Mem.frame_invoke region h (Call.setFlag h.uid flag c p)
        (h.setFlag flag c p) { m with flags := m.flags.removeFlag c flag }
        (fun f st d hd => hh.1 flag c p f st d (ne_of_contains hc hd)) hc
      exact (f1.memTrans f2).memTrans (ih ht _)
    · simp only [Tuple.setFlag, ho, if_false, Bool.false_eq_true]
      exact ih ht m

theorem Tuple.removeFlag_frame {σ : Type} (region : CellInterval) (flag : flag_t) (c : Cell)
    (hc : region.contains c = true) (hs : List (Handler σ))
    (hloc : ∀ h ∈ hs, h.Local) (m : Mem) :
    Mem.Frame region m (Tuple.removeFlag flag c hs m).2 := by
  induction hs generalizing m with
  | nil => exact Mem.frame_set region m c _ hc
  | cons h t ih =>
    have hh := hloc h (List.mem_cons_self h t)
    have ht : ∀ k ∈ t, k.Local := fun k hk => hloc k (List.mem_cons_of_mem h hk)
    by_cases ho : h.owns flag = true
    · simp only [Tuple.removeFlag, ho, if_true]
      have f1 : Mem.Frame region m { m with flags := m.flags.addFlag c flag } :=
        Mem.frame_set region m c (m.flags c ||| flag) hc
      have f2 := Mem.frame_invoke region h (Call.removeFlag h.uid flag c)
        (h.removeFlag flag c) { m with flags := m.flags.addFlag c flag }
        (fun f st d hd => hh.2.1 flag c f st d (ne_of_contains hc hd)) hc
      exact (f1.memTrans f2).memTrans (ih ht _)
    · simp only [Tuple.removeFlag, ho, if_false, Bool.false_eq_true]
      exact ih ht m

theorem Tuple.setFlagCells_frame {σ : Type} (region : CellInterval) (flag : flag_t)
    (p : BoundaryConfiguration) (hs : List (Handler σ))
    (hloc : ∀ h ∈ hs, h.Local) (m : Mem) :
    Mem.Frame region m (Tuple.setFlagCells flag region p hs m).2 ∧
    List.Forall₂ Handler.SameClass hs (Tuple.setFlagCells flag region p hs m).1 := by
  induction hs generalizing m with
  | nil =>
    exact ⟨Mem.frame_foldl_flags region _ (fun f c d hd => FlagData.set_other _ _ _ _ hd) _
      (fun c hc => (region.mem_cells c).mp hc) m, List.Forall₂.nil⟩
  | cons h t ih =>
    have hh := hloc h (List.mem_cons_self h t)
    have ht : ∀ k ∈ t, k.Local := fun k hk => hloc k (List.mem_cons_of_mem h hk)
    by_cases ho : h.owns flag = true
    · simp only [Tuple.setFlagCells, ho, if_true]
      have f1 : Mem.Frame region m
          (if m.flags.isFlagSet (Cell.mk region.xMin region.yMin region.zMin) flag = true then
            { m with flags := region.cells.foldl (fun f c => f.removeFlag c flag) m.flags }
          else m) := by
        split
        · exact Mem.frame_foldl_flags region _ (fun f c d hd => FlagData.set_other _ _ _ _ hd) _
            (fun c hc => (region.mem_cells c).mp hc) m
        · exact Mem.Frame.memRefl _ _
      have f2 := fun m1 => Mem.frame_invoke region h
        (Call.setFlagCells h.uid flag region p) (h.setFlagCells flag region p) m1
        (fun f st d hd => hh.2.2.2 flag region p f st d hd) (by simp [Call.within])
      exact ⟨(f1.memTrans (f2 _)).memTrans (ih ht _).1,
        List.Forall₂.cons (Handler.SameClass.invoke _ _ _ _) (ih ht _).2⟩
    · simp only [Tuple.setFlagCells, ho, if_false, Bool.false_eq_true]
      exact ⟨(ih ht m).1, List.Forall₂.cons (Handler.SameClass.sameRefl h) (ih ht m).2⟩

theorem Handler.SameClass.keepsLocal {σ : Type} {h k : Handler σ}
    (a : h.SameClass k) (hl : h.Local) : k.Local := by
  obtain ⟨s, rfl⟩ := a
  exact hl

namespace BoundaryHandlingCollection

theorem Frame.collRefl {σ : Type} (region : CellInterval) (b : BoundaryHandlingCollection σ) :
    Frame region b b := ⟨Mem.Frame.memRefl _ _, sameClass_refl_list _⟩

theorem Frame.collTrans {σ : Type} {region : CellInterval} {a b c : BoundaryHandlingCollection σ}
    (x : Frame region a b) (y : Frame region b c) : Frame region a c :=
  ⟨x.1.memTrans y.1, sameClass_trans_list x.2 y.2⟩

theorem Frame.isLocal {σ : Type} {region : CellInterval} {a b : BoundaryHandlingCollection σ}
    (x : Frame region a b) (hl : ∀ h ∈ a.boundaryHandlers, h.Local) :
    ∀ h ∈ b.boundaryHandlers, h.Local :=
  sameClass_forall x.2 _ (fun _ _ s l => s.keepsLocal l) hl

theorem frame_foldl {σ α : Type} (region : CellInterval)
    (step : BoundaryHandlingCollection σ → α → BoundaryHandlingCollection σ) (good : α → Prop)
    (hstep : ∀ b x, good x → (∀ h ∈ b.boundaryHandlers, h.Local) → Frame region b (step b x))
    (xs : List α) (hxs : ∀ x ∈ xs, good x) (b : BoundaryHandlingCollection σ)
    (hl : ∀ h ∈ b.boundaryHandlers, h.Local) : Frame region b (xs.foldl step b) := by
  induction xs generalizing b with
  | nil => exact Frame.collRefl _ _
  | cons x t ih =>
    have s1 := hstep b x (hxs x (List.mem_cons_self _ _)) hl
    exact s1.collTrans (ih (fun y hy => hxs y (List.mem_cons_of_mem _ hy)) _ (s1.isLocal hl))

end BoundaryHandlingCollection

namespace BoundaryHandlingCollection

theorem frame_store {σ : Type} (region : CellInterval) (b : BoundaryHandlingCollection σ)
    (hs : List (Handler σ)) (m : Mem) (hm : Mem.Frame region b.mem m)
    (hsame : List.Forall₂ Handler.SameClass b.boundaryHandlers hs) :
    Frame region b (b.store hs m) := ⟨hm, hsame⟩

theorem clearCell_frame {σ : Type} (region : CellInterval)
    (b : BoundaryHandlingCollection σ) (c : Cell) (hc : region.contains c = true)
    (hl : ∀ h ∈ b.boundaryHandlers, h.Local) : Frame region b (b.clearCell c) := by
  have k := Tuple.clear_frame region c hc b.boundaryHandlers hl b.mem
  exact frame_store region b _ _ (k.1.memTrans (Mem.frame_set region _ c _ hc)) k.2

theorem removeFlagIfSet_frame {σ : Type} (region : CellInterval) (flag : flag_t)
    (b : BoundaryHandlingCollection σ) (c : Cell) (hc : region.contains c = true)
    (hl : ∀ h ∈ b.boundaryHandlers, h.Local) : Frame region b (removeFlagIfSet flag b c) := by
  unfold removeFlagIfSet
  simp only
  split
  · exact frame_store region b _ _ (Tuple.removeFlag_frame region flag c hc _ hl _)
      (Tuple.removeFlag_sameClass flag c _ _)
  · exact Frame.collRefl _ _

theorem forceFlagBit_frame {σ : Type} (region : CellInterval) (mask : flag_t) (c : Cell)
    (hc : region.contains c = true) (b : BoundaryHandlingCollection σ) (bit : Nat)
    (hl : ∀ h ∈ b.boundaryHandlers, h.Local) : Frame region b (forceFlagBit mask c b bit) := by
  unfold forceFlagBit
  simp only
  split
  · exact frame_store region b _ _ (Tuple.removeFlag_frame region _ c hc _ hl _)
      (Tuple.removeFlag_sameClass _ c _ _)
  · exact Frame.collRefl _ _

theorem forceFlagHelper_frame {σ : Type} (region : CellInterval) (flag : flag_t)
    (p : BoundaryConfiguration) (b : BoundaryHandlingCollection σ) (c : Cell)
    (hc : region.contains c = true) (hl : ∀ h ∈ b.boundaryHandlers, h.Local) :
    Frame region b (b.forceFlagHelper flag c p) := by
  have loop := frame_foldl region
    (forceFlagBit (Tuple.flagsToRemove flag c b.flagField.data b.boundaryHandlers) c)
    (fun _ => True) (fun b1 bit _ hl1 => forceFlagBit_frame region _ c hc b1 bit hl1)
    (List.range b.flagField.digits) (fun _ _ => trivial) b hl
  have hl1 := loop.isLocal hl
  refine loop.collTrans ?_
  exact frame_store region _ _ _ (Tuple.setFlag_frame region flag c p hc _ hl1 _)
    (Tuple.setFlag_sameClass flag c p _ _)

theorem confinedTo_of_frame {σ : Type} (region : CellInterval)
    (a b : BoundaryHandlingCollection σ) (x : Frame region a b)
    (hempty : region.empty = true → b = a) : ConfinedTo region a b :=
  ⟨x.1.1, x.1.2, hempty⟩

end BoundaryHandlingCollection

theorem CellInterval.contains_intersect (a b : CellInterval) (d : Cell) :
    (a.intersect b).contains d = (a.contains d && b.contains d) := by
  rw [Bool.eq_iff_iff]
  simp only [CellInterval.contains, CellInterval.intersect, Bool.and_eq_true,
    decide_eq_true_eq, max_le_iff, le_min_iff]
  tauto

/-- C8: for every flag and every cell interval, `setFlag`, `forceFlag`, `removeFlag` and
`clear` on the interval are confined to the intersection of the interval with the outer
bounding box (a cell lies in it exactly when it lies in both): no cell outside the
intersection is modified, the handlers are only called for the intersection (interval
calls are handed the intersection itself, cell calls address its cells), and when the
intersection is empty the collection is unchanged and no handler is invoked.  The handlers
are taken to obey their frame contract: they modify only the cell or interval handed to
them. -/
theorem interval_operations_confined_to_clipped_interval {σ : Type}
    (bhc : BoundaryHandlingCollection σ) (flag : flag_t) (cells : CellInterval)
    (p : BoundaryConfiguration) (hl : ∀ h ∈ bhc.boundaryHandlers, h.Local) :
    (∀ d, (bhc.outerBB.intersect cells).contains d =
      (bhc.outerBB.contains d && cells.contains d)) ∧
    bhc.ConfinedTo (bhc.outerBB.intersect cells) (bhc.setFlagCells flag cells p) ∧
    bhc.ConfinedTo (bhc.outerBB.intersect cells) (bhc.forceFlagCells flag cells p) ∧
    bhc.ConfinedTo (bhc.outerBB.intersect cells) (bhc.removeFlagCells flag cells) ∧
    bhc.ConfinedTo (bhc.outerBB.intersect cells) (bhc.clearCells cells) := by
  have hmem : ∀ c ∈ (bhc.outerBB.intersect cells).cells,
      (bhc.outerBB.intersect cells).contains c = true :=
    fun c hc => ((bhc.outerBB.intersect cells).mem_cells c).mp hc
  refine ⟨fun d => CellInterval.contains_intersect _ _ d, ?_, ?_, ?_, ?_⟩
  · apply BoundaryHandlingCollection.confinedTo_of_frame
    · unfold BoundaryHandlingCollection.setFlagCells
      simp only
      split
      · exact BoundaryHandlingCollection.Frame.collRefl _ _
      · have k := Tuple.setFlagCells_frame (bhc.outerBB.intersect cells) flag p
          bhc.boundaryHandlers hl bhc.mem
        exact BoundaryHandlingCollection.frame_store _ bhc _ _ k.1 k.2
    · intro he
      simp only [BoundaryHandlingCollection.setFlagCells, he, if_true]
  · apply BoundaryHandlingCollection.confinedTo_of_frame
    · unfold BoundaryHandlingCollection.forceFlagCells
      simp only
      split
      · exact BoundaryHandlingCollection.Frame.collRefl _ _
      · exact BoundaryHandlingCollection.frame_foldl _ _
          (fun c => (bhc.outerBB.intersect cells).contains c = true)
          (fun b c hc hb =>
            BoundaryHandlingCollection.forceFlagHelper_frame _ flag p b c hc hb)
          _ hmem bhc hl
    · intro he
      simp only [BoundaryHandlingCollection.forceFlagCells, he, if_true]
  · apply BoundaryHandlingCollection.confinedTo_of_frame
    · unfold BoundaryHandlingCollection.removeFlagCells
      simp only
      split
      · exact BoundaryHandlingCollection.Frame.collRefl _ _
      · exact BoundaryHandlingCollection.frame_foldl _ _
          (fun c => (bhc.outerBB.intersect cells).contains c = true)
          (fun b c hc hb =>
            BoundaryHandlingCollection.removeFlagIfSet_frame _ flag b c hc hb)
          _ hmem bhc hl
    · intro he
      simp only [BoundaryHandlingCollection.removeFlagCells, he, if_true]
  · apply BoundaryHandlingCollection.confinedTo_of_frame
    · unfold BoundaryHandlingCollection.clearCells
      simp only
      split
      · exact BoundaryHandlingCollection.Frame.collRefl _ _
      · exact BoundaryHandlingCollection.frame_foldl _ _
          (fun c => (bhc.outerBB.intersect cells).contains c = true)
          (fun b c hc hb => BoundaryHandlingCollection.clearCell_frame _ b c hc hb)
          _ hmem bhc hl
    · intro he
      simp only [BoundaryHandlingCollection.clearCells, he, if_true]

theorem plainHandler_local (uid : Nat) (boundaryUIDs : List Nat) (flagFieldId : Nat)
    (outerBB : CellInterval) (boundaryMask domainMask : flag_t) :
    (plainHandler uid boundaryUIDs flagFieldId outerBB boundaryMask domainMask).Local := by
  refine ⟨?_, ?_, ?_, ?_⟩
  · intro flag c p f st d hd
    exact FlagData.set_other _ _ _ _ hd
  · intro flag c f st d hd
    exact FlagData.set_other _ _ _ _ hd
  · intro c f st d hd
    exact FlagData.set_other _ _ _ _ hd
  · intro flag cells p f st d hd
    exact (Mem.frame_foldl_flags cells (fun g c => g.addFlag c flag)
      (fun g c e he => FlagData.set_other _ _ _ _ he) cells.cells
      (fun c hc => (cells.mem_cells c).mp hc) { flags := f, calls := [] }).1 d hd

theorem example_local : ∀ h ∈ [handlerA, handlerB], h.Local := by
  intro h hh
  simp only [List.mem_cons, List.mem_singleton, List.not_mem_nil, or_false] at hh
  rcases hh with rfl | rfl <;> exact plainHandler_local _ _ _ _ _ _

/-- C8, at an example: the interval `x = 2..5` sticks out of the bounding box
`[-1, 2]^3`; `setFlag` on it sets the flag at the cell `x = 2` and leaves the cell `x = 3`
alone, and `clear` on an interval outside the box changes nothing. -/
theorem interval_operations_confined_to_clipped_interval_witness :
    ((exampleCollectionWith [handlerA, handlerB] exampleData).setFlagCells 2 exampleInterval
      0).flagField.data (Cell.mk 2 0 0) = 2 ∧
    ((exampleCollectionWith [handlerA, handlerB] exampleData).setFlagCells 2 exampleInterval
      0).flagField.data (Cell.mk 3 0 0) = exampleData (Cell.mk 3 0 0) ∧
    (exampleCollectionWith [handlerA, handlerB] exampleData).clearCells outsideInterval =
      exampleCollectionWith [handlerA, handlerB] exampleData :=
  ⟨by decide,
   (interval_operations_confined_to_clipped_interval
      (exampleCollectionWith [handlerA, handlerB] exampleData) 2 exampleInterval 0
      example_local).2.1.1 (Cell.mk 3 0 0) (by decide),
   (interval_operations_confined_to_clipped_interval
      (exampleCollectionWith [handlerA, handlerB] exampleData) 2 outsideInterval 0
      example_local).2.2.2.2.2.2 (by decide)⟩

/-! ### Interval queries and treatment: no clipping -/

theorem Tuple.consideredByAllHandlers_calls {σ : Type} (c : Cell) (f : FlagData)
    (hs : List (Handler σ)) (calls : List Call) :
    ∃ new, (Tuple.consideredByAllHandlers c f hs calls).2 = calls ++ new ∧
      ∀ call ∈ new, ∃ uid, call = Call.isEmpty uid c := by
  induction hs generalizing calls with
  | nil => exact ⟨[], (List.append_nil _).symm, fun _ h => absurd h (List.not_mem_nil _)⟩
  | cons h t ih =>
    by_cases he : h.isEmpty c f h.st = true
    · refine ⟨[Call.isEmpty h.uid c], ?_, ?_⟩
      · simp only [Tuple.consideredByAllHandlers, he, if_true]
      · intro call hcall
        exact ⟨h.uid, List.mem_singleton.mp hcall⟩
    · obtain ⟨new, hnew, hall⟩ := ih (calls ++ [Call.isEmpty h.uid c])
      refine ⟨Call.isEmpty h.uid c :: new, ?_, ?_⟩
      · simp only [Tuple.consideredByAllHandlers, he, if_false, Bool.false_eq_true, hnew,
          List.append_assoc, List.singleton_append]
      · intro call hcall
        rcases List.mem_cons.mp hcall with rfl | hc
        · exact ⟨h.uid, rfl⟩
        · exact hall call hc

theorem BoundaryHandlingCollection.consideredByAllHandlersLoop_calls {σ : Type}
    (cs : List Cell) (bhc : BoundaryHandlingCollection σ) :
    ∃ new, (BoundaryHandlingCollection.consideredByAllHandlersLoop cs bhc).2.calls =
        bhc.calls ++ new ∧
      ∀ call ∈ new, ∃ uid c, call = Call.isEmpty uid c ∧ c ∈ cs := by
  induction cs generalizing bhc with
  | nil => exact ⟨[], (List.append_nil _).symm, fun _ h => absurd h (List.not_mem_nil _)⟩
  | cons c t ih =>
    obtain ⟨n1, h1, a1⟩ := Tuple.consideredByAllHandlers_calls c bhc.flagField.data
      bhc.boundaryHandlers bhc.calls
    have a1c : ∀ call ∈ n1, ∃ uid d, call = Call.isEmpty uid d ∧ d ∈ c :: t := by
      intro call hcall
      obtain ⟨uid, hu⟩ := a1 call hcall
      exact ⟨uid, c, hu, List.mem_cons_self _ _⟩
    by_cases hr : (bhc.consideredByAllHandlers c).1 = true
    · obtain ⟨n2, h2, a2⟩ := ih (bhc.consideredByAllHandlers c).2
      refine ⟨n1 ++ n2, ?_, ?_⟩
      · simp only [BoundaryHandlingCollection.consideredByAllHandlersLoop, hr, Bool.not_true,
          Bool.false_eq_true, if_false, h2]
        simp only [BoundaryHandlingCollection.consideredByAllHandlers, h1, List.append_assoc]
      · intro call hcall
        rcases List.mem_append.mp hcall with hc | hc
        · exact a1c call hc
        · obtain ⟨uid, d, hd, hmem⟩ := a2 call hc
          exact ⟨uid, d, hd, List.mem_cons_of_mem _ hmem⟩
    · refine ⟨n1, ?_, a1c⟩
      have hr1 : (bhc.consideredByAllHandlers c).1 = false := by
        cases hb : (bhc.consideredByAllHandlers c).1
        · rfl
        · exact absurd hb hr
      simp only [BoundaryHandlingCollection.consideredByAllHandlersLoop, hr1, Bool.not_false,
        if_true]
      simp only [BoundaryHandlingCollection.consideredByAllHandlers, h1]

theorem Tuple.checkConsistency_calls {σ : Type} (cells : CellInterval) (f : FlagData)
    (hs : List (Handler σ)) (calls : List Call) :
    ∃ new, (Tuple.checkConsistency cells f hs calls).2 = calls ++ new ∧
      ∀ call ∈ new, ∃ uid, call = Call.checkConsistency uid cells := by
  induction hs with
  | nil => exact ⟨[], (List.append_nil _).symm, fun _ h => absurd h (List.not_mem_nil _)⟩
  | cons h t ih =>
    obtain ⟨new, hnew, hall⟩ := ih
    by_cases hr : (Tuple.checkConsistency cells f t calls).1 = true
    · refine ⟨new ++ [Call.checkConsistency h.uid cells], ?_, ?_⟩
      · simp only [Tuple.checkConsistency, hr, if_true, hnew, List.append_assoc]
      · intro call hcall
        rcases List.mem_append.mp hcall with hc | hc
        · exact hall call hc
        · exact ⟨h.uid, List.mem_singleton.mp hc⟩
    · refine ⟨new, ?_, hall⟩
      simp only [Tuple.checkConsistency, hr, if_false, Bool.false_eq_true, hnew]

theorem Tuple.refresh_calls {σ : Type} (cells : CellInterval) (hs : List (Handler σ))
    (m : Mem) :
    (Tuple.refresh cells hs m).2.calls =
      m.calls ++ hs.map (fun h => Call.refresh h.uid cells) := by
  induction hs generalizing m with
  | nil => simp [Tuple.refresh]
  | cons h t ih =>
    simp only [Tuple.refresh, ih, Handler.invoke, List.map_cons, List.append_assoc,
      List.singleton_append]

theorem Tuple.execute_calls {σ : Type} (cells : CellInterval) (hs : List (Handler σ))
    (m : Mem) :
    (Tuple.execute cells hs m).2.calls =
      m.calls ++ hs.map (fun h => Call.execute h.uid cells) := by
  induction hs generalizing m with
  | nil => simp [Tuple.execute]
  | cons h t ih =>
    simp only [Tuple.execute, ih, Handler.invoke, List.map_cons, List.append_assoc,
      List.singleton_append]

theorem Tuple.visitsEach_of_equations {σ : Type}
    (visit : List (Handler σ) → Mem → List (Handler σ) × Mem)
    (op : Handler σ → FlagData → σ → FlagData × σ) (call : Handler σ → Call)
    (hnil : ∀ m, visit [] m = ([], m))
    (hcons : ∀ h t m, visit (h :: t) m =
      ({ h with st := (op h m.flags h.st).2 } ::
          (visit t { flags := (op h m.flags h.st).1, calls := m.calls ++ [call h] }).1,
       (visit t { flags := (op h m.flags h.st).1, calls := m.calls ++ [call h] }).2)) :
    Tuple.VisitsEach visit op call := by
  refine ⟨hnil, ?_⟩
  intro pre
  induction pre with
  | nil =>
    intro h post m
    rw [List.nil_append, hcons, hnil]
    rfl
  | cons a t ih =>
    intro h post m
    rw [List.cons_append, hcons, ih, hcons]
    rfl

theorem Tuple.refresh_visitsEach {σ : Type} (cells : CellInterval) :
    Tuple.VisitsEach (Tuple.refresh cells) (fun (h : Handler σ) => h.refresh cells)
      (fun h => Call.refresh h.uid cells) :=
  Tuple.visitsEach_of_equations _ _ _ (fun _ => rfl) (fun _ _ _ => rfl)

theorem Tuple.execute_visitsEach {σ : Type} (cells : CellInterval) :
    Tuple.VisitsEach (Tuple.execute cells) (fun (h : Handler σ) => h.execute cells)
      (fun h => Call.execute h.uid cells) :=
  Tuple.visitsEach_of_equations _ _ _ (fun _ => rfl) (fun _ _ _ => rfl)

/-! ### Construction -/

theorem Tuple.checkForIdenticalFlagFields_iff {σ : Type} (id : Nat) (bb : CellInterval)
    (hs : List (Handler σ)) :
    Tuple.checkForIdenticalFlagFields id bb hs = true ↔
      ∀ h ∈ hs, h.flagFieldId = id ∧ h.outerBB = bb := by
  induction hs with
  | nil => simp [Tuple.checkForIdenticalFlagFields]
  | cons h t ih =>
    simp only [Tuple.checkForIdenticalFlagFields, Bool.and_eq_true, decide_eq_true_eq, ih,
      List.mem_cons, forall_eq_or_imp]
    tauto

theorem Tuple.numberOfMatchingBoundaryHandlers_eq_count {σ : Type} (uid : Nat)
    (hs : List (Handler σ)) :
    Tuple.numberOfMatchingBoundaryHandlers uid hs = (hs.map Handler.uid).count uid := by
  induction hs with
  | nil => rfl
  | cons h t ih =>
    simp only [Tuple.numberOfMatchingBoundaryHandlers, ih, List.map_cons, List.count_cons,
      beq_iff_eq]
    omega

theorem Tuple.getBoundaryUIDs_append {σ : Type} (hs : List (Handler σ)) (uids : List Nat) :
    Tuple.getBoundaryUIDs hs uids = uids ++ hs.flatMap Handler.boundaryUIDs := by
  induction hs generalizing uids with
  | nil => simp [Tuple.getBoundaryUIDs]
  | cons h t ih =>
    simp only [Tuple.getBoundaryUIDs, ih, List.flatMap_cons, List.append_assoc]

namespace BoundaryHandlingCollection

theorem getBoundaryUIDs_eq {σ : Type} (hs : List (Handler σ)) :
    getBoundaryUIDs hs = hs.flatMap Handler.boundaryUIDs := by
  simp only [getBoundaryUIDs, Tuple.getBoundaryUIDs_append, List.nil_append]

theorem checkForUniqueBoundaryHandlingUIDs_ok_iff {σ : Type} (all l : List (Handler σ)) :
    checkForUniqueBoundaryHandlingUIDs all l = Except.ok () ↔
      ∀ h ∈ l, (all.map Handler.uid).count h.uid = 1 := by
  induction l with
  | nil => simp [checkForUniqueBoundaryHandlingUIDs]
  | cons h t ih =>
    by_cases hc : (all.map Handler.uid).count h.uid = 1
    · simp only [checkForUniqueBoundaryHandlingUIDs,
        Tuple.numberOfMatchingBoundaryHandlers_eq_count, hc, ne_eq, not_true_eq_false,
        if_false, ih, List.mem_cons, forall_eq_or_imp, true_and]
    · simp only [checkForUniqueBoundaryHandlingUIDs,
        Tuple.numberOfMatchingBoundaryHandlers_eq_count, hc, ne_eq, not_false_eq_true,
        if_true, List.mem_cons, forall_eq_or_imp, false_and, reduceCtorEq]

theorem checkForUniqueBoundaryUIDs_ok_iff (uids l : List Nat) :
    checkForUniqueBoundaryUIDs uids l = Except.ok () ↔ ∀ u ∈ l, uids.count u = 1 := by
  induction l with
  | nil => simp [checkForUniqueBoundaryUIDs]
  | cons u t ih =>
    by_cases hc : uids.count u = 1
    · simp only [checkForUniqueBoundaryUIDs, hc, ne_eq, not_true_eq_false, if_false, ih,
        List.mem_cons, forall_eq_or_imp, true_and]
    · simp only [checkForUniqueBoundaryUIDs, hc, ne_eq, not_false_eq_true, if_true,
        List.mem_cons, forall_eq_or_imp, false_and, reduceCtorEq]

theorem handlingUIDs_ok_iff_nodup {σ : Type} (hs : List (Handler σ)) :
    checkForUniqueBoundaryHandlingUIDs hs hs = Except.ok () ↔ (hs.map Handler.uid).Nodup := by
  rw [checkForUniqueBoundaryHandlingUIDs_ok_iff, List.nodup_iff_count_eq_one]
  constructor
  · intro h a ha
    obtain ⟨x, hx, rfl⟩ := List.mem_map.mp ha
    exact h x hx
  · intro h x hx
    exact h x.uid (List.mem_map_of_mem _ hx)

theorem boundaryUIDs_ok_iff_nodup (uids : List Nat) :
    checkForUniqueBoundaryUIDs uids uids = Except.ok () ↔ uids.Nodup := by
  rw [checkForUniqueBoundaryUIDs_ok_iff, List.nodup_iff_count_eq_one]

theorem except_unit_cases (r : Except Abort Unit) :
    r = Except.ok () ∨ ∃ e, r = Except.error e := by
  cases r with
  | error e => exact Or.inr ⟨e, rfl⟩
  | ok u => exact Or.inl rfl

end BoundaryHandlingCollection

/-- C10: the constructor aborts if and only if the flag field has fewer than one ghost
layer, or some handler references another flag field or another outer bounding box than
the collection, or two handlers of the list share a Boundary-Handling UID, or some
Boundary UID occurs more than once in what the handlers report; otherwise it succeeds and
yields the collection over the given flag field and handlers with the bounding box of the
field. -/
theorem construct_aborts_iff {σ : Type} (flagField : FlagField) (hs : List (Handler σ)) :
    ((∃ e, BoundaryHandlingCollection.construct flagField hs = Except.error e) ↔
      (flagField.nrOfGhostLayers < 1 ∨
       (∃ h ∈ hs, h.flagFieldId ≠ flagField.id ∨
          h.outerBB ≠ BoundaryHandlingCollection.initOuterBB flagField) ∨
       ¬ (hs.map Handler.uid).Nodup ∨
       ¬ (hs.flatMap Handler.boundaryUIDs).Nodup)) ∧
    (¬ (flagField.nrOfGhostLayers < 1 ∨
       (∃ h ∈ hs, h.flagFieldId ≠ flagField.id ∨
          h.outerBB ≠ BoundaryHandlingCollection.initOuterBB flagField) ∨
       ¬ (hs.map Handler.uid).Nodup ∨
       ¬ (hs.flatMap Handler.boundaryUIDs).Nodup) →
      BoundaryHandlingCollection.construct flagField hs =
        Except.ok { flagField := flagField,
                    outerBB := BoundaryHandlingCollection.initOuterBB flagField,
                    boundaryHandlers := hs, calls := [] }) := by
  have hff := Tuple.checkForIdenticalFlagFields_iff flagField.id
    (BoundaryHandlingCollection.initOuterBB flagField) hs
  have hu := BoundaryHandlingCollection.handlingUIDs_ok_iff_nodup hs
  have hb := BoundaryHandlingCollection.boundaryUIDs_ok_iff_nodup
    (BoundaryHandlingCollection.getBoundaryUIDs hs)
  rw [BoundaryHandlingCollection.getBoundaryUIDs_eq] at hb
  by_cases h1 : flagField.nrOfGhostLayers < 1
  · refine ⟨⟨fun _ => Or.inl h1, fun _ => ⟨Abort.noGhostLayer, ?_⟩⟩, fun hn => absurd (Or.inl h1) hn⟩
    simp only [BoundaryHandlingCollection.construct, h1, if_true]
  · by_cases h2 : Tuple.checkForIdenticalFlagFields flagField.id
        (BoundaryHandlingCollection.initOuterBB flagField) hs = true
    · have h2a : ¬ ∃ h ∈ hs, h.flagFieldId ≠ flagField.id ∨
          h.outerBB ≠ BoundaryHandlingCollection.initOuterBB flagField := by
        rintro ⟨h, hh, hne⟩
        have := hff.mp h2 h hh
        tauto
      rcases BoundaryHandlingCollection.except_unit_cases
        (BoundaryHandlingCollection.checkForUniqueBoundaryHandlingUIDs hs hs) with h3 | ⟨e3, h3⟩
      · have h3a := hu.mp h3
        rcases BoundaryHandlingCollection.except_unit_cases
          (BoundaryHandlingCollection.checkForUniqueBoundaryUIDs
            (BoundaryHandlingCollection.getBoundaryUIDs hs)
            (BoundaryHandlingCollection.getBoundaryUIDs hs)) with h4 | ⟨e4, h4⟩
        · have h4a : (hs.flatMap Handler.boundaryUIDs).Nodup := by
            have h4c := h4
            rw [BoundaryHandlingCollection.getBoundaryUIDs_eq] at h4c
            exact hb.mp h4c
          have hok : BoundaryHandlingCollection.construct flagField hs =
              Except.ok { flagField := flagField,
                          outerBB := BoundaryHandlingCollection.initOuterBB flagField,
                          boundaryHandlers := hs, calls := [] } := by
            simp only [BoundaryHandlingCollection.construct, h1, if_false, h2, Bool.not_true,
              Bool.false_eq_true, h3, h4]
          refine ⟨⟨?_, ?_⟩, fun _ => hok⟩
          · rintro ⟨e, he⟩
            rw [hok] at he
            cases he
          · intro hor
            rcases hor with h | h | h | h
            · exact absurd h h1
            · exact absurd h h2a
            · exact absurd h3a h
            · exact absurd h4a h
        · have h4a : ¬ (hs.flatMap Handler.boundaryUIDs).Nodup := by
            intro hn
            have := hb.mpr hn
            rw [← BoundaryHandlingCollection.getBoundaryUIDs_eq, h4] at this
            cases this
          refine ⟨⟨fun _ => Or.inr (Or.inr (Or.inr h4a)), fun _ => ⟨e4, ?_⟩⟩,
            fun hn => absurd (Or.inr (Or.inr (Or.inr h4a))) hn⟩
          simp only [BoundaryHandlingCollection.construct, h1, if_false, h2, Bool.not_true,
            Bool.false_eq_true, h3, h4]
      · have h3a : ¬ (hs.map Handler.uid).Nodup := by
          intro hn
          have := hu.mpr hn
          rw [h3] at this
          cases this
        refine ⟨⟨fun _ => Or.inr (Or.inr (Or.inl h3a)), fun _ => ⟨e3, ?_⟩⟩,
          fun hn => absurd (Or.inr (Or.inr (Or.inl h3a))) hn⟩
        simp only [BoundaryHandlingCollection.construct, h1, if_false, h2, Bool.not_true,
          Bool.false_eq_true, h3]
    · have h2a : ∃ h ∈ hs, h.flagFieldId ≠ flagField.id ∨
          h.outerBB ≠ BoundaryHandlingCollection.initOuterBB flagField := by
        by_contra hcon
        apply h2
        rw [hff]
        intro h hh
        by_contra hne
        refine hcon ⟨h, hh, ?_⟩
        by_cases hid : h.flagFieldId = flagField.id
        · exact Or.inr (fun hbb => hne ⟨hid, hbb⟩)
        · exact Or.inl hid
      refine ⟨⟨fun _ => Or.inr (Or.inl h2a), fun _ => ⟨Abort.differentFlagField, ?_⟩⟩,
        fun hn => absurd (Or.inr (Or.inl h2a)) hn⟩
      simp only [BoundaryHandlingCollection.construct, h1, if_false, h2, Bool.not_false,
        if_true]

/-- C10, at examples: two handlers with distinct UIDs over the example field are accepted;
the same handler twice (a shared Boundary-Handling UID) makes the constructor abort. -/
theorem construct_aborts_iff_witness :
    BoundaryHandlingCollection.construct exampleField [handlerA, handlerB] =
      Except.ok (exampleCollectionWith [handlerA, handlerB] exampleField.data) ∧
    ∃ e, BoundaryHandlingCollection.construct exampleField [handlerA, handlerA] =
      Except.error e :=
  ⟨(construct_aborts_iff exampleField [handlerA, handlerB]).2 (by decide),
   (construct_aborts_iff exampleField [handlerA, handlerA]).1.mpr
     (Or.inr (Or.inr (Or.inl (by decide))))⟩

/-! ### The Boundary-UID check of the constructor -/

theorem not_nodup_of_two_le_count (l : List Nat) (u : Nat) (h : 2 ≤ l.count u) :
    ¬ l.Nodup := by
  intro hn
  have := List.nodup_iff_count_le_one.mp hn u
  omega

/-- C11: the Boundary-UID check of the constructor runs on the concatenation, in list
order, of the Boundary-UID lists the handlers report, and accepts exactly when that
concatenation has no repeated element; a UID reported by two different handlers of the
list is rejected, and so is a UID that one handler reports twice. -/
theorem boundaryUID_check_accepts_iff_no_repetition {σ : Type} (hs : List (Handler σ)) :
    BoundaryHandlingCollection.getBoundaryUIDs hs = hs.flatMap Handler.boundaryUIDs ∧
    (BoundaryHandlingCollection.checkForUniqueBoundaryUIDs
        (BoundaryHandlingCollection.getBoundaryUIDs hs)
        (BoundaryHandlingCollection.getBoundaryUIDs hs) = Except.ok () ↔
      (hs.flatMap Handler.boundaryUIDs).Nodup) ∧
    (∀ (pre mid post : List (Handler σ)) (h1 h2 : Handler σ) (u : Nat),
      hs = pre ++ h1 :: (mid ++ h2 :: post) → u ∈ h1.boundaryUIDs → u ∈ h2.boundaryUIDs →
      ∃ e, BoundaryHandlingCollection.checkForUniqueBoundaryUIDs
        (BoundaryHandlingCollection.getBoundaryUIDs hs)
        (BoundaryHandlingCollection.getBoundaryUIDs hs) = Except.error e) ∧
    (∀ h ∈ hs, ¬ h.boundaryUIDs.Nodup →
      ∃ e, BoundaryHandlingCollection.checkForUniqueBoundaryUIDs
        (BoundaryHandlingCollection.getBoundaryUIDs hs)
        (BoundaryHandlingCollection.getBoundaryUIDs hs) = Except.error e) := by
  have heq := BoundaryHandlingCollection.getBoundaryUIDs_eq hs
  have hiff := BoundaryHandlingCollection.boundaryUIDs_ok_iff_nodup
    (BoundaryHandlingCollection.getBoundaryUIDs hs)
  have hrej : ¬ (hs.flatMap Handler.boundaryUIDs).Nodup →
      ∃ e, BoundaryHandlingCollection.checkForUniqueBoundaryUIDs
        (BoundaryHandlingCollection.getBoundaryUIDs hs)
        (BoundaryHandlingCollection.getBoundaryUIDs hs) = Except.error e := by
    intro hn
    rcases BoundaryHandlingCollection.except_unit_cases
      (BoundaryHandlingCollection.checkForUniqueBoundaryUIDs
        (BoundaryHandlingCollection.getBoundaryUIDs hs)
        (BoundaryHandlingCollection.getBoundaryUIDs hs)) with hok | herr
    · have := hiff.mp hok
      rw [heq] at this
      exact absurd this hn
    · exact herr
  refine ⟨heq, ?_, ?_, ?_⟩
  · rw [hiff, heq]
  · intro pre mid post h1 h2 u hhs hu1 hu2
    apply hrej
    apply not_nodup_of_two_le_count _ u
    have c1 := List.one_le_count_iff.mpr hu1
    have c2 := List.one_le_count_iff.mpr hu2
    rw [hhs]
    simp only [List.flatMap_append, List.flatMap_cons, List.count_append]
    omega
  · intro h hh hnd
    apply hrej
    obtain ⟨pre, post, hhs⟩ := List.append_of_mem hh
    have hc : ∃ u, 2 ≤ h.boundaryUIDs.count u := by
      by_contra hcon
      apply hnd
      rw [List.nodup_iff_count_le_one]
      intro a
      by_contra ha
      exact hcon ⟨a, by omega⟩
    obtain ⟨u, hu⟩ := hc
    apply not_nodup_of_two_le_count _ u
    rw [hhs]
    simp only [List.flatMap_append, List.flatMap_cons, List.count_append]
    omega

/-- C11, at examples: the UID 10 of `handlerA` reported again by a second handler is
rejected, and so is a handler that reports the UID 5 twice. -/
theorem boundaryUID_check_accepts_iff_no_repetition_witness :
    (∃ e, BoundaryHandlingCollection.checkForUniqueBoundaryUIDs
      (BoundaryHandlingCollection.getBoundaryUIDs
        [handlerA, plainHandler 4 [10] 7 exampleBB 16 0])
      (BoundaryHandlingCollection.getBoundaryUIDs
        [handlerA, plainHandler 4 [10] 7 exampleBB 16 0]) = Except.error e) ∧
    (∃ e, BoundaryHandlingCollection.checkForUniqueBoundaryUIDs
      (BoundaryHandlingCollection.getBoundaryUIDs [plainHandler 4 [5, 5] 7 exampleBB 16 0])
      (BoundaryHandlingCollection.getBoundaryUIDs [plainHandler 4 [5, 5] 7 exampleBB 16 0])
        = Except.error e) :=
  ⟨(boundaryUID_check_accepts_iff_no_repetition
      [handlerA, plainHandler 4 [10] 7 exampleBB 16 0]).2.2.1 [] [] []
      handlerA (plainHandler 4 [10] 7 exampleBB 16 0) 10 rfl (by decide) (by decide),
   (boundaryUID_check_accepts_iff_no_repetition
      [plainHandler 4 [5, 5] 7 exampleBB 16 0]).2.2.2 _ (List.mem_singleton.mpr rfl)
      (by decide)⟩

/-! ### isEmpty and consideredByAllHandlers -/

theorem Tuple.isEmpty_eq_all {σ : Type} (c : Cell) (f : FlagData) (hs : List (Handler σ))
    (calls : List Call) :
    (Tuple.isEmpty c f hs calls).1 = hs.all (fun h => h.isEmpty c f h.st) := by
  induction hs generalizing calls with
  | nil => rfl
  | cons h t ih =>
    cases he : h.isEmpty c f h.st
    · simp [Tuple.isEmpty, he]
    · simp [Tuple.isEmpty, he, ih]

theorem Tuple.consideredByAllHandlers_eq_all {σ : Type} (c : Cell) (f : FlagData)
    (hs : List (Handler σ)) (calls : List Call) :
    (Tuple.consideredByAllHandlers c f hs calls).1 = hs.all (fun h => !h.isEmpty c f h.st) := by
  induction hs generalizing calls with
  | nil => rfl
  | cons h t ih =>
    cases he : h.isEmpty c f h.st
    · simp [Tuple.consideredByAllHandlers, he, ih]
    · simp [Tuple.consideredByAllHandlers, he]

/-- C12: for every handler list and every cell (in particular every cell inside the outer
bounding box), `isEmpty(cell)` returns true if and only if the `isEmpty` of every handler
is true for that cell; it returns false if and only if some handler reports the cell as
occupied. -/
theorem isEmpty_iff_every_handler_isEmpty {σ : Type} (bhc : BoundaryHandlingCollection σ)
    (c : Cell) :
    ((bhc.isEmpty c).1 = true ↔
      ∀ h ∈ bhc.boundaryHandlers, h.isEmpty c bhc.flagField.data h.st = true) ∧
    ((bhc.isEmpty c).1 = false ↔
      ∃ h ∈ bhc.boundaryHandlers, h.isEmpty c bhc.flagField.data h.st = false) := by
  have hall := Tuple.isEmpty_eq_all c bhc.flagField.data bhc.boundaryHandlers bhc.calls
  have hpub : (bhc.isEmpty c).1 =
      (Tuple.isEmpty c bhc.flagField.data bhc.boundaryHandlers bhc.calls).1 := rfl
  have htrue : (bhc.isEmpty c).1 = true ↔
      ∀ h ∈ bhc.boundaryHandlers, h.isEmpty c bhc.flagField.data h.st = true := by
    rw [hpub, hall]
    exact List.all_eq_true
  refine ⟨htrue, ?_⟩
  constructor
  · intro hf
    by_contra hcon
    have : (bhc.isEmpty c).1 = true := by
      rw [htrue]
      intro h hh
      cases hb : h.isEmpty c bhc.flagField.data h.st
      · exact absurd ⟨h, hh, hb⟩ hcon
      · rfl
    rw [hf] at this
    exact absurd this (by decide)
  · rintro ⟨h, hh, hb⟩
    cases hr : (bhc.isEmpty c).1
    · rfl
    · have := htrue.mp hr h hh
      rw [hb] at this
      exact absurd this (by decide)

theorem BoundaryHandlingCollection.considered_eq_all {σ : Type}
    (bhc : BoundaryHandlingCollection σ) (c : Cell) :
    (bhc.consideredByAllHandlers c).1 =
      bhc.boundaryHandlers.all (fun h => !h.isEmpty c bhc.flagField.data h.st) :=
  Tuple.consideredByAllHandlers_eq_all c _ _ _

theorem BoundaryHandlingCollection.consideredByAllHandlersLoop_eq_all {σ : Type}
    (cs : List Cell) (bhc : BoundaryHandlingCollection σ) :
    (BoundaryHandlingCollection.consideredByAllHandlersLoop cs bhc).1 =
      cs.all (fun c => (bhc.consideredByAllHandlers c).1) := by
  induction cs generalizing bhc with
  | nil => rfl
  | cons c t ih =>
    rw [List.all_cons]
    cases hr : (bhc.consideredByAllHandlers c).1
    · simp [BoundaryHandlingCollection.consideredByAllHandlersLoop, hr]
    · have e : BoundaryHandlingCollection.consideredByAllHandlersLoop (c :: t) bhc =
          BoundaryHandlingCollection.consideredByAllHandlersLoop t
            (bhc.consideredByAllHandlers c).2 := by
        simp [BoundaryHandlingCollection.consideredByAllHandlersLoop, hr]
      rw [e, ih, Bool.true_and]
      simp only [BoundaryHandlingCollection.considered_eq_all]
      rfl

/-- C13: `consideredByAllHandlers(cell)` returns true if and only if the `isEmpty` of
every handler of the list is false for the cell; on a cell interval it returns true if
and only if `consideredByAllHandlers(cell)` is true for every cell of the interval, and
on an iterator range if and only if it is true for every cell of the range; it is true
for an empty interval and an empty range. -/
theorem consideredByAllHandlers_is_universal {σ : Type} (bhc : BoundaryHandlingCollection σ) :
    (∀ c, (bhc.consideredByAllHandlers c).1 = true ↔
      ∀ h ∈ bhc.boundaryHandlers, h.isEmpty c bhc.flagField.data h.st = false) ∧
    (∀ cells : CellInterval, (bhc.consideredByAllHandlersCells cells).1 = true ↔
      ∀ c, cells.contains c = true → (bhc.consideredByAllHandlers c).1 = true) ∧
    (∀ range : List Cell, (bhc.consideredByAllHandlersRange range).1 = true ↔
      ∀ c ∈ range, (bhc.consideredByAllHandlers c).1 = true) ∧
    (∀ cells : CellInterval, cells.empty = true →
      (bhc.consideredByAllHandlersCells cells).1 = true) ∧
    (bhc.consideredByAllHandlersRange []).1 = true := by
  have hrange : ∀ range : List Cell, (bhc.consideredByAllHandlersRange range).1 = true ↔
      ∀ c ∈ range, (bhc.consideredByAllHandlers c).1 = true := by
    intro range
    simp only [BoundaryHandlingCollection.consideredByAllHandlersRange,
      BoundaryHandlingCollection.consideredByAllHandlersLoop_eq_all, List.all_eq_true]
  have hcells : ∀ cells : CellInterval, (bhc.consideredByAllHandlersCells cells).1 = true ↔
      ∀ c, cells.contains c = true → (bhc.consideredByAllHandlers c).1 = true := by
    intro cells
    simp only [BoundaryHandlingCollection.consideredByAllHandlersCells,
      BoundaryHandlingCollection.consideredByAllHandlersLoop_eq_all, List.all_eq_true,
      CellInterval.mem_cells]
  refine ⟨?_, hcells, hrange, ?_, ?_⟩
  · intro c
    simp only [BoundaryHandlingCollection.considered_eq_all, List.all_eq_true,
      Bool.not_eq_true']
  · intro cells he
    rw [hcells]
    intro c hc
    have hmem := (cells.mem_cells c).mpr hc
    rw [CellInterval.cells_of_empty cells he] at hmem
    exact absurd hmem (List.not_mem_nil _)
  · rfl

/-- C13, at an example: both handlers consider the cell `x = 0` (mask 13) and none the
cell `x = 1` (mask 0), so the interval `x = 0..1` is not considered by all handlers, the
interval of the single cell `x = 0` is. -/
theorem consideredByAllHandlers_is_universal_witness :
    ((exampleCollectionWith [handlerA, handlerB] exampleData).consideredByAllHandlersCells
      (CellInterval.mk 0 0 0 0 0 0)).1 = true ∧
    ((exampleCollectionWith [handlerA, handlerB] exampleData).consideredByAllHandlersCells
      (CellInterval.mk 0 0 0 1 0 0)).1 = false ∧
    ((exampleCollectionWith [handlerA, handlerB] exampleData).consideredByAllHandlersCells
      (CellInterval.mk 0 0 0 (-1) 0 0)).1 = true :=
  ⟨by decide, by decide,
   (consideredByAllHandlers_is_universal
      (exampleCollectionWith [handlerA, handlerB] exampleData)).2.2.2.1
      (CellInterval.mk 0 0 0 (-1) 0 0) (by decide)⟩

theorem isEmpty_true_iff_all {σ : Type} (bhc : BoundaryHandlingCollection σ) (c : Cell) :
    (bhc.isEmpty c).1 = true ↔
      ∀ h ∈ bhc.boundaryHandlers, h.isEmpty c bhc.flagField.data h.st = true := by
  simp only [BoundaryHandlingCollection.isEmpty, Tuple.isEmpty_eq_all, List.all_eq_true]

/-- C14, refuted as stated: for the empty handler list `consideredByAllHandlers(cell)` is
true although `isEmpty(cell)` is true as well, not false. -/
theorem considered_and_empty_without_handlers :
    exampleBB.contains originCell = true ∧
    ((exampleCollectionWith [] exampleData).consideredByAllHandlers originCell).1 = true ∧
    ((exampleCollectionWith [] exampleData).isEmpty originCell).1 = true := by
  decide

/-- C14, amended: for every non-empty handler list and every cell,
`consideredByAllHandlers(cell)` is true if and only if `isEmpty(cell)` is false and every
handler reports the cell occupied; for the empty handler list both
`consideredByAllHandlers(cell)` and `isEmpty(cell)` are true. -/
theorem considered_iff_not_empty_and_all_occupied {σ : Type}
    (bhc : BoundaryHandlingCollection σ) (c : Cell) :
    (bhc.boundaryHandlers ≠ [] →
      ((bhc.consideredByAllHandlers c).1 = true ↔
        ((bhc.isEmpty c).1 = false ∧
          ∀ h ∈ bhc.boundaryHandlers, h.isEmpty c bhc.flagField.data h.st = false))) ∧
    (bhc.boundaryHandlers = [] →
      (bhc.consideredByAllHandlers c).1 = true ∧ (bhc.isEmpty c).1 = true) := by
  refine ⟨?_, ?_⟩
  · intro hne
    have hcons : (bhc.consideredByAllHandlers c).1 = true ↔
        ∀ h ∈ bhc.boundaryHandlers, h.isEmpty c bhc.flagField.data h.st = false := by
      simp only [BoundaryHandlingCollection.considered_eq_all, List.all_eq_true,
        Bool.not_eq_true']
    rw [hcons]
    constructor
    · intro hall
      refine ⟨?_, hall⟩
      cases hemp : (bhc.isEmpty c).1
      · rfl
      · have hall2 := (isEmpty_true_iff_all bhc c).mp hemp
        obtain ⟨h, t, hht⟩ := List.exists_cons_of_ne_nil hne
        have hm : h ∈ bhc.boundaryHandlers := by rw [hht]; exact List.mem_cons_self _ _
        have h1 := hall h hm
        have h2 := hall2 h hm
        rw [h1] at h2
        exact absurd h2 (by decide)
    · intro h
      exact h.2
  · intro hnil
    simp only [BoundaryHandlingCollection.consideredByAllHandlers,
      BoundaryHandlingCollection.isEmpty, hnil, Tuple.consideredByAllHandlers, Tuple.isEmpty,
      and_self]

/-- C14 amended, at an example: at the cell `x = 0` both handlers are occupied, the cell
is considered by all handlers and is not empty. -/
theorem considered_iff_not_empty_and_all_occupied_witness :
    ((exampleCollectionWith [handlerA, handlerB] exampleData).consideredByAllHandlers
      originCell).1 = true ∧
    ((exampleCollectionWith [handlerA, handlerB] exampleData).isEmpty originCell).1 = false :=
  ⟨by decide,
   (((considered_iff_not_empty_and_all_occupied
      (exampleCollectionWith [handlerA, handlerB] exampleData) originCell).1
      (List.cons_ne_nil _ _)).mp (by decide)).1⟩

/-! ### getBoundaryUID -/

theorem Tuple.getBoundaryUID_eq_find {σ : Type} (flagField : FlagField) (flag : flag_t)
    (hs : List (Handler σ)) :
    Tuple.getBoundaryUID flagField flag hs =
      match hs.find? (fun h => h.containsBoundaryCondition flag) with
      | some H => Except.ok (H.getBoundaryUID flag)
      | none =>
        if !flagField.isRegistered flag then Except.error (Abort.flagNotRegistered flag)
        else Except.error (Abort.flagNotHandled flag) := by
  induction hs with
  | nil => rfl
  | cons h t ih =>
    by_cases hc : h.containsBoundaryCondition flag = true
    · simp only [Tuple.getBoundaryUID, hc, if_true, List.find?_cons_of_pos]
    · simp only [Tuple.getBoundaryUID, hc, if_false, Bool.false_eq_true, ih,
        List.find?_cons_of_neg, not_false_eq_true]

theorem Tuple.getBoundaryUID_first {σ : Type} (flagField : FlagField) (flag : flag_t)
    (pre post : List (Handler σ)) (H : Handler σ)
    (hpre : ∀ h ∈ pre, h.containsBoundaryCondition flag = false)
    (hH : H.containsBoundaryCondition flag = true) :
    Tuple.getBoundaryUID flagField flag (pre ++ H :: post) = Except.ok (H.getBoundaryUID flag) := by
  induction pre with
  | nil => simp only [List.nil_append, Tuple.getBoundaryUID, hH, if_true]
  | cons h t ih =>
    have hh := hpre h (List.mem_cons_self _ _)
    simp only [List.cons_append, Tuple.getBoundaryUID, hh, Bool.false_eq_true, if_false]
    exact ih (fun k hk => hpre k (List.mem_cons_of_mem _ hk))

theorem Tuple.getBoundaryUID_error_iff {σ : Type} (flagField : FlagField) (flag : flag_t)
    (hs : List (Handler σ)) :
    (∃ e, Tuple.getBoundaryUID flagField flag hs = Except.error e) ↔
      ∀ h ∈ hs, h.containsBoundaryCondition flag = false := by
  induction hs with
  | nil =>
    simp only [Tuple.getBoundaryUID, List.not_mem_nil, false_implies, implies_true, iff_true]
    cases flagField.isRegistered flag
    · exact ⟨_, rfl⟩
    · exact ⟨_, rfl⟩
  | cons h t ih =>
    by_cases hc : h.containsBoundaryCondition flag = true
    · simp only [Tuple.getBoundaryUID, hc, if_true, List.mem_cons, forall_eq_or_imp,
        Bool.true_eq_false, false_and, iff_false, not_exists]
      intro e he
      cases he
    · have hc1 : h.containsBoundaryCondition flag = false := by
        cases hb : h.containsBoundaryCondition flag
        · rfl
        · exact absurd hb hc
      simp only [Tuple.getBoundaryUID, hc1, Bool.false_eq_true, if_false, ih, List.mem_cons,
        forall_eq_or_imp, true_and]

/-- C19: `getBoundaryUID(flag)` returns the Boundary UID that the first handler in list
order containing a boundary condition for the flag reports for it, and it aborts if and
only if no handler of the list contains a boundary condition for the flag; it then
aborts whether the flag is registered at the flag field (second message) or not (first
message). -/
theorem getBoundaryUID_first_match_or_abort {σ : Type} (bhc : BoundaryHandlingCollection σ)
    (flag : flag_t) :
    (∀ (pre post : List (Handler σ)) (H : Handler σ),
      bhc.boundaryHandlers = pre ++ H :: post →
      (∀ h ∈ pre, h.containsBoundaryCondition flag = false) →
      H.containsBoundaryCondition flag = true →
      bhc.getBoundaryUID flag = Except.ok (H.getBoundaryUID flag)) ∧
    ((∃ e, bhc.getBoundaryUID flag = Except.error e) ↔
      ∀ h ∈ bhc.boundaryHandlers, h.containsBoundaryCondition flag = false) ∧
    ((∀ h ∈ bhc.boundaryHandlers, h.containsBoundaryCondition flag = false) →
      bhc.getBoundaryUID flag =
        if bhc.flagField.isRegistered flag then Except.error (Abort.flagNotHandled flag)
        else Except.error (Abort.flagNotRegistered flag)) ∧
    bhc.getBoundaryUID flag =
      match bhc.boundaryHandlers.find? (fun h => h.containsBoundaryCondition flag) with
      | some H => Except.ok (H.getBoundaryUID flag)
      | none =>
        if !bhc.flagField.isRegistered flag then Except.error (Abort.flagNotRegistered flag)
        else Except.error (Abort.flagNotHandled flag) := by
  refine ⟨?_, Tuple.getBoundaryUID_error_iff _ _ _, ?_, Tuple.getBoundaryUID_eq_find _ _ _⟩
  · intro pre post H hhs hpre hH
    simp only [BoundaryHandlingCollection.getBoundaryUID, hhs]
    exact Tuple.getBoundaryUID_first _ _ _ _ _ hpre hH
  · intro hall
    have hnone : bhc.boundaryHandlers.find? (fun h => h.containsBoundaryCondition flag) = none := by
      rw [List.find?_eq_none]
      intro x hx
      rw [hall x hx]
      decide
    simp only [BoundaryHandlingCollection.getBoundaryUID, Tuple.getBoundaryUID_eq_find, hnone]
    cases bhc.flagField.isRegistered flag <;> rfl

/-- C19, at an example: the flag 4 is a boundary flag of the second handler only, whose
first Boundary UID 20 is returned; the flag 2 is a domain flag and the flag 16 is not
registered, and both lookups abort. -/
theorem getBoundaryUID_first_match_or_abort_witness :
    (exampleCollectionWith [handlerA, handlerB] exampleData).getBoundaryUID 4 = Except.ok 20 ∧
    (exampleCollectionWith [handlerA, handlerB] exampleData).getBoundaryUID 2 =
      Except.error (Abort.flagNotHandled 2) ∧
    (exampleCollectionWith [handlerA, handlerB] exampleData).getBoundaryUID 16 =
      Except.error (Abort.flagNotRegistered 16) :=
  ⟨(getBoundaryUID_first_match_or_abort
      (exampleCollectionWith [handlerA, handlerB] exampleData) 4).1 [handlerA] [] handlerB rfl
      (by decide) (by decide),
   (getBoundaryUID_first_match_or_abort
      (exampleCollectionWith [handlerA, handlerB] exampleData) 2).2.2.1 (by decide),
   (getBoundaryUID_first_match_or_abort
      (exampleCollectionWith [handlerA, handlerB] exampleData) 16).2.2.1 (by decide)⟩

theorem Tuple.getBoundaryUID_sameClass {σ : Type} {as bs : List (Handler σ)}
    (x : List.Forall₂ Handler.SameClass as bs) (flagField other : FlagField) (flag : flag_t)
    (u : Nat) (hok : Tuple.getBoundaryUID flagField flag as = Except.ok u) :
    Tuple.getBoundaryUID other flag bs = Except.ok u := by
  induction x with
  | nil =>
    simp only [Tuple.getBoundaryUID] at hok
    cases hr : flagField.isRegistered flag <;> simp [hr] at hok
  | cons hab _ ih =>
    obtain ⟨st, rfl⟩ := hab
    rename_i a l₁ l₂ hrest
    by_cases hc : a.containsBoundaryCondition flag = true
    · simp only [Tuple.getBoundaryUID, hc, if_true] at hok ⊢
      exact hok
    · simp only [Tuple.getBoundaryUID, hc, if_false, Bool.false_eq_true] at hok ⊢
      exact ih hok

theorem owns_of_boundaryMask {σ : Type} (h : Handler σ) (flag : flag_t)
    (hb : h.boundaryMask &&& flag = flag) : h.owns flag = true := by
  simp only [Handler.owns, Handler.ownership, beq_iff_eq]
  apply Nat.eq_of_testBit_eq
  intro i
  have hi : (h.boundaryMask &&& flag).testBit i = flag.testBit i := by rw [hb]
  rw [Nat.testBit_and] at hi
  simp only [Nat.testBit_and, Nat.testBit_or]
  cases hf : flag.testBit i
  · simp
  · rw [hf] at hi
    simp only [Bool.and_true] at hi
    simp [hi]

/-- C20, refuted as stated: the flag 2 is owned by exactly one handler, `handlerA`,
through its domain mask; after `setFlag(2, cell)` on a cell inside the box the flag is
set, yet `getBoundaryUID(2)` aborts, because no handler contains a boundary condition for
a domain flag. -/
theorem getBoundaryUID_aborts_for_domain_flag :
    exampleBB.contains originCell = true ∧
    handlerA.owns 2 = true ∧ handlerB.owns 2 = false ∧
    ((exampleCollectionWith [handlerA, handlerB] exampleData).setFlag 2 originCell
      0).flagField.data originCell = 15 ∧
    ((exampleCollectionWith [handlerA, handlerB] exampleData).setFlag 2 originCell
      0).getBoundaryUID 2 = Except.error (Abort.flagNotHandled 2) :=
  ⟨by decide, by decide, by decide, by decide, rfl⟩

/-- C20, amended: let the flag `f` be owned by exactly one handler `H` of the list and
let `H` contain a boundary condition for `f` (`f` is one of its boundary flags, not a
domain flag).  Then, for every cell inside the outer bounding box, `setFlag(f, cell)`
followed by `getBoundaryUID(f)` returns the Boundary UID `H` reports for `f`, which is one
of the Boundary UIDs of `H`; the handlers are taken to be consistent in their lookups. -/
theorem setFlag_then_getBoundaryUID_of_boundary_flag {σ : Type}
    (bhc : BoundaryHandlingCollection σ) (pre post : List (Handler σ)) (H : Handler σ)
    (f : flag_t) (c : Cell) (p : BoundaryConfiguration)
    (hhs : bhc.boundaryHandlers = pre ++ H :: post)
    (hown : H.owns f = true)
    (hothers : ∀ h ∈ pre ++ post, h.owns f = false)
    (hbc : H.containsBoundaryCondition f = true)
    (hcons : ∀ h ∈ bhc.boundaryHandlers, h.BoundaryConsistent)
    (hin : bhc.outerBB.contains c = true) :
    (bhc.setFlag f c p).getBoundaryUID f = Except.ok (H.getBoundaryUID f) ∧
    H.getBoundaryUID f ∈ H.boundaryUIDs ∧
    H.owns f = true := by
  have hHmem : H ∈ bhc.boundaryHandlers := by
    rw [hhs]
    exact List.mem_append_right _ (List.mem_cons_self _ _)
  have hpre : ∀ h ∈ pre, h.containsBoundaryCondition f = false := by
    intro h hh
    cases hb : h.containsBoundaryCondition f
    · rfl
    · have hmem : h ∈ bhc.boundaryHandlers := by
        rw [hhs]
        exact List.mem_append_left _ hh
      have ho := owns_of_boundaryMask h f (hcons h hmem f hb).1
      rw [hothers h (List.mem_append_left _ hh)] at ho
      exact absurd ho (by decide)
  have hbefore := Tuple.getBoundaryUID_first bhc.flagField f pre post H hpre hbc
  rw [← hhs] at hbefore
  refine ⟨?_, (hcons H hHmem f hbc).2, hown⟩
  simp only [BoundaryHandlingCollection.setFlag, hin, Bool.not_true, Bool.false_eq_true,
    if_false, BoundaryHandlingCollection.getBoundaryUID, BoundaryHandlingCollection.store]
  exact Tuple.getBoundaryUID_sameClass
    (Tuple.setFlag_sameClass f c p bhc.boundaryHandlers bhc.mem) _ _ f _ hbefore

theorem plainHandler_boundaryConsistent (uid u : Nat) (us : List Nat) (flagFieldId : Nat)
    (outerBB : CellInterval) (boundaryMask domainMask : flag_t) :
    (plainHandler uid (u :: us) flagFieldId outerBB boundaryMask
      domainMask).BoundaryConsistent := by
  intro flag hc
  have hc1 : (decide (flag ≠ 0) && (boundaryMask &&& flag) == flag) = true := hc
  simp only [Bool.and_eq_true, decide_eq_true_eq, beq_iff_eq] at hc1
  exact ⟨hc1.2, List.mem_cons_self _ _⟩

theorem example_boundaryConsistent :
    ∀ h ∈ [handlerA, handlerB], h.BoundaryConsistent := by
  intro h hh
  simp only [List.mem_cons, List.mem_singleton, List.not_mem_nil, or_false] at hh
  rcases hh with rfl | rfl <;> exact plainHandler_boundaryConsistent _ _ _ _ _ _ _

/-- C20 amended, at an example: the flag 1 is a boundary flag of `handlerA` alone; after
`setFlag(1, cell)` the lookup returns its Boundary UID 10. -/
theorem setFlag_then_getBoundaryUID_of_boundary_flag_witness :
    ((exampleCollectionWith [handlerB, handlerA] (fun _ => 0)).setFlag 1 originCell
      0).getBoundaryUID 1 = Except.ok 10 ∧ 10 ∈ handlerA.boundaryUIDs :=
  ⟨(setFlag_then_getBoundaryUID_of_boundary_flag
      (exampleCollectionWith [handlerB, handlerA] (fun _ => 0)) [handlerB] [] handlerA 1
      originCell 0 rfl (by decide) (by decide) (by decide)
      (by
        intro h hh
        exact example_boundaryConsistent h (by
          simp only [exampleCollectionWith, List.mem_cons, List.mem_singleton,
            List.not_mem_nil, or_false] at hh
          simp only [List.mem_cons, List.mem_singleton, List.not_mem_nil, or_false]
          tauto))
      (by decide)).1,
   by decide⟩

/-! ### pack -/

theorem Tuple.pack_eq_append {σ : Type} (first : Handler σ) (members : List (Handler σ))
    (mask : flag_t) (c : Cell) (f : FlagData) (t : List (Handler σ)) (buffer : Buffer) :
    Tuple.pack (first :: members) mask c f t buffer =
      buffer ++ t.flatMap (fun _ => first.pack mask c f first.st) := by
  induction t generalizing buffer with
  | nil => simp [Tuple.pack]
  | cons h t ih => simp only [Tuple.pack, ih, List.flatMap_cons, List.append_assoc]

theorem BoundaryHandlingCollection.packCell_eq_append {σ : Type}
    (bhc : BoundaryHandlingCollection σ) (first : Handler σ) (rest : List (Handler σ))
    (hhs : bhc.boundaryHandlers = first :: rest) (buffer : Buffer) (c : Cell) :
    bhc.packCell buffer c =
      buffer ++ BufferItem.mask (bhc.flagField.data c) ::
        (first :: rest).flatMap
          (fun _ => first.pack (bhc.flagField.data c) c bhc.flagField.data first.st) := by
  simp only [BoundaryHandlingCollection.packCell, hhs, Tuple.pack_eq_append,
    List.append_assoc, List.singleton_append]

theorem BoundaryHandlingCollection.foldl_packCell {σ : Type}
    (bhc : BoundaryHandlingCollection σ) (first : Handler σ) (rest : List (Handler σ))
    (hhs : bhc.boundaryHandlers = first :: rest) (cells : List Cell) (buffer : Buffer) :
    cells.foldl bhc.packCell buffer = buffer ++ cells.flatMap (bhc.packCell []) := by
  induction cells generalizing buffer with
  | nil => simp
  | cons c t ih =>
    rw [List.foldl_cons, ih, List.flatMap_cons,
      BoundaryHandlingCollection.packCell_eq_append bhc first rest hhs buffer c,
      BoundaryHandlingCollection.packCell_eq_append bhc first rest hhs [] c]
    simp only [List.nil_append, List.append_assoc]

/-- C15, on the code: for the cell `x = 0` (mask 13), whose mask meets the ownership masks
of both handlers, `pack` writes the raw mask and then twice the payload 100 of the first
handler; the payload 200 of the second handler, which the record `packedCellSpec` of the
specification holds in third place, is never written. -/
theorem pack_repeats_the_first_handler :
    exampleSender.packCell [] originCell =
      [BufferItem.mask 13, BufferItem.payload 100, BufferItem.payload 100] ∧
    packedCellSpec exampleSender originCell =
      [BufferItem.mask 13, BufferItem.payload 100, BufferItem.payload 200] ∧
    exampleSender.pack true [] 0 1 true =
      some [BufferItem.mask 13, BufferItem.payload 100, BufferItem.payload 100] := by
  decide

/-- C16, on the code: the buffer packed by the sender for one layer is unpacked by the
identically configured receiver completely and with the raw mask 13 restored, but the
second handler of the receiver ends with the payload 100 of the first handler of the
sender, not with the payload 200 that the second handler of the sender holds for the
cell. -/
theorem pack_unpack_loses_the_second_payload :
    exampleSender.pack true [] 0 1 true =
      some [BufferItem.mask 13, BufferItem.payload 100, BufferItem.payload 100] ∧
    (exampleReceiver.unpack
        [BufferItem.mask 13, BufferItem.payload 100, BufferItem.payload 100] 0 1 true).map
      (fun r => (r.1, r.2.boundaryHandlers.map (fun h => h.st),
        r.2.flagField.data (Cell.mk (-1) 0 0))) = some ([], [100, 100], 13) ∧
    handlerB.pack 13 originCell exampleData handlerB.st = [BufferItem.payload 200] := by
  decide

/-- C17, refuted as stated: in a build without `NDEBUG` the buffer starts with the flag
mapping although `assumeIdenticalFlagMapping` is true. -/
theorem pack_writes_mapping_in_debug_build :
    exampleSender.pack false [] 0 1 true =
      some [BufferItem.flagMapping [(0, 1), (1, 2), (2, 4), (3, 8)],
            BufferItem.mask 13, BufferItem.payload 100, BufferItem.payload 100] := by
  decide

/-- C17, amended: in a build with `NDEBUG` defined, `pack` writes the flag mapping of the
first handler at the start of what it appends to the buffer if and only if
`assumeIdenticalFlagMapping` is false, and with `assumeIdenticalFlagMapping = true` its
output starts directly with the raw mask of the first cell of the packing interval; in a
build without `NDEBUG` it writes the flag mapping first in either case.  After the
mapping, if any, come the records of the cells, each starting with the raw mask. -/
theorem pack_writes_mapping_unless_assumed_in_release {σ : Type}
    (bhc : BoundaryHandlingCollection σ) (first : Handler σ) (rest : List (Handler σ))
    (hhs : bhc.boundaryHandlers = first :: rest) (buffer : Buffer) (direction : Direction)
    (numberOfLayers : Nat) :
    bhc.pack true buffer direction numberOfLayers true =
      some (buffer ++
        (first.getPackingInterval direction numberOfLayers).cells.flatMap (bhc.packCell [])) ∧
    bhc.pack true buffer direction numberOfLayers false =
      some (buffer ++ BufferItem.flagMapping first.getFlagMapping ::
        (first.getPackingInterval direction numberOfLayers).cells.flatMap (bhc.packCell [])) ∧
    (∀ assumeIdenticalFlagMapping, bhc.pack false buffer direction numberOfLayers
        assumeIdenticalFlagMapping =
      some (buffer ++ BufferItem.flagMapping first.getFlagMapping ::
        (first.getPackingInterval direction numberOfLayers).cells.flatMap (bhc.packCell []))) ∧
    (∀ c, (bhc.packCell [] c).head? = some (BufferItem.mask (bhc.flagField.data c))) ∧
    ((first.getPackingInterval direction numberOfLayers).cells.flatMap
        (bhc.packCell [])).head? =
      (first.getPackingInterval direction numberOfLayers).cells.head?.map
        (fun c => BufferItem.mask (bhc.flagField.data c)) := by
  have hcell : ∀ c, (bhc.packCell [] c).head? = some (BufferItem.mask (bhc.flagField.data c)) := by
    intro c
    rw [BoundaryHandlingCollection.packCell_eq_append bhc first rest hhs [] c]
    rfl
  refine ⟨?_, ?_, ?_, hcell, ?_⟩
  · simp only [BoundaryHandlingCollection.pack, hhs, Bool.and_self, if_true,
      BoundaryHandlingCollection.foldl_packCell bhc first rest hhs]
  · simp only [BoundaryHandlingCollection.pack, hhs, Bool.and_false, Bool.false_eq_true,
      if_false, BoundaryHandlingCollection.foldl_packCell bhc first rest hhs,
      List.append_assoc, List.singleton_append]
  · intro a
    simp only [BoundaryHandlingCollection.pack, hhs, Bool.false_and, Bool.false_eq_true,
      if_false, BoundaryHandlingCollection.foldl_packCell bhc first rest hhs,
      List.append_assoc, List.singleton_append]
  · cases hc : (first.getPackingInterval direction numberOfLayers).cells with
    | nil => rfl
    | cons c t =>
      rw [List.flatMap_cons, BoundaryHandlingCollection.packCell_eq_append bhc first rest hhs [] c]
      rfl

/-- C17 amended, at an example: in a release build the buffer of the sender starts with
the raw mask 13 when the mappings are assumed identical, and with the flag mapping when
they are not. -/
theorem pack_writes_mapping_unless_assumed_in_release_witness :
    exampleSender.pack true [] 0 1 true =
      some ([] ++ (handlerA.getPackingInterval 0 1).cells.flatMap (exampleSender.packCell [])) ∧
    (exampleSender.pack true [] 0 1 true).map List.head? = some (some (BufferItem.mask 13)) ∧
    (exampleSender.pack true [] 0 1 false).map List.head? =
      some (some (BufferItem.flagMapping [(0, 1), (1, 2), (2, 4), (3, 8)])) :=
  ⟨(pack_writes_mapping_unless_assumed_in_release exampleSender handlerA [handlerB] rfl []
      0 1).1,
   by decide, by decide⟩

/-! ### unpack -/

theorem Tuple.unpack_calls {σ : Type} (mask : flag_t) (c : Cell) (hs : List (Handler σ))
    (buffer : Buffer) (m : Mem) :
    (Tuple.unpack mask c hs buffer m).2.2.calls = m.calls ++ unpackCalls mask c hs := by
  induction hs generalizing buffer m with
  | nil => simp [Tuple.unpack, unpackCalls]
  | cons h t ih =>
    by_cases hf : h.ownership &&& mask = 0
    · simp only [Tuple.unpack, hf, ne_eq, not_true_eq_false, if_false, ih, unpackCalls,
        decide_False, List.filter_cons_of_neg, Bool.false_eq_true, not_false_eq_true]
    · simp only [Tuple.unpack, hf, ne_eq, not_false_eq_true, if_true, ih, unpackCalls,
        decide_True, List.filter_cons_of_pos, List.map_cons, List.append_assoc,
        List.singleton_append]

theorem Tuple.unpack_sameClass {σ : Type} (mask : flag_t) (c : Cell) (hs : List (Handler σ))
    (buffer : Buffer) (m : Mem) :
    List.Forall₂ Handler.SameClass hs (Tuple.unpack mask c hs buffer m).1 := by
  induction hs generalizing buffer m with
  | nil => exact List.Forall₂.nil
  | cons h t ih =>
    by_cases hf : h.ownership &&& mask = 0
    · simp only [Tuple.unpack, hf, ne_eq, not_true_eq_false, if_false]
      exact List.Forall₂.cons (Handler.SameClass.sameRefl h) (ih _ _)
    · simp only [Tuple.unpack, hf, ne_eq, not_false_eq_true, if_true]
      exact List.Forall₂.cons ⟨_, rfl⟩ (ih _ _)

theorem unpackCalls_sameClass {σ : Type} {as bs : List (Handler σ)}
    (x : List.Forall₂ Handler.SameClass as bs) (mask : flag_t) (c : Cell) :
    unpackCalls mask c bs = unpackCalls mask c as := by
  induction x with
  | nil => rfl
  | cons hab _ ih =>
    obtain ⟨st, rfl⟩ := hab
    rename_i a l₁ l₂ hrest
    have e : ({ a with st := st } : Handler σ).ownership = a.ownership := rfl
    simp only [unpackCalls] at ih ⊢
    by_cases hf : a.ownership &&& mask = 0
    · simp only [e, hf, ne_eq, not_true_eq_false, decide_False, List.filter_cons_of_neg,
        Bool.false_eq_true, not_false_eq_true, ih]
    · simp only [e, hf, ne_eq, not_false_eq_true, decide_True, List.filter_cons_of_pos,
        List.map_cons, ih]

theorem Tuple.clear_sameClass {σ : Type} (c : Cell) (hs : List (Handler σ)) (m : Mem) :
    List.Forall₂ Handler.SameClass hs (Tuple.clear c hs m).1 := by
  induction hs generalizing m with
  | nil => exact List.Forall₂.nil
  | cons h t ih =>
    simp only [Tuple.clear]
    exact List.Forall₂.cons (Handler.SameClass.invoke _ _ _ _) (ih _)

theorem BoundaryHandlingCollection.clearCells_sameClass {σ : Type}
    (bhc : BoundaryHandlingCollection σ) (cells : CellInterval) :
    List.Forall₂ Handler.SameClass bhc.boundaryHandlers
      (bhc.clearCells cells).boundaryHandlers := by
  have hfold : ∀ (cs : List Cell) (b : BoundaryHandlingCollection σ),
      List.Forall₂ Handler.SameClass b.boundaryHandlers
        (cs.foldl BoundaryHandlingCollection.clearCell b).boundaryHandlers := by
    intro cs
    induction cs with
    | nil => intro b; exact sameClass_refl_list _
    | cons c t ih =>
      intro b
      rw [List.foldl_cons]
      exact sameClass_trans_list (Tuple.clear_sameClass c b.boundaryHandlers b.mem)
        (ih (b.clearCell c))
  unfold BoundaryHandlingCollection.clearCells
  simp only
  split
  · exact sameClass_refl_list _
  · exact hfold _ _

theorem BoundaryHandlingCollection.unpackCell_none {σ : Type} (identical : Bool)
    (flagMapping : List flag_t) (cells : List Cell) :
    cells.foldl (BoundaryHandlingCollection.unpackCell identical flagMapping)
      (none : Option (Buffer × BoundaryHandlingCollection σ)) = none := by
  induction cells with
  | nil => rfl
  | cons c t ih => exact ih

theorem BoundaryHandlingCollection.unpackCell_of_mask {σ : Type} (identical : Bool)
    (flagMapping : List flag_t) (b : BoundaryHandlingCollection σ) (first : Handler σ)
    (tl : List (Handler σ)) (hhs : b.boundaryHandlers = first :: tl) (raw : flag_t)
    (rest : Buffer) (c : Cell) :
    ∃ r, BoundaryHandlingCollection.unpackCell identical flagMapping
        (some (BufferItem.mask raw :: rest, b)) c = some r ∧
      r.2.calls = b.calls ++
        unpackCalls (if !identical then first.translateMask raw flagMapping else raw) c
          b.boundaryHandlers ∧
      List.Forall₂ Handler.SameClass b.boundaryHandlers r.2.boundaryHandlers := by
  refine ⟨((Tuple.unpack (if !identical then first.translateMask raw flagMapping else raw) c
        b.boundaryHandlers rest
        { flags := b.flagField.data.set c
            (if !identical then first.translateMask raw flagMapping else raw),
          calls := b.calls }).2.1,
      b.store (Tuple.unpack (if !identical then first.translateMask raw flagMapping else raw) c
        b.boundaryHandlers rest
        { flags := b.flagField.data.set c
            (if !identical then first.translateMask raw flagMapping else raw),
          calls := b.calls }).1
        (Tuple.unpack (if !identical then first.translateMask raw flagMapping else raw) c
        b.boundaryHandlers rest
        { flags := b.flagField.data.set c
            (if !identical then first.translateMask raw flagMapping else raw),
          calls := b.calls }).2.2), ?_, ?_, ?_⟩
  · simp only [BoundaryHandlingCollection.unpackCell, hhs]
  · simp only [BoundaryHandlingCollection.store, Tuple.unpack_calls]
  · exact Tuple.unpack_sameClass _ _ _ _ _

theorem BoundaryHandlingCollection.unpackLoop_calls {σ : Type} (identical : Bool)
    (flagMapping : List flag_t) (cells : List Cell) :
    ∀ (buffer : Buffer) (b : BoundaryHandlingCollection σ) (buffer1 : Buffer)
      (b1 : BoundaryHandlingCollection σ),
      cells.foldl (BoundaryHandlingCollection.unpackCell identical flagMapping)
        (some (buffer, b)) = some (buffer1, b1) →
      ∃ masks : List flag_t, masks.length = cells.length ∧
        b1.calls = b.calls ++
          (cells.zip masks).flatMap (fun cm => unpackCalls cm.2 cm.1 b.boundaryHandlers) ∧
        List.Forall₂ Handler.SameClass b.boundaryHandlers b1.boundaryHandlers := by
  induction cells with
  | nil =>
    intro buffer b buffer1 b1 h
    simp only [List.foldl_nil, Option.some.injEq, Prod.mk.injEq] at h
    refine ⟨[], rfl, ?_, ?_⟩
    · rw [← h.2]
      simp
    · rw [← h.2]
      exact sameClass_refl_list _
  | cons c t ih =>
    intro buffer b buffer1 b1 h
    rw [List.foldl_cons] at h
    cases hhs : b.boundaryHandlers with
    | nil =>
      have hnone : BoundaryHandlingCollection.unpackCell identical flagMapping
          (some (buffer, b)) c = none := by
        simp only [BoundaryHandlingCollection.unpackCell, hhs]
      rw [hnone, BoundaryHandlingCollection.unpackCell_none] at h
      cases h
    | cons first tl =>
      cases buffer with
      | nil =>
        have hnone : BoundaryHandlingCollection.unpackCell identical flagMapping
            (some (([] : Buffer), b)) c = none := by
          simp only [BoundaryHandlingCollection.unpackCell]
        rw [hnone, BoundaryHandlingCollection.unpackCell_none] at h
        cases h
      | cons item rest =>
        cases item with
        | flagMapping mapping =>
          have hnone : BoundaryHandlingCollection.unpackCell identical flagMapping
              (some (BufferItem.flagMapping mapping :: rest, b)) c = none := by
            simp only [BoundaryHandlingCollection.unpackCell]
          rw [hnone, BoundaryHandlingCollection.unpackCell_none] at h
          cases h
        | payload word =>
          have hnone : BoundaryHandlingCollection.unpackCell identical flagMapping
              (some (BufferItem.payload word :: rest, b)) c = none := by
            simp only [BoundaryHandlingCollection.unpackCell]
          rw [hnone, BoundaryHandlingCollection.unpackCell_none] at h
          cases h
        | mask raw =>
          obtain ⟨r, hr, hcalls, hsame⟩ :=
            BoundaryHandlingCollection.unpackCell_of_mask identical flagMapping b first tl hhs
              raw rest c
          rw [hr] at h
          rw [hhs] at hsame hcalls
          obtain ⟨masks, hlen, hc1, hs1⟩ := ih r.1 r.2 buffer1 b1 h
          refine ⟨(if !identical then first.translateMask raw flagMapping else raw) :: masks,
            by simp [hlen], ?_, sameClass_trans_list hsame hs1⟩
          rw [hc1, hcalls, List.zip_cons_cons, List.flatMap_cons, List.append_assoc]
          have hrew : ∀ cm : Cell × flag_t,
              unpackCalls cm.2 cm.1 r.2.boundaryHandlers =
                unpackCalls cm.2 cm.1 (first :: tl) :=
            fun cm => unpackCalls_sameClass hsame cm.2 cm.1
          simp only [hrew]

theorem Tuple.unpack_first_meeting {σ : Type} (mask : flag_t) (c : Cell)
    (pre : List (Handler σ)) (h : Handler σ) (post : List (Handler σ)) (buffer : Buffer)
    (m : Mem) (hpre : ∀ k ∈ pre, k.ownership &&& mask = 0) (hm : h.ownership &&& mask ≠ 0) :
    Tuple.unpack mask c (pre ++ h :: post) buffer m =
      (pre ++
        { h with st := (h.unpack (h.ownership &&& mask) c buffer
            (m.flags.removeFlag c (h.ownership &&& mask)) h.st).2.2 } ::
          (Tuple.unpack mask c post
            (h.unpack (h.ownership &&& mask) c buffer
              (m.flags.removeFlag c (h.ownership &&& mask)) h.st).1
            { flags := (h.unpack (h.ownership &&& mask) c buffer
                (m.flags.removeFlag c (h.ownership &&& mask)) h.st).2.1,
              calls := m.calls ++ [Call.unpack h.uid (h.ownership &&& mask) c] }).1,
       (Tuple.unpack mask c post
          (h.unpack (h.ownership &&& mask) c buffer
            (m.flags.removeFlag c (h.ownership &&& mask)) h.st).1
          { flags := (h.unpack (h.ownership &&& mask) c buffer
              (m.flags.removeFlag c (h.ownership &&& mask)) h.st).2.1,
            calls := m.calls ++ [Call.unpack h.uid (h.ownership &&& mask) c] }).2) := by
  induction pre with
  | nil =>
    simp only [List.nil_append, Tuple.unpack, hm, ne_eq, not_false_eq_true, if_true]
  | cons a t ih =>
    have ha := hpre a (List.mem_cons_self _ _)
    rw [List.cons_append]
    simp only [Tuple.unpack, ha, ne_eq, not_true_eq_false, if_false]
    rw [ih (fun k hk => hpre k (List.mem_cons_of_mem _ hk))]
    rfl

theorem Tuple.unpack_none_meeting {σ : Type} (mask : flag_t) (c : Cell)
    (hs : List (Handler σ)) (buffer : Buffer) (m : Mem)
    (hno : ∀ k ∈ hs, k.ownership &&& mask = 0) :
    Tuple.unpack mask c hs buffer m = (hs, buffer, m) := by
  induction hs with
  | nil => rfl
  | cons a t ih =>
    have ha := hno a (List.mem_cons_self _ _)
    simp only [Tuple.unpack, ha, ne_eq, not_true_eq_false, if_false,
      ih (fun k hk => hno k (List.mem_cons_of_mem _ hk))]

theorem BoundaryHandlingCollection.unpackLoop_calls_of_reads {σ : Type} (identical : Bool)
    (flagMapping : List flag_t) (cells : List Cell) :
    ∀ (buffer : Buffer) (b : BoundaryHandlingCollection σ) (buffer1 : Buffer)
      (b1 : BoundaryHandlingCollection σ),
      cells.foldl (BoundaryHandlingCollection.unpackCell identical flagMapping)
        (some (buffer, b)) = some (buffer1, b1) →
      (BoundaryHandlingCollection.unpackReads identical flagMapping cells
        (some (buffer, b))).length = cells.length ∧
        b1.calls = b.calls ++
          (cells.zip (BoundaryHandlingCollection.unpackReads identical flagMapping cells
            (some (buffer, b)))).flatMap
            (fun cm => unpackCalls cm.2 cm.1 b.boundaryHandlers) := by
  induction cells with
  | nil =>
    intro buffer b buffer1 b1 h
    simp only [List.foldl_nil, Option.some.injEq, Prod.mk.injEq] at h
    refine ⟨rfl, ?_⟩
    rw [← h.2]
    simp [BoundaryHandlingCollection.unpackReads]
  | cons c t ih =>
    intro buffer b buffer1 b1 h
    rw [List.foldl_cons] at h
    cases hhs : b.boundaryHandlers with
    | nil =>
      have hnone : BoundaryHandlingCollection.unpackCell identical flagMapping
          (some (buffer, b)) c = none := by
        simp only [BoundaryHandlingCollection.unpackCell, hhs]
      rw [hnone, BoundaryHandlingCollection.unpackCell_none] at h
      cases h
    | cons first tl =>
      cases buffer with
      | nil =>
        have hnone : BoundaryHandlingCollection.unpackCell identical flagMapping
            (some (([] : Buffer), b)) c = none := by
          simp only [BoundaryHandlingCollection.unpackCell]
        rw [hnone, BoundaryHandlingCollection.unpackCell_none] at h
        cases h
      | cons item rest =>
        cases item with
        | flagMapping mapping =>
          have hnone : BoundaryHandlingCollection.unpackCell identical flagMapping
              (some (BufferItem.flagMapping mapping :: rest, b)) c = none := by
            simp only [BoundaryHandlingCollection.unpackCell]
          rw [hnone, BoundaryHandlingCollection.unpackCell_none] at h
          cases h
        | payload word =>
          have hnone : BoundaryHandlingCollection.unpackCell identical flagMapping
              (some (BufferItem.payload word :: rest, b)) c = none := by
            simp only [BoundaryHandlingCollection.unpackCell]
          rw [hnone, BoundaryHandlingCollection.unpackCell_none] at h
          cases h
        | mask raw =>
          obtain ⟨r, hr, hcalls, hsame⟩ :=
            BoundaryHandlingCollection.unpackCell_of_mask identical flagMapping b first tl hhs
              raw rest c
          rw [hr] at h
          rw [hhs] at hsame hcalls
          obtain ⟨hlen, hc1⟩ := ih r.1 r.2 buffer1 b1 h
          have hreads : BoundaryHandlingCollection.unpackReads identical flagMapping (c :: t)
              (some (BufferItem.mask raw :: rest, b)) =
              (if !identical then first.translateMask raw flagMapping else raw) ::
                BoundaryHandlingCollection.unpackReads identical flagMapping t
                  (some (r.1, r.2)) := by
            simp only [BoundaryHandlingCollection.unpackReads, hhs, hr]
          rw [hreads]
          refine ⟨by rw [List.length_cons, List.length_cons, hlen], ?_⟩
          rw [hc1, hcalls, List.zip_cons_cons, List.flatMap_cons, List.append_assoc]
          have hrew : ∀ cm : Cell × flag_t,
              unpackCalls cm.2 cm.1 r.2.boundaryHandlers =
                unpackCalls cm.2 cm.1 (first :: tl) :=
            fun cm => unpackCalls_sameClass hsame cm.2 cm.1
          simp only [hrew]

/-- C18: the helper of `unpack` runs, for a cell and the mask handed to it, the `unpack`
of exactly the handlers whose ownership mask meets the mask, in list order and each with
that intersection as its flag argument: the handlers ahead of the first such handler are
left as they are, its `unpack` runs on the buffer and on the flag field with the flag
removed at the cell, the buffer, the flag field and the state it returns are kept, and the
same holds for the handlers after it, while a list without such a handler leaves buffer,
flag field and handlers as they are; the mask handed to the helper is the raw mask read
for the cell, translated unless the mappings are identical, and it is written to the cell
before the helper runs; `unpack` starts its loop over the cells from the collection left
by `clear(interval)`; and whenever `unpack` returns, the calls it has made after that
clear are, cell by cell in the order of the loop, those calls for the mask received for
each cell of the unpacking interval. -/
theorem unpack_invokes_handlers_meeting_the_mask {σ : Type}
    (bhc : BoundaryHandlingCollection σ) (buffer : Buffer) (direction : Direction)
    (numberOfLayers : Nat) (assumeIdenticalFlagMapping : Bool) :
    (∀ (mask : flag_t) (c : Cell) (hs : List (Handler σ)) (buf : Buffer) (m : Mem),
      (Tuple.unpack mask c hs buf m).2.2.calls =
        m.calls ++ (hs.filter (fun h => decide (h.ownership &&& mask ≠ 0))).map
          (fun h => Call.unpack h.uid (h.ownership &&& mask) c)) ∧
    (∀ (identical : Bool) (flagMapping : List flag_t) (b : BoundaryHandlingCollection σ)
        (first : Handler σ) (tl : List (Handler σ)) (raw : flag_t) (rest : Buffer) (c : Cell),
      b.boundaryHandlers = first :: tl →
      ∃ r, BoundaryHandlingCollection.unpackCell identical flagMapping
          (some (BufferItem.mask raw :: rest, b)) c = some r ∧
        r.2.calls = b.calls ++
          unpackCalls (if !identical then first.translateMask raw flagMapping else raw) c
            b.boundaryHandlers) ∧
    (∀ (first : Handler σ) (rest : List (Handler σ)), bhc.boundaryHandlers = first :: rest →
      bhc.unpack buffer direction numberOfLayers assumeIdenticalFlagMapping =
        (first.getUnpackingInterval direction numberOfLayers).cells.foldl
          (BoundaryHandlingCollection.unpackCell
            (first.getNeighborFlagMapping buffer assumeIdenticalFlagMapping).2.1
            (first.getNeighborFlagMapping buffer assumeIdenticalFlagMapping).2.2)
          (some ((first.getNeighborFlagMapping buffer assumeIdenticalFlagMapping).1,
            bhc.clearCells (first.getUnpackingInterval direction numberOfLayers)))) ∧
    (∀ (first : Handler σ) (rest : List (Handler σ)) (buffer1 : Buffer)
        (b1 : BoundaryHandlingCollection σ),
      bhc.boundaryHandlers = first :: rest →
      bhc.unpack buffer direction numberOfLayers assumeIdenticalFlagMapping =
        some (buffer1, b1) →
      ∃ masks : List flag_t,
        masks.length = (first.getUnpackingInterval direction numberOfLayers).cells.length ∧
        b1.calls =
          (bhc.clearCells (first.getUnpackingInterval direction numberOfLayers)).calls ++
            ((first.getUnpackingInterval direction numberOfLayers).cells.zip masks).flatMap
              (fun cm => unpackCalls cm.2 cm.1 bhc.boundaryHandlers)) ∧
    (∀ (identical : Bool) (flagMapping : List flag_t) (b : BoundaryHandlingCollection σ)
        (first : Handler σ) (tl : List (Handler σ)) (raw : flag_t) (rest : Buffer) (c : Cell),
      b.boundaryHandlers = first :: tl →
      BoundaryHandlingCollection.unpackCell identical flagMapping
          (some (BufferItem.mask raw :: rest, b)) c =
        some ((Tuple.unpack (if !identical then first.translateMask raw flagMapping else raw)
            c b.boundaryHandlers rest
            { flags := b.flagField.data.set c
                (if !identical then first.translateMask raw flagMapping else raw),
              calls := b.calls }).2.1,
          b.store
            (Tuple.unpack (if !identical then first.translateMask raw flagMapping else raw)
              c b.boundaryHandlers rest
              { flags := b.flagField.data.set c
                  (if !identical then first.translateMask raw flagMapping else raw),
                calls := b.calls }).1
            (Tuple.unpack (if !identical then first.translateMask raw flagMapping else raw)
              c b.boundaryHandlers rest
              { flags := b.flagField.data.set c
                  (if !identical then first.translateMask raw flagMapping else raw),
                calls := b.calls }).2.2)) ∧
    (∀ (first : Handler σ) (rest : List (Handler σ)) (buffer1 : Buffer)
        (b1 : BoundaryHandlingCollection σ),
      bhc.boundaryHandlers = first :: rest →
      bhc.unpack buffer direction numberOfLayers assumeIdenticalFlagMapping =
        some (buffer1, b1) →
      (BoundaryHandlingCollection.unpackReads
          (first.getNeighborFlagMapping buffer assumeIdenticalFlagMapping).2.1
          (first.getNeighborFlagMapping buffer assumeIdenticalFlagMapping).2.2
          (first.getUnpackingInterval direction numberOfLayers).cells
          (some ((first.getNeighborFlagMapping buffer assumeIdenticalFlagMapping).1,
            bhc.clearCells (first.getUnpackingInterval direction numberOfLayers)))).length =
        (first.getUnpackingInterval direction numberOfLayers).cells.length ∧
      b1.calls =
        (bhc.clearCells (first.getUnpackingInterval direction numberOfLayers)).calls ++
          ((first.getUnpackingInterval direction numberOfLayers).cells.zip
            (BoundaryHandlingCollection.unpackReads
              (first.getNeighborFlagMapping buffer assumeIdenticalFlagMapping).2.1
              (first.getNeighborFlagMapping buffer assumeIdenticalFlagMapping).2.2
              (first.getUnpackingInterval direction numberOfLayers).cells
              (some ((first.getNeighborFlagMapping buffer assumeIdenticalFlagMapping).1,
                bhc.clearCells
                  (first.getUnpackingInterval direction numberOfLayers))))).flatMap
              (fun cm => unpackCalls cm.2 cm.1 bhc.boundaryHandlers)) ∧
    (∀ (mask : flag_t) (c : Cell) (pre : List (Handler σ)) (h : Handler σ)
        (post : List (Handler σ)) (buf : Buffer) (m : Mem),
      (∀ k ∈ pre, k.ownership &&& mask = 0) → h.ownership &&& mask ≠ 0 →
      Tuple.unpack mask c (pre ++ h :: post) buf m =
        (pre ++
          { h with st := (h.unpack (h.ownership &&& mask) c buf
              (m.flags.removeFlag c (h.ownership &&& mask)) h.st).2.2 } ::
            (Tuple.unpack mask c post
              (h.unpack (h.ownership &&& mask) c buf
                (m.flags.removeFlag c (h.ownership &&& mask)) h.st).1
              { flags := (h.unpack (h.ownership &&& mask) c buf
                  (m.flags.removeFlag c (h.ownership &&& mask)) h.st).2.1,
                calls := m.calls ++ [Call.unpack h.uid (h.ownership &&& mask) c] }).1,
         (Tuple.unpack mask c post
            (h.unpack (h.ownership &&& mask) c buf
              (m.flags.removeFlag c (h.ownership &&& mask)) h.st).1
            { flags := (h.unpack (h.ownership &&& mask) c buf
                (m.flags.removeFlag c (h.ownership &&& mask)) h.st).2.1,
              calls := m.calls ++ [Call.unpack h.uid (h.ownership &&& mask) c] }).2)) ∧
    (∀ (mask : flag_t) (c : Cell) (hs : List (Handler σ)) (buf : Buffer) (m : Mem),
      (∀ k ∈ hs, k.ownership &&& mask = 0) → Tuple.unpack mask c hs buf m = (hs, buf, m)) := by
  have hdef : ∀ (first : Handler σ) (rest : List (Handler σ)),
      bhc.boundaryHandlers = first :: rest →
      bhc.unpack buffer direction numberOfLayers assumeIdenticalFlagMapping =
        (first.getUnpackingInterval direction numberOfLayers).cells.foldl
          (BoundaryHandlingCollection.unpackCell
            (first.getNeighborFlagMapping buffer assumeIdenticalFlagMapping).2.1
            (first.getNeighborFlagMapping buffer assumeIdenticalFlagMapping).2.2)
          (some ((first.getNeighborFlagMapping buffer assumeIdenticalFlagMapping).1,
            bhc.clearCells (first.getUnpackingInterval direction numberOfLayers))) := by
    intro first rest hhs
    simp only [BoundaryHandlingCollection.unpack, hhs]
  refine ⟨fun mask c hs buf m => Tuple.unpack_calls mask c hs buf m, ?_, hdef, ?_, ?_, ?_,
    fun mask c pre h post buf m hpre hm =>
      Tuple.unpack_first_meeting mask c pre h post buf m hpre hm,
    fun mask c hs buf m hno => Tuple.unpack_none_meeting mask c hs buf m hno⟩
  · intro identical flagMapping b first tl raw rest c hhs
    obtain ⟨r, h1, h2, _⟩ :=
      BoundaryHandlingCollection.unpackCell_of_mask identical flagMapping b first tl hhs raw
        rest c
    exact ⟨r, h1, h2⟩
  · intro first rest buffer1 b1 hhs hres
    rw [hdef first rest hhs] at hres
    obtain ⟨masks, hlen, hcalls, _⟩ :=
      BoundaryHandlingCollection.unpackLoop_calls _ _ _ _ _ _ _ hres
    refine ⟨masks, hlen, ?_⟩
    rw [hcalls]
    have hrew : ∀ cm : Cell × flag_t,
        unpackCalls cm.2 cm.1
            (bhc.clearCells (first.getUnpackingInterval direction numberOfLayers)).boundaryHandlers =
          unpackCalls cm.2 cm.1 bhc.boundaryHandlers :=
      fun cm => unpackCalls_sameClass
        (BoundaryHandlingCollection.clearCells_sameClass bhc _) cm.2 cm.1
    simp only [hrew]
  · intro identical flagMapping b first tl raw rest c hhs
    simp only [BoundaryHandlingCollection.unpackCell, hhs]
  · intro first rest buffer1 b1 hhs hres
    rw [hdef first rest hhs] at hres
    obtain ⟨hlen, hcalls⟩ :=
      BoundaryHandlingCollection.unpackLoop_calls_of_reads _ _ _ _ _ _ _ hres
    refine ⟨hlen, ?_⟩
    rw [hcalls]
    have hrew : ∀ cm : Cell × flag_t,
        unpackCalls cm.2 cm.1
            (bhc.clearCells (first.getUnpackingInterval direction numberOfLayers)).boundaryHandlers =
          unpackCalls cm.2 cm.1 bhc.boundaryHandlers :=
      fun cm => unpackCalls_sameClass
        (BoundaryHandlingCollection.clearCells_sameClass bhc _) cm.2 cm.1
    simp only [hrew]

/-- C18, at an example: the receiver unpacks one cell with the mask 13; the interval is
cleared first (two calls of `clear`), then the handler owning the bits 1 and 2 unpacks
the flag 1 and the handler owning the bit 4 unpacks the flag 4: the buffer is used up, the
two handlers hold the payload words 100 and 200 they have unpacked, and the cell carries
the mask 13. -/
theorem unpack_invokes_handlers_meeting_the_mask_witness :
    (exampleReceiver.unpack
        [BufferItem.mask 13, BufferItem.payload 100, BufferItem.payload 200] 0 1 true).map
      (fun r => r.2.calls) =
      some [Call.clear 1 (Cell.mk (-1) 0 0), Call.clear 2 (Cell.mk (-1) 0 0),
            Call.unpack 1 1 (Cell.mk (-1) 0 0), Call.unpack 2 4 (Cell.mk (-1) 0 0)] ∧
    exampleReceiver.unpack
        [BufferItem.mask 13, BufferItem.payload 100, BufferItem.payload 200] 0 1 true =
      (handlerA.getUnpackingInterval 0 1).cells.foldl
        (BoundaryHandlingCollection.unpackCell true [])
        (some ([BufferItem.mask 13, BufferItem.payload 100, BufferItem.payload 200],
          exampleReceiver.clearCells (handlerA.getUnpackingInterval 0 1))) ∧
    (exampleReceiver.unpack
        [BufferItem.mask 13, BufferItem.payload 100, BufferItem.payload 200] 0 1 true).map
      (fun r => (r.1, r.2.boundaryHandlers.map Handler.st,
        r.2.flagField.data (Cell.mk (-1) 0 0))) = some ([], [100, 200], 13) ∧
    (exampleReceiver.unpack
        [BufferItem.mask 4, BufferItem.payload 200] 0 1 true).map
      (fun r => (r.1, r.2.boundaryHandlers.map Handler.st,
        r.2.flagField.data (Cell.mk (-1) 0 0))) = some ([], [1, 200], 4) :=
  ⟨by decide,
   (unpack_invokes_handlers_meeting_the_mask exampleReceiver
      [BufferItem.mask 13, BufferItem.payload 100, BufferItem.payload 200] 0 1 true).2.2.1
      handlerA [handlerB] rfl,
   by decide, by decide⟩

/-! ## Lookups by Boundary UID -/

theorem Tuple.getBoundaryMask_eq_find {σ : Type} (uid : Nat) (hs : List (Handler σ)) :
    Tuple.getBoundaryMask uid hs =
      match hs.find? (fun h => h.containsBoundaryConditionUID uid) with
      | some H => H.getBoundaryMaskOf uid
      | none => 0 := by
  induction hs with
  | nil => rfl
  | cons a t ih =>
    by_cases hc : a.containsBoundaryConditionUID uid = true
    · simp only [Tuple.getBoundaryMask, hc, if_true, List.find?_cons_of_pos]
    · simp only [Tuple.getBoundaryMask, hc, if_false, Bool.false_eq_true]
      rw [List.find?_cons_of_neg _ (by simpa using hc)]
      exact ih

theorem find_first_match {α : Type} (p : α → Bool) (pre post : List α) (H : α)
    (hpre : ∀ h ∈ pre, p h = false) (hH : p H = true) :
    (pre ++ H :: post).find? p = some H := by
  induction pre with
  | nil => simp [hH]
  | cons a t ih =>
    have ha : p a = false := hpre a (List.mem_cons_self _ _)
    rw [List.cons_append, List.find?_cons_of_neg _ (by simp [ha])]
    exact ih (fun h hh => hpre h (List.mem_cons_of_mem _ hh))

theorem find_none_of_all_false {α : Type} (p : α → Bool) (l : List α)
    (hall : ∀ h ∈ l, p h = false) : l.find? p = none := by
  rw [List.find?_eq_none]
  intro x hx
  rw [hall x hx]
  decide

/-- C21, refuted as stated: no handler of the example collection implements the Boundary
UID 99, and `getBoundaryMask( 99 )` does not abort: it returns the mask 0. -/
theorem getBoundaryMask_returns_zero_for_unknown_uid :
    (∀ h ∈ exampleSender.boundaryHandlers, h.containsBoundaryConditionUID 99 = false) ∧
    exampleSender.getBoundaryMask 99 = 0 := by
  decide

/-- C21, amended: `getBoundaryMask(uid)` returns the mask that the first handler in list
order containing `uid` reports for it, and when no handler of the list contains `uid` it
returns the empty mask 0, and does not abort. -/
theorem getBoundaryMask_first_match_or_zero {σ : Type} (bhc : BoundaryHandlingCollection σ)
    (uid : Nat) :
    (∀ (pre post : List (Handler σ)) (H : Handler σ),
      bhc.boundaryHandlers = pre ++ H :: post →
      (∀ h ∈ pre, h.containsBoundaryConditionUID uid = false) →
      H.containsBoundaryConditionUID uid = true →
      bhc.getBoundaryMask uid = H.getBoundaryMaskOf uid) ∧
    ((∀ h ∈ bhc.boundaryHandlers, h.containsBoundaryConditionUID uid = false) →
      bhc.getBoundaryMask uid = 0) ∧
    bhc.getBoundaryMask uid =
      match bhc.boundaryHandlers.find? (fun h => h.containsBoundaryConditionUID uid) with
      | some H => H.getBoundaryMaskOf uid
      | none => 0 := by
  refine ⟨?_, ?_, Tuple.getBoundaryMask_eq_find _ _⟩
  · intro pre post H hhs hpre hH
    simp only [BoundaryHandlingCollection.getBoundaryMask, Tuple.getBoundaryMask_eq_find, hhs,
      find_first_match (fun h => h.containsBoundaryConditionUID uid) pre post H hpre hH]
  · intro hall
    unfold BoundaryHandlingCollection.getBoundaryMask
    rw [Tuple.getBoundaryMask_eq_find, find_none_of_all_false _ _ hall]

/-- C21, at an example: the Boundary UID 20 belongs to the second handler, whose mask 4
is returned; the Boundary UID 99 belongs to no handler and the mask 0 is returned. -/
theorem getBoundaryMask_first_match_or_zero_witness :
    exampleSender.getBoundaryMask 20 = 4 ∧ exampleSender.getBoundaryMask 99 = 0 :=
  ⟨(getBoundaryMask_first_match_or_zero exampleSender 20).1 [handlerA] [] handlerB rfl
      (by decide) (by decide),
   (getBoundaryMask_first_match_or_zero exampleSender 99).2.1 (by decide)⟩

theorem Tuple.createBoundaryConfiguration_eq_find {σ : Type} (NDEBUG : Bool)
    (uid config : Nat) (hs : List (Handler σ)) :
    Tuple.createBoundaryConfiguration NDEBUG uid config hs =
      match hs.find? (fun h => h.containsBoundaryConditionUID uid) with
      | some H => Except.ok (H.createBoundaryConfiguration uid config)
      | none =>
        if NDEBUG then Except.ok defaultBoundaryConfiguration
        else Except.error Abort.assertionFailed := by
  induction hs with
  | nil => rfl
  | cons a t ih =>
    by_cases hc : a.containsBoundaryConditionUID uid = true
    · simp only [Tuple.createBoundaryConfiguration, hc, if_true, List.find?_cons_of_pos]
    · simp only [Tuple.createBoundaryConfiguration, hc, if_false, Bool.false_eq_true]
      rw [List.find?_cons_of_neg _ (by simpa using hc)]
      exact ih

/-- C22, refuted as stated: no handler of the example collection contains the Boundary
UID 99, and in a build with `NDEBUG` the call `createBoundaryConfiguration( 99, 5 )` does
not fail: it returns a default-constructed configuration object. -/
theorem createBoundaryConfiguration_returns_default_in_release_build :
    (∀ h ∈ exampleSender.boundaryHandlers, h.containsBoundaryConditionUID 99 = false) ∧
    exampleSender.createBoundaryConfiguration true 99 5 =
      Except.ok defaultBoundaryConfiguration :=
  ⟨by decide, rfl⟩

/-- C22, amended: in every build `createBoundaryConfiguration(uid, config)` returns the
result of the first handler in list order that contains `uid`; when no handler contains
`uid` the call fails fatally only in a build without `NDEBUG` (on the assertion), and in
a build with `NDEBUG` it returns a default-constructed configuration object. -/
theorem createBoundaryConfiguration_first_match_or_build_dependent {σ : Type}
    (bhc : BoundaryHandlingCollection σ) (NDEBUG : Bool) (uid config : Nat) :
    (∀ (pre post : List (Handler σ)) (H : Handler σ),
      bhc.boundaryHandlers = pre ++ H :: post →
      (∀ h ∈ pre, h.containsBoundaryConditionUID uid = false) →
      H.containsBoundaryConditionUID uid = true →
      bhc.createBoundaryConfiguration NDEBUG uid config =
        Except.ok (H.createBoundaryConfiguration uid config)) ∧
    ((∀ h ∈ bhc.boundaryHandlers, h.containsBoundaryConditionUID uid = false) →
      bhc.createBoundaryConfiguration NDEBUG uid config =
        if NDEBUG then Except.ok defaultBoundaryConfiguration
        else Except.error Abort.assertionFailed) ∧
    ((∃ e, bhc.createBoundaryConfiguration NDEBUG uid config = Except.error e) ↔
      NDEBUG = false ∧
        ∀ h ∈ bhc.boundaryHandlers, h.containsBoundaryConditionUID uid = false) := by
  refine ⟨?_, ?_, ?_⟩
  · intro pre post H hhs hpre hH
    simp only [BoundaryHandlingCollection.createBoundaryConfiguration,
      Tuple.createBoundaryConfiguration_eq_find, hhs,
      find_first_match (fun h => h.containsBoundaryConditionUID uid) pre post H hpre hH]
  · intro hall
    unfold BoundaryHandlingCollection.createBoundaryConfiguration
    rw [Tuple.createBoundaryConfiguration_eq_find, find_none_of_all_false _ _ hall]
  · simp only [BoundaryHandlingCollection.createBoundaryConfiguration,
      Tuple.createBoundaryConfiguration_eq_find]
    cases hf : bhc.boundaryHandlers.find? (fun h => h.containsBoundaryConditionUID uid) with
    | none =>
      have hall : ∀ h ∈ bhc.boundaryHandlers, h.containsBoundaryConditionUID uid = false := by
        intro h hh
        have := List.find?_eq_none.mp hf h hh
        simpa using this
      cases NDEBUG
      · simp only [Bool.false_eq_true, if_false, true_and]
        exact ⟨fun _ => hall, fun _ => ⟨_, rfl⟩⟩
      · simp only [if_true]
        constructor
        · rintro ⟨e, he⟩
          cases he
        · rintro ⟨hn, _⟩
          cases hn
    | some H =>
      have hH := List.find?_some hf
      have hmem := List.mem_of_find?_eq_some hf
      simp only
      constructor
      · rintro ⟨e, he⟩
        cases he
      · rintro ⟨_, hall⟩
        rw [hall H hmem] at hH
        cases hH

/-- C22, at an example: the Boundary UID 21 belongs to the second handler, whose
configuration is returned in either build; for the Boundary UID 99 of no handler the
debug build stops on the assertion and the release build returns the default object. -/
theorem createBoundaryConfiguration_first_match_or_build_dependent_witness :
    exampleSender.createBoundaryConfiguration false 21 5 = Except.ok 21006 ∧
    exampleSender.createBoundaryConfiguration false 99 5 =
      Except.error Abort.assertionFailed ∧
    exampleSender.createBoundaryConfiguration true 99 5 =
      Except.ok defaultBoundaryConfiguration :=
  ⟨(createBoundaryConfiguration_first_match_or_build_dependent exampleSender false 21 5).1
      [handlerA] [] handlerB rfl (by decide) (by decide),
   (createBoundaryConfiguration_first_match_or_build_dependent exampleSender false 99 5).2.1
      (by decide),
   (createBoundaryConfiguration_first_match_or_build_dependent exampleSender true 99 5).2.1
      (by decide)⟩

/-! ## Lookup of a handler by type and UID -/

theorem Tuple.getBoundaryHandling_TypeExists_eq_find {σ : Type} (T uid : Nat)
    (hs : List (Handler σ)) (hne : hs ≠ []) :
    Tuple.getBoundaryHandling_TypeExists T uid hs =
      match hs.find? (fun h => decide (h.handlingType = T) && decide (uid = h.uid)) with
      | some H => Lookup.found H
      | none => Lookup.abort := by
  induction hs with
  | nil => exact absurd rfl hne
  | cons a t ih =>
    cases t with
    | nil =>
      by_cases hT : a.handlingType = T
      · by_cases hu : uid = a.uid
        · simp [Tuple.getBoundaryHandling_TypeExists, hT, hu]
        · simp [Tuple.getBoundaryHandling_TypeExists, hT, hu]
      · simp [Tuple.getBoundaryHandling_TypeExists, hT]
    | cons b t2 =>
      have ih2 := ih (List.cons_ne_nil _ _)
      by_cases hT : a.handlingType = T
      · by_cases hu : uid = a.uid
        · simp [Tuple.getBoundaryHandling_TypeExists, hT, hu]
        · rw [List.find?_cons_of_neg _ (by simp [hu]), ← ih2]
          simp [Tuple.getBoundaryHandling_TypeExists, hT, hu]
      · rw [List.find?_cons_of_neg _ (by simp [hT]), ← ih2]
        simp [Tuple.getBoundaryHandling_TypeExists, hT]

theorem Tuple.getBoundaryHandling_eq_find {σ : Type} (T uid : Nat) (hs : List (Handler σ)) :
    Tuple.getBoundaryHandling T uid hs =
      match hs.find? (fun h => decide (h.handlingType = T) && decide (uid = h.uid)) with
      | some H => Lookup.found H
      | none =>
        if hs.any (fun h => decide (h.handlingType = T)) then Lookup.abort
        else Lookup.rejected := by
  induction hs with
  | nil => rfl
  | cons a t ih =>
    cases t with
    | nil =>
      by_cases hT : a.handlingType = T
      · by_cases hu : uid = a.uid
        · simp [Tuple.getBoundaryHandling, hT, hu]
        · simp [Tuple.getBoundaryHandling, hT, hu]
      · simp [Tuple.getBoundaryHandling, hT]
    | cons b t2 =>
      by_cases hT : a.handlingType = T
      · by_cases hu : uid = a.uid
        · simp [Tuple.getBoundaryHandling, hT, hu]
        · have hx := Tuple.getBoundaryHandling_TypeExists_eq_find T uid (b :: t2)
            (List.cons_ne_nil _ _)
          rw [List.find?_cons_of_neg _ (by simp [hu])]
          have hany : (a :: b :: t2).any (fun h => decide (h.handlingType = T)) = true := by
            simp [hT]
          rw [hany]
          simp only [Tuple.getBoundaryHandling, hT, hu, if_true, if_false]
          rw [hx]
      · rw [List.find?_cons_of_neg _ (by simp [hT])]
        have hany : (a :: b :: t2).any (fun h => decide (h.handlingType = T)) =
            (b :: t2).any (fun h => decide (h.handlingType = T)) := by
          rw [List.any_cons]
          simp [hT]
        rw [hany, ← ih]
        simp [Tuple.getBoundaryHandling, hT]

namespace BoundaryHandlingCollection

variable {σ : Type}

theorem construct_ok_nodup (flagField : FlagField) (hs : List (Handler σ))
    (bhc : BoundaryHandlingCollection σ) (hok : construct flagField hs = Except.ok bhc) :
    bhc.boundaryHandlers = hs ∧ (hs.map Handler.uid).Nodup := by
  unfold construct at hok
  simp only at hok
  split at hok
  · cases hok
  · split at hok
    · cases hok
    · rcases except_unit_cases (checkForUniqueBoundaryHandlingUIDs hs hs) with h3 | ⟨e3, h3⟩
      · rw [h3] at hok
        simp only at hok
        rcases except_unit_cases
          (checkForUniqueBoundaryUIDs (getBoundaryUIDs hs) (getBoundaryUIDs hs)) with h4 | ⟨e4, h4⟩
        · rw [h4] at hok
          simp only at hok
          injection hok with hb
          subst hb
          exact ⟨rfl, (handlingUIDs_ok_iff_nodup hs).mp h3⟩
        · rw [h4] at hok
          cases hok
      · rw [h3] at hok
        cases hok

end BoundaryHandlingCollection

theorem exists_first_satisfying {α : Type} (P : α → Prop) (l : List α)
    (hex : ∃ a ∈ l, P a) :
    ∃ pre a post, l = pre ++ a :: post ∧ (∀ b ∈ pre, ¬ P b) ∧ P a := by
  induction l with
  | nil =>
    obtain ⟨a, ha, _⟩ := hex
    exact absurd ha (List.not_mem_nil a)
  | cons x t ih =>
    by_cases hx : P x
    · exact ⟨[], x, t, rfl, fun b hb => absurd hb (List.not_mem_nil b), hx⟩
    · have hex1 : ∃ a ∈ t, P a := by
        obtain ⟨a, ha, hPa⟩ := hex
        rcases List.mem_cons.mp ha with rfl | hat
        · exact absurd hPa hx
        · exact ⟨a, hat, hPa⟩
      obtain ⟨pre, a, post, ht, hpre, ha⟩ := ih hex1
      refine ⟨x :: pre, a, post, by rw [ht]; rfl, ?_, ha⟩
      intro b hb
      rcases List.mem_cons.mp hb with rfl | hbp
      · exact hx
      · exact hpre b hbp

theorem lookup_found_ne_abort {α : Type} (a : α) : Lookup.found a ≠ Lookup.abort := by
  intro h
  cases h

theorem lookup_found_ne_rejected {α : Type} (a : α) : Lookup.found a ≠ Lookup.rejected := by
  intro h
  cases h

theorem lookup_abort_ne_rejected {α : Type} :
    (Lookup.abort : Lookup α) ≠ Lookup.rejected := by
  intro h
  cases h

theorem typed_match_false {σ : Type} (T uid : Nat) (h : Handler σ)
    (hn : ¬ (h.handlingType = T ∧ h.uid = uid)) :
    (decide (h.handlingType = T) && decide (uid = h.uid)) = false := by
  by_cases h1 : h.handlingType = T
  · by_cases h2 : uid = h.uid
    · exact absurd ⟨h1, h2.symm⟩ hn
    · simp [h2]
  · simp [h1]

theorem typed_match_true {σ : Type} (T uid : Nat) (h : Handler σ)
    (hp : (decide (h.handlingType = T) && decide (uid = h.uid)) = true) :
    h.handlingType = T ∧ h.uid = uid := by
  simp only [Bool.and_eq_true, decide_eq_true_eq] at hp
  exact ⟨hp.1, hp.2.symm⟩

theorem typed_match_of_find {σ : Type} (T uid : Nat) (hs : List (Handler σ)) (H : Handler σ)
    (hf : hs.find? (fun h => decide (h.handlingType = T) && decide (uid = h.uid)) = some H) :
    H.handlingType = T ∧ H.uid = uid := by
  have h := List.find?_some hf
  exact typed_match_true T uid H h

/-- The outcomes of the typed lookup over any list: the first handler of the type and
the UID is found; the call aborts exactly if some handler has the type but none has the
type and the UID; the failing `static_assert` is selected exactly if no handler has the
type; with pairwise distinct UIDs the handler found is the only one with the UID. -/
theorem BoundaryHandlingCollection.getBoundaryHandling_outcomes {σ : Type} (bhc : BoundaryHandlingCollection σ)
    (T uid : Nat) :
    (∀ (pre post : List (Handler σ)) (H : Handler σ),
      bhc.boundaryHandlers = pre ++ H :: post →
      (∀ h ∈ pre, ¬ (h.handlingType = T ∧ h.uid = uid)) →
      H.handlingType = T → H.uid = uid →
      bhc.getBoundaryHandling T uid = Lookup.found H) ∧
    (bhc.getBoundaryHandling T uid = Lookup.abort ↔
      (∃ h ∈ bhc.boundaryHandlers, h.handlingType = T) ∧
      ∀ h ∈ bhc.boundaryHandlers, ¬ (h.handlingType = T ∧ h.uid = uid)) ∧
    (bhc.getBoundaryHandling T uid = Lookup.rejected ↔
      ∀ h ∈ bhc.boundaryHandlers, h.handlingType ≠ T) ∧
    (∀ H, (bhc.boundaryHandlers.map Handler.uid).Nodup →
      bhc.getBoundaryHandling T uid = Lookup.found H →
      H ∈ bhc.boundaryHandlers ∧ H.handlingType = T ∧ H.uid = uid ∧
      ∀ h ∈ bhc.boundaryHandlers, h.uid = uid → h = H) ∧
    (∀ flagField hs, BoundaryHandlingCollection.construct flagField hs = Except.ok bhc →
      (bhc.boundaryHandlers.map Handler.uid).Nodup) := by
  have hfind := Tuple.getBoundaryHandling_eq_find T uid bhc.boundaryHandlers
  refine ⟨?_, ?_, ?_, ?_, ?_⟩
  · intro pre post H hhs hpre hT hu
    unfold BoundaryHandlingCollection.getBoundaryHandling
    rw [hfind, hhs, find_first_match _ pre post H
      (fun h hh => typed_match_false T uid h (hpre h hh)) (by simp [hT, hu])]
  · unfold BoundaryHandlingCollection.getBoundaryHandling
    rw [hfind]
    cases hf : bhc.boundaryHandlers.find?
        (fun h => decide (h.handlingType = T) && decide (uid = h.uid)) with
    | none =>
      have hall : ∀ h ∈ bhc.boundaryHandlers, ¬ (h.handlingType = T ∧ h.uid = uid) := by
        intro h hh hn
        have := List.find?_eq_none.mp hf h hh
        simp [hn.1, hn.2] at this
      by_cases hany : bhc.boundaryHandlers.any (fun h => decide (h.handlingType = T)) = true
      · simp only [hany, if_true, true_iff]
        obtain ⟨h, hh, ht⟩ := List.any_eq_true.mp hany
        exact ⟨⟨h, hh, by simpa using ht⟩, hall⟩
      · simp only [hany, if_false, Bool.false_eq_true]
        constructor
        · intro h
          exact absurd h.symm lookup_abort_ne_rejected
        · rintro ⟨⟨h, hh, ht⟩, _⟩
          exact absurd (List.any_eq_true.mpr ⟨h, hh, by simpa using ht⟩) hany
    | some H =>
      simp only
      constructor
      · intro h
        exact absurd h (lookup_found_ne_abort H)
      · rintro ⟨_, hall⟩
        exact absurd (typed_match_of_find T uid _ H hf)
          (hall H (List.mem_of_find?_eq_some hf))
  · unfold BoundaryHandlingCollection.getBoundaryHandling
    rw [hfind]
    cases hf : bhc.boundaryHandlers.find?
        (fun h => decide (h.handlingType = T) && decide (uid = h.uid)) with
    | none =>
      by_cases hany : bhc.boundaryHandlers.any (fun h => decide (h.handlingType = T)) = true
      · simp only [hany, if_true]
        obtain ⟨h, hh, ht⟩ := List.any_eq_true.mp hany
        constructor
        · intro hx
          exact absurd hx lookup_abort_ne_rejected
        · intro hall
          exact absurd (by simpa using ht) (hall h hh)
      · simp only [hany, if_false, Bool.false_eq_true, true_iff]
        intro h hh ht
        exact hany (List.any_eq_true.mpr ⟨h, hh, by simpa using ht⟩)
    | some H =>
      simp only
      constructor
      · intro h
        exact absurd h (lookup_found_ne_rejected H)
      · intro hall
        exact absurd (typed_match_of_find T uid _ H hf).1
          (hall H (List.mem_of_find?_eq_some hf))
  · intro H hnd hres
    unfold BoundaryHandlingCollection.getBoundaryHandling at hres
    rw [hfind] at hres
    cases hf : bhc.boundaryHandlers.find?
        (fun h => decide (h.handlingType = T) && decide (uid = h.uid)) with
    | none =>
      rw [hf] at hres
      simp only at hres
      split at hres <;> cases hres
    | some K =>
      rw [hf] at hres
      simp only at hres
      injection hres with hK
      subst hK
      have hmem := List.mem_of_find?_eq_some hf
      have hp := typed_match_of_find T uid _ K hf
      refine ⟨hmem, hp.1, hp.2, ?_⟩
      intro h hh hu
      exact List.inj_on_of_nodup_map hnd hh hmem (hu.trans hp.2.symm)
  · intro flagField hs hok
    have := BoundaryHandlingCollection.construct_ok_nodup flagField hs bhc hok
    rw [this.1]
    exact this.2

/-- C23: for a call `getBoundaryHandling< T >( uid )` that compiles, which is a call on a
collection with a handler of the type `T` (for any other collection the overload selected
at the last handler is the failing `static_assert`, so that there is no program to run),
the call returns the first handler in list order whose type is `T` and whose UID equals
`uid`; it aborts if and only if no handler of the list has both the type `T` and that
UID, in particular when a handler with that UID exists but every such handler has another
type; it has no third outcome; and in a validly constructed collection, where the UIDs of
the handlers are pairwise distinct, the handler returned is the only handler with that
UID. -/
theorem getBoundaryHandling_first_typed_match {σ : Type} (bhc : BoundaryHandlingCollection σ)
    (T uid : Nat) (hT : ∃ h ∈ bhc.boundaryHandlers, h.handlingType = T) :
    (∀ (pre post : List (Handler σ)) (H : Handler σ),
      bhc.boundaryHandlers = pre ++ H :: post →
      (∀ h ∈ pre, ¬ (h.handlingType = T ∧ h.uid = uid)) →
      H.handlingType = T → H.uid = uid →
      bhc.getBoundaryHandling T uid = Lookup.found H) ∧
    (bhc.getBoundaryHandling T uid = Lookup.abort ↔
      ∀ h ∈ bhc.boundaryHandlers, ¬ (h.handlingType = T ∧ h.uid = uid)) ∧
    ((∃ h ∈ bhc.boundaryHandlers, h.uid = uid) →
      (∀ h ∈ bhc.boundaryHandlers, h.uid = uid → h.handlingType ≠ T) →
      bhc.getBoundaryHandling T uid = Lookup.abort) ∧
    ((∃ H, bhc.getBoundaryHandling T uid = Lookup.found H) ∨
      bhc.getBoundaryHandling T uid = Lookup.abort) ∧
    ((∃ H, bhc.getBoundaryHandling T uid = Lookup.found H) ↔
      ∃ h ∈ bhc.boundaryHandlers, h.handlingType = T ∧ h.uid = uid) ∧
    (∀ H, bhc.getBoundaryHandling T uid = Lookup.found H →
      H ∈ bhc.boundaryHandlers ∧ H.handlingType = T ∧ H.uid = uid ∧
      ∃ pre post, bhc.boundaryHandlers = pre ++ H :: post ∧
        ∀ h ∈ pre, ¬ (h.handlingType = T ∧ h.uid = uid)) ∧
    (∀ H, (bhc.boundaryHandlers.map Handler.uid).Nodup →
      bhc.getBoundaryHandling T uid = Lookup.found H →
      H ∈ bhc.boundaryHandlers ∧ H.handlingType = T ∧ H.uid = uid ∧
      ∀ h ∈ bhc.boundaryHandlers, h.uid = uid → h = H) ∧
    (∀ flagField hs, BoundaryHandlingCollection.construct flagField hs = Except.ok bhc →
      (bhc.boundaryHandlers.map Handler.uid).Nodup) := by
  obtain ⟨hfirst, habort, hrej, huniq, hcons⟩ :=
    BoundaryHandlingCollection.getBoundaryHandling_outcomes bhc T uid
  have habort1 : bhc.getBoundaryHandling T uid = Lookup.abort ↔
      ∀ h ∈ bhc.boundaryHandlers, ¬ (h.handlingType = T ∧ h.uid = uid) :=
    ⟨fun h => (habort.mp h).2, fun h => habort.mpr ⟨hT, h⟩⟩
  have hnotrej : bhc.getBoundaryHandling T uid ≠ Lookup.rejected := by
    intro h
    obtain ⟨k, hk, hkT⟩ := hT
    exact hrej.mp h k hk hkT
  have hsplit : ∀ H, bhc.getBoundaryHandling T uid = Lookup.found H →
      H ∈ bhc.boundaryHandlers ∧ H.handlingType = T ∧ H.uid = uid ∧
      ∃ pre post, bhc.boundaryHandlers = pre ++ H :: post ∧
        ∀ h ∈ pre, ¬ (h.handlingType = T ∧ h.uid = uid) := by
    intro H hres
    have hex : ∃ h ∈ bhc.boundaryHandlers, h.handlingType = T ∧ h.uid = uid := by
      by_contra hcon
      have : bhc.getBoundaryHandling T uid = Lookup.abort :=
        habort1.mpr (fun h hh hp => hcon ⟨h, hh, hp⟩)
      rw [hres] at this
      exact lookup_found_ne_abort H this
    obtain ⟨pre, K, post, hhs, hpre, hK⟩ :=
      exists_first_satisfying (fun h : Handler σ => h.handlingType = T ∧ h.uid = uid)
        bhc.boundaryHandlers hex
    have hf := hfirst pre post K hhs hpre hK.1 hK.2
    rw [hres] at hf
    injection hf with hHK
    subst hHK
    exact ⟨by rw [hhs]; simp, hK.1, hK.2, pre, post, hhs, hpre⟩
  refine ⟨hfirst, habort1, ?_, ?_, ?_, hsplit, huniq, hcons⟩
  · intro _ hother
    exact habort1.mpr (fun h hh hp => hother h hh hp.2 hp.1)
  · cases hres : bhc.getBoundaryHandling T uid with
    | found H => exact Or.inl ⟨H, rfl⟩
    | abort => exact Or.inr rfl
    | rejected => exact absurd hres hnotrej
  · constructor
    · rintro ⟨H, hres⟩
      obtain ⟨hmem, hHT, hHu, _⟩ := hsplit H hres
      exact ⟨H, hmem, hHT, hHu⟩
    · rintro ⟨h, hh, hp⟩
      cases hres : bhc.getBoundaryHandling T uid with
      | found H => exact ⟨H, rfl⟩
      | abort => exact absurd hp (habort1.mp hres h hh)
      | rejected => exact absurd hres hnotrej

/-- C23, at an example: the collection of the handlers with the UIDs 1 (type 0) and 2
(type 1) has a handler of the type 1; the request for type 1 and UID 2 returns the second
handler, and the request for type 1 and UID 1, a UID held by a handler of another type,
aborts. -/
theorem getBoundaryHandling_first_typed_match_witness :
    (∃ h ∈ (exampleCollection [handlerA, handlerD]).boundaryHandlers, h.handlingType = 1) ∧
    (exampleCollection [handlerA, handlerD]).getBoundaryHandling 1 2 = Lookup.found handlerD ∧
    (exampleCollection [handlerA, handlerD]).getBoundaryHandling 1 1 = Lookup.abort :=
  ⟨⟨handlerD, by simp [exampleCollection], rfl⟩,
   (getBoundaryHandling_first_typed_match (exampleCollection [handlerA, handlerD]) 1 2
      ⟨handlerD, by simp [exampleCollection], rfl⟩).1
      [handlerA] [] handlerD rfl
      (by
        intro h hh
        rw [show h = handlerA from by simpa using hh]
        decide)
      rfl rfl,
   (getBoundaryHandling_first_typed_match (exampleCollection [handlerA, handlerD]) 1 1
      ⟨handlerD, by simp [exampleCollection], rfl⟩).2.2.1
      ⟨handlerA, by simp [exampleCollection], rfl⟩
      (by
        intro h hh
        have hcases : h = handlerA ∨ h = handlerD := by simpa [exampleCollection] using hh
        rcases hcases with rfl | rfl <;> decide)⟩

/-! ## Counting the handlers that match a flag -/

theorem Tuple.numberOfMatchingHandlers_eq_countP {σ : Type} (flag : flag_t)
    (hs : List (Handler σ)) :
    Tuple.numberOfMatchingHandlers flag hs =
      hs.countP (fun h => decide (h.ownership &&& flag = flag)) := by
  induction hs with
  | nil => rfl
  | cons h t ih =>
    rw [List.countP_cons, ← ih]
    simp only [Tuple.numberOfMatchingHandlers, Handler.ownership, decide_eq_true_eq]
    omega

theorem Tuple.numberOfMatchingHandlersForDomain_eq_countP {σ : Type} (flag : flag_t)
    (hs : List (Handler σ)) :
    Tuple.numberOfMatchingHandlersForDomain flag hs =
      hs.countP (fun h => decide (h.domainMask &&& flag = flag)) := by
  induction hs with
  | nil => rfl
  | cons h t ih =>
    rw [List.countP_cons, ← ih]
    simp only [Tuple.numberOfMatchingHandlersForDomain, decide_eq_true_eq]
    omega

theorem Tuple.numberOfMatchingHandlersForBoundary_eq_countP {σ : Type} (flag : flag_t)
    (hs : List (Handler σ)) :
    Tuple.numberOfMatchingHandlersForBoundary flag hs =
      hs.countP (fun h => decide (h.boundaryMask &&& flag = flag)) := by
  induction hs with
  | nil => rfl
  | cons h t ih =>
    rw [List.countP_cons, ← ih]
    simp only [Tuple.numberOfMatchingHandlersForBoundary, decide_eq_true_eq]
    omega

theorem mask_and_two_pow_iff (mask k : Nat) :
    (mask &&& (1 <<< k) = 1 <<< k) ↔ mask.testBit k = true := by
  rw [Nat.land_comm]
  exact two_pow_and_eq_iff k mask

theorem countP_single_bit_le_one {σ : Type} (g : Handler σ → flag_t) (k : Nat)
    (hs : List (Handler σ)) (hd : hs.Pairwise (fun a b => g a &&& g b = 0)) :
    hs.countP (fun h => decide (g h &&& (1 <<< k) = 1 <<< k)) ≤ 1 := by
  induction hs with
  | nil => simp
  | cons h t ih =>
    rw [List.pairwise_cons] at hd
    rw [List.countP_cons]
    by_cases hk : (g h).testBit k = true
    · have hzero : t.countP (fun h => decide (g h &&& (1 <<< k) = 1 <<< k)) = 0 := by
        rw [List.countP_eq_zero]
        intro b hb
        simp only [decide_eq_true_eq, mask_and_two_pow_iff]
        intro hbk
        have hbit : (g h &&& g b).testBit k = true := by
          rw [Nat.testBit_and, hk, hbk]
          rfl
        rw [hd.1 b hb, Nat.zero_testBit] at hbit
        exact absurd hbit (by decide)
      rw [hzero]
      split <;> omega
    · have hno : ¬ (g h &&& (1 <<< k) = 1 <<< k) := by
        rw [mask_and_two_pow_iff]
        exact hk
      simp only [hno, decide_False, Bool.false_eq_true, if_false, Nat.add_zero]
      exact ih hd.2

theorem and_eq_zero_of_sub (a b x y : Nat) (hx : x &&& a = x) (hy : y &&& b = y)
    (hab : a &&& b = 0) : x &&& y = 0 := by
  apply Nat.eq_of_testBit_eq
  intro i
  have h1 : (x &&& a).testBit i = x.testBit i := by rw [hx]
  have h2 : (y &&& b).testBit i = y.testBit i := by rw [hy]
  have h3 : (a &&& b).testBit i = false := by rw [hab, Nat.zero_testBit]
  rw [Nat.testBit_and] at h1 h2 h3
  rw [Nat.testBit_and, Nat.zero_testBit]
  cases hxi : x.testBit i <;> cases hyi : y.testBit i <;> simp_all

theorem and_or_left_self (a b : Nat) : a &&& (a ||| b) = a := by
  apply Nat.eq_of_testBit_eq
  intro i
  rw [Nat.testBit_and, Nat.testBit_or]
  cases a.testBit i <;> cases b.testBit i <;> rfl

theorem and_or_right_self (a b : Nat) : b &&& (a ||| b) = b := by
  apply Nat.eq_of_testBit_eq
  intro i
  rw [Nat.testBit_and, Nat.testBit_or]
  cases a.testBit i <;> cases b.testBit i <;> rfl

/-- C24: `numberOfMatchingHandlers(flag)` is the number of handlers of the list whose
ownership mask contains the flag, `(ownership & flag) == flag`, and the variants for the
domain and for the boundary count the handlers whose domain mask, respectively boundary
mask, contains it; if the ownership masks of the handlers are pairwise disjoint, each of
the three counts is 0 or 1 for every single-bit flag. -/
theorem numberOfMatchingHandlers_counts_containing_masks {σ : Type}
    (bhc : BoundaryHandlingCollection σ) (flag : flag_t) :
    bhc.numberOfMatchingHandlers flag =
      (bhc.boundaryHandlers.filter (fun h => decide (h.ownership &&& flag = flag))).length ∧
    bhc.numberOfMatchingHandlersForDomain flag =
      (bhc.boundaryHandlers.filter (fun h => decide (h.domainMask &&& flag = flag))).length ∧
    bhc.numberOfMatchingHandlersForBoundary flag =
      (bhc.boundaryHandlers.filter (fun h => decide (h.boundaryMask &&& flag = flag))).length ∧
    (bhc.boundaryHandlers.Pairwise (fun a b => a.ownership &&& b.ownership = 0) →
      ∀ k : Nat,
        (bhc.numberOfMatchingHandlers (1 <<< k) = 0 ∨
          bhc.numberOfMatchingHandlers (1 <<< k) = 1) ∧
        (bhc.numberOfMatchingHandlersForDomain (1 <<< k) = 0 ∨
          bhc.numberOfMatchingHandlersForDomain (1 <<< k) = 1) ∧
        (bhc.numberOfMatchingHandlersForBoundary (1 <<< k) = 0 ∨
          bhc.numberOfMatchingHandlersForBoundary (1 <<< k) = 1)) := by
  refine ⟨?_, ?_, ?_, ?_⟩
  · rw [← List.countP_eq_length_filter]
    exact Tuple.numberOfMatchingHandlers_eq_countP _ _
  · rw [← List.countP_eq_length_filter]
    exact Tuple.numberOfMatchingHandlersForDomain_eq_countP _ _
  · rw [← List.countP_eq_length_filter]
    exact Tuple.numberOfMatchingHandlersForBoundary_eq_countP _ _
  · intro hd k
    have h1 := countP_single_bit_le_one Handler.ownership k bhc.boundaryHandlers hd
    have h2 := countP_single_bit_le_one Handler.domainMask k bhc.boundaryHandlers
      (hd.imp (fun {a b} hab => and_eq_zero_of_sub a.ownership b.ownership _ _
        (and_or_right_self a.boundaryMask a.domainMask)
        (and_or_right_self b.boundaryMask b.domainMask) hab))
    have h3 := countP_single_bit_le_one Handler.boundaryMask k bhc.boundaryHandlers
      (hd.imp (fun {a b} hab => and_eq_zero_of_sub a.ownership b.ownership _ _
        (and_or_left_self a.boundaryMask a.domainMask)
        (and_or_left_self b.boundaryMask b.domainMask) hab))
    unfold BoundaryHandlingCollection.numberOfMatchingHandlers
      BoundaryHandlingCollection.numberOfMatchingHandlersForDomain
      BoundaryHandlingCollection.numberOfMatchingHandlersForBoundary
    rw [Tuple.numberOfMatchingHandlers_eq_countP, Tuple.numberOfMatchingHandlersForDomain_eq_countP,
      Tuple.numberOfMatchingHandlersForBoundary_eq_countP]
    omega

/-- C24, at an example: the ownership masks 3 and 4 of the two example handlers are
disjoint; the flag 2 (bit 1) is matched by one handler, as a domain flag and not as a
boundary flag, and the flag 8 (bit 3) by none. -/
theorem numberOfMatchingHandlers_counts_containing_masks_witness :
    exampleSender.numberOfMatchingHandlers 2 = 1 ∧
    exampleSender.numberOfMatchingHandlersForDomain 2 = 1 ∧
    exampleSender.numberOfMatchingHandlersForBoundary 2 = 0 ∧
    exampleSender.numberOfMatchingHandlers 8 = 0 ∧
    ((exampleSender.numberOfMatchingHandlers (1 <<< 1) = 0 ∨
        exampleSender.numberOfMatchingHandlers (1 <<< 1) = 1) ∧
      (exampleSender.numberOfMatchingHandlersForDomain (1 <<< 1) = 0 ∨
        exampleSender.numberOfMatchingHandlersForDomain (1 <<< 1) = 1) ∧
      (exampleSender.numberOfMatchingHandlersForBoundary (1 <<< 1) = 0 ∨
        exampleSender.numberOfMatchingHandlersForBoundary (1 <<< 1) = 1)) :=
  ⟨by decide, by decide, by decide, by decide,
   (numberOfMatchingHandlers_counts_containing_masks exampleSender 2).2.2.2
     (List.Pairwise.cons
       (fun b hb => by
         rw [List.mem_singleton.mp hb]
         decide)
       (List.Pairwise.cons (fun b hb => absurd hb (List.not_mem_nil b)) List.Pairwise.nil)) 1⟩

/-! ## Boundary treatment and its hooks -/

theorem Tuple.executeLayers_calls {σ : Type} (n : Nat) (hs : List (Handler σ)) (m : Mem) :
    (Tuple.executeLayers n hs m).2.calls =
      m.calls ++ hs.map (fun h => Call.executeLayers h.uid n) := by
  induction hs generalizing m with
  | nil => simp [Tuple.executeLayers]
  | cons h t ih =>
    simp only [Tuple.executeLayers, ih, Handler.invoke, List.map_cons, List.append_assoc,
      List.singleton_append]

theorem Tuple.executeCell_calls {σ : Type} (c : Cell) (hs : List (Handler σ)) (m : Mem) :
    (Tuple.executeCell c hs m).2.calls =
      m.calls ++ hs.map (fun h => Call.executeCell h.uid c) := by
  induction hs generalizing m with
  | nil => simp [Tuple.executeCell]
  | cons h t ih =>
    simp only [Tuple.executeCell, ih, Handler.invoke, List.map_cons, List.append_assoc,
      List.singleton_append]

theorem Tuple.executeRange_calls {σ : Type} (range : List Cell) (hs : List (Handler σ))
    (m : Mem) :
    (Tuple.executeRange range hs m).2.calls =
      m.calls ++ hs.map (fun h => Call.executeRange h.uid range) := by
  induction hs generalizing m with
  | nil => simp [Tuple.executeRange]
  | cons h t ih =>
    simp only [Tuple.executeRange, ih, Handler.invoke, List.map_cons, List.append_assoc,
      List.singleton_append]

theorem Tuple.beforeBoundaryTreatment_calls {σ : Type} (hs : List (Handler σ)) (m : Mem) :
    (Tuple.beforeBoundaryTreatment hs m).2.calls =
      m.calls ++ hs.map (fun h => Call.beforeBoundaryTreatment h.uid) := by
  induction hs generalizing m with
  | nil => simp [Tuple.beforeBoundaryTreatment]
  | cons h t ih =>
    simp only [Tuple.beforeBoundaryTreatment, ih, Handler.invoke, List.map_cons,
      List.append_assoc, List.singleton_append]

theorem Tuple.afterBoundaryTreatment_calls {σ : Type} (hs : List (Handler σ)) (m : Mem) :
    (Tuple.afterBoundaryTreatment hs m).2.calls =
      m.calls ++ hs.map (fun h => Call.afterBoundaryTreatment h.uid) := by
  induction hs generalizing m with
  | nil => simp [Tuple.afterBoundaryTreatment]
  | cons h t ih =>
    simp only [Tuple.afterBoundaryTreatment, ih, Handler.invoke, List.map_cons,
      List.append_assoc, List.singleton_append]

theorem Tuple.executeLayers_visitsEach {σ : Type} (n : Nat) :
    Tuple.VisitsEach (Tuple.executeLayers n) (fun (h : Handler σ) => h.executeLayers n)
      (fun h => Call.executeLayers h.uid n) :=
  Tuple.visitsEach_of_equations _ _ _ (fun _ => rfl) (fun _ _ _ => rfl)

theorem Tuple.executeCell_visitsEach {σ : Type} (c : Cell) :
    Tuple.VisitsEach (Tuple.executeCell c) (fun (h : Handler σ) => h.executeCell c)
      (fun h => Call.executeCell h.uid c) :=
  Tuple.visitsEach_of_equations _ _ _ (fun _ => rfl) (fun _ _ _ => rfl)

theorem Tuple.executeRange_visitsEach {σ : Type} (range : List Cell) :
    Tuple.VisitsEach (Tuple.executeRange range) (fun (h : Handler σ) => h.executeRange range)
      (fun h => Call.executeRange h.uid range) :=
  Tuple.visitsEach_of_equations _ _ _ (fun _ => rfl) (fun _ _ _ => rfl)

theorem Tuple.beforeBoundaryTreatment_visitsEach {σ : Type} :
    Tuple.VisitsEach Tuple.beforeBoundaryTreatment
      (fun (h : Handler σ) => h.beforeBoundaryTreatment)
      (fun h => Call.beforeBoundaryTreatment h.uid) :=
  Tuple.visitsEach_of_equations _ _ _ (fun _ => rfl) (fun _ _ _ => rfl)

theorem Tuple.afterBoundaryTreatment_visitsEach {σ : Type} :
    Tuple.VisitsEach Tuple.afterBoundaryTreatment
      (fun (h : Handler σ) => h.afterBoundaryTreatment)
      (fun h => Call.afterBoundaryTreatment h.uid) :=
  Tuple.visitsEach_of_equations _ _ _ (fun _ => rfl) (fun _ _ _ => rfl)

/-- C25: `beforeBoundaryTreatment()`, each overload of `operator()` and
`afterBoundaryTreatment()` run the corresponding operation of every handler exactly once,
in list order: the collection afterwards holds the handlers and the flag field that the
visit of the handler list leaves, a visit in which the operation of each handler runs on
the flag field left by the handlers before it and on its own state, and the results of
the operation are kept; `operator()` hands every handler the region it was given (the
number of ghost layers, the cell, the interval, or the iterator range) unchanged; and the
calls recorded are one per handler, in list order. -/
theorem treatment_invokes_every_handler_once_in_order {σ : Type}
    (bhc : BoundaryHandlingCollection σ) (n : Nat) (c : Cell) (cells : CellInterval)
    (range : List Cell) :
    (bhc.beforeBoundaryTreatment.calls =
      bhc.calls ++ bhc.boundaryHandlers.map (fun h => Call.beforeBoundaryTreatment h.uid) ∧
    (bhc.executeLayers n).calls =
      bhc.calls ++ bhc.boundaryHandlers.map (fun h => Call.executeLayers h.uid n) ∧
    (bhc.executeCell c).calls =
      bhc.calls ++ bhc.boundaryHandlers.map (fun h => Call.executeCell h.uid c) ∧
    (bhc.executeCells cells).calls =
      bhc.calls ++ bhc.boundaryHandlers.map (fun h => Call.execute h.uid cells) ∧
    (bhc.executeRange range).calls =
      bhc.calls ++ bhc.boundaryHandlers.map (fun h => Call.executeRange h.uid range) ∧
    bhc.afterBoundaryTreatment.calls =
      bhc.calls ++ bhc.boundaryHandlers.map (fun h => Call.afterBoundaryTreatment h.uid)) ∧
    (bhc.beforeBoundaryTreatment =
      bhc.store (Tuple.beforeBoundaryTreatment bhc.boundaryHandlers bhc.mem).1
        (Tuple.beforeBoundaryTreatment bhc.boundaryHandlers bhc.mem).2 ∧
    bhc.executeLayers n =
      bhc.store (Tuple.executeLayers n bhc.boundaryHandlers bhc.mem).1
        (Tuple.executeLayers n bhc.boundaryHandlers bhc.mem).2 ∧
    bhc.executeCell c =
      bhc.store (Tuple.executeCell c bhc.boundaryHandlers bhc.mem).1
        (Tuple.executeCell c bhc.boundaryHandlers bhc.mem).2 ∧
    bhc.executeCells cells =
      bhc.store (Tuple.execute cells bhc.boundaryHandlers bhc.mem).1
        (Tuple.execute cells bhc.boundaryHandlers bhc.mem).2 ∧
    bhc.executeRange range =
      bhc.store (Tuple.executeRange range bhc.boundaryHandlers bhc.mem).1
        (Tuple.executeRange range bhc.boundaryHandlers bhc.mem).2 ∧
    bhc.afterBoundaryTreatment =
      bhc.store (Tuple.afterBoundaryTreatment bhc.boundaryHandlers bhc.mem).1
        (Tuple.afterBoundaryTreatment bhc.boundaryHandlers bhc.mem).2) ∧
    (Tuple.VisitsEach Tuple.beforeBoundaryTreatment
      (fun (h : Handler σ) => h.beforeBoundaryTreatment)
      (fun h => Call.beforeBoundaryTreatment h.uid) ∧
    Tuple.VisitsEach (Tuple.executeLayers n) (fun (h : Handler σ) => h.executeLayers n)
      (fun h => Call.executeLayers h.uid n) ∧
    Tuple.VisitsEach (Tuple.executeCell c) (fun (h : Handler σ) => h.executeCell c)
      (fun h => Call.executeCell h.uid c) ∧
    Tuple.VisitsEach (Tuple.execute cells) (fun (h : Handler σ) => h.execute cells)
      (fun h => Call.execute h.uid cells) ∧
    Tuple.VisitsEach (Tuple.executeRange range) (fun (h : Handler σ) => h.executeRange range)
      (fun h => Call.executeRange h.uid range) ∧
    Tuple.VisitsEach Tuple.afterBoundaryTreatment
      (fun (h : Handler σ) => h.afterBoundaryTreatment)
      (fun h => Call.afterBoundaryTreatment h.uid)) :=
  ⟨⟨Tuple.beforeBoundaryTreatment_calls _ _, Tuple.executeLayers_calls n _ _,
    Tuple.executeCell_calls c _ _, Tuple.execute_calls cells _ _,
    Tuple.executeRange_calls range _ _, Tuple.afterBoundaryTreatment_calls _ _⟩,
   ⟨rfl, rfl, rfl, rfl, rfl, rfl⟩,
   ⟨Tuple.beforeBoundaryTreatment_visitsEach, Tuple.executeLayers_visitsEach n,
    Tuple.executeCell_visitsEach c, Tuple.execute_visitsEach cells,
    Tuple.executeRange_visitsEach range, Tuple.afterBoundaryTreatment_visitsEach⟩⟩

/-! ## Consistency check -/

theorem Tuple.checkConsistency_eq_all {σ : Type} (cells : CellInterval) (f : FlagData)
    (hs : List (Handler σ)) (calls : List Call) :
    (Tuple.checkConsistency cells f hs calls).1 =
      hs.all (fun h => h.checkConsistency cells f h.st) := by
  induction hs with
  | nil => rfl
  | cons h t ih =>
    rw [List.all_cons, ← ih]
    simp only [Tuple.checkConsistency]
    cases (Tuple.checkConsistency cells f t calls).1
    · simp
    · simp

theorem CellInterval.cells_eq_nil_iff (ci : CellInterval) :
    ci.cells = [] ↔ ci.empty = true := by
  constructor
  · intro hnil
    by_contra hne
    have hcon : ci.contains (Cell.mk ci.xMin ci.yMin ci.zMin) = true := by
      simp only [CellInterval.empty, Bool.or_eq_true, decide_eq_true_eq] at hne
      simp only [CellInterval.contains, Bool.and_eq_true, decide_eq_true_eq]
      omega
    have hmem := (ci.mem_cells _).mpr hcon
    rw [hnil] at hmem
    exact absurd hmem (List.not_mem_nil _)
  · exact ci.cells_of_empty

theorem BoundaryHandlingCollection.consideredByAllHandlersLoop_of_no_handler {σ : Type}
    (cs : List Cell) (bhc : BoundaryHandlingCollection σ) (hno : bhc.boundaryHandlers = []) :
    BoundaryHandlingCollection.consideredByAllHandlersLoop cs bhc = (true, bhc) := by
  induction cs with
  | nil => rfl
  | cons c t ih =>
    have e : bhc.consideredByAllHandlers c = (true, bhc) := by
      cases bhc with
      | mk flagField outerBB boundaryHandlers calls =>
        have hnil : boundaryHandlers = [] := hno
        subst hnil
        rfl
    simp only [BoundaryHandlingCollection.consideredByAllHandlersLoop, e, Bool.not_true,
      Bool.false_eq_true, if_false, ih]

theorem Tuple.consideredByAllHandlers_first_call {σ : Type} (c : Cell) (f : FlagData)
    (h : Handler σ) (t : List (Handler σ)) (calls : List Call) :
    ∃ more, (Tuple.consideredByAllHandlers c f (h :: t) calls).2 =
      calls ++ Call.isEmpty h.uid c :: more := by
  by_cases he : h.isEmpty c f h.st = true
  · exact ⟨[], by simp only [Tuple.consideredByAllHandlers, he, if_true]⟩
  · obtain ⟨new, hnew, _⟩ :=
      Tuple.consideredByAllHandlers_calls c f t (calls ++ [Call.isEmpty h.uid c])
    refine ⟨new, ?_⟩
    simp only [Tuple.consideredByAllHandlers, he, if_false, Bool.false_eq_true, hnew,
      List.append_assoc, List.singleton_append]

theorem BoundaryHandlingCollection.consideredByAllHandlersLoop_first_call {σ : Type}
    (c : Cell) (rest : List Cell) (bhc : BoundaryHandlingCollection σ) (h : Handler σ)
    (t : List (Handler σ)) (hhs : bhc.boundaryHandlers = h :: t) :
    ∃ more, (BoundaryHandlingCollection.consideredByAllHandlersLoop (c :: rest) bhc).2.calls =
      bhc.calls ++ Call.isEmpty h.uid c :: more := by
  obtain ⟨m1, h1⟩ :=
    Tuple.consideredByAllHandlers_first_call c bhc.flagField.data h t bhc.calls
  have hc : (bhc.consideredByAllHandlers c).2.calls =
      bhc.calls ++ Call.isEmpty h.uid c :: m1 := by
    simp only [BoundaryHandlingCollection.consideredByAllHandlers, hhs, h1]
  by_cases hr : (bhc.consideredByAllHandlers c).1 = true
  · obtain ⟨n2, h2, _⟩ :=
      BoundaryHandlingCollection.consideredByAllHandlersLoop_calls rest
        (bhc.consideredByAllHandlers c).2
    refine ⟨m1 ++ n2, ?_⟩
    simp only [BoundaryHandlingCollection.consideredByAllHandlersLoop, hr, Bool.not_true,
      Bool.false_eq_true, if_false, h2, hc, List.append_assoc, List.cons_append]
  · have hr1 : (bhc.consideredByAllHandlers c).1 = false := by
      cases hb : (bhc.consideredByAllHandlers c).1
      · rfl
      · exact absurd hb hr
    refine ⟨m1, ?_⟩
    simp only [BoundaryHandlingCollection.consideredByAllHandlersLoop, hr1, Bool.not_false,
      if_true, hc]

/-- C9, refuted as stated: `outsideInterval` lies entirely outside the bounding box (its
intersection with it is empty), yet `consideredByAllHandlers` on it consults a handler
for the cell `(5,0,0)` outside the box and returns false, where it returns true on the
empty intersection; `checkConsistency` on it returns false for a handler that accepts the
empty interval only; and `checkConsistency`, `refresh` and `operator()` on
`exampleInterval`, which sticks out of the box, hand the handlers `exampleInterval` itself
and not the clipped interval: the handler that stores the number of cells it is handed
holds 4 afterwards, the size of `exampleInterval`, while the clipped interval has one
cell. -/
theorem interval_queries_do_not_clip :
    (exampleBB.intersect outsideInterval).empty = true ∧
    exampleBB.contains (Cell.mk 5 0 0) = false ∧
    ((exampleCollectionWith [handlerA, handlerB] exampleData).consideredByAllHandlersCells
      outsideInterval).2.calls = [Call.isEmpty 1 (Cell.mk 5 0 0)] ∧
    exampleBB.intersect exampleInterval ≠ exampleInterval ∧
    ((exampleCollectionWith [handlerA, handlerB] exampleData).checkConsistencyCells
      exampleInterval).2.calls =
      [Call.checkConsistency 2 exampleInterval, Call.checkConsistency 1 exampleInterval] ∧
    ((exampleCollectionWith [handlerA, handlerB] exampleData).refreshCells
      exampleInterval).calls =
      [Call.refresh 1 exampleInterval, Call.refresh 2 exampleInterval] ∧
    ((exampleCollectionWith [handlerA, handlerB] exampleData).executeCells
      exampleInterval).calls =
      [Call.execute 1 exampleInterval, Call.execute 2 exampleInterval] ∧
    ((exampleCollectionWith [handlerA, handlerB] exampleData).consideredByAllHandlersCells
      outsideInterval).1 = false ∧
    ((exampleCollectionWith [handlerA, handlerB] exampleData).consideredByAllHandlersCells
      (exampleBB.intersect outsideInterval)).1 = true ∧
    ((exampleCollectionWith [intervalRecorder] exampleData).checkConsistencyCells
      outsideInterval).1 = false ∧
    ((exampleCollectionWith [intervalRecorder] exampleData).checkConsistencyCells
      (exampleBB.intersect outsideInterval)).1 = true ∧
    (exampleBB.intersect exampleInterval).cells.length = 1 ∧
    exampleInterval.cells.length = 4 ∧
    ((exampleCollectionWith [intervalRecorder] exampleData).refreshCells
      exampleInterval).boundaryHandlers.map Handler.st = [4] ∧
    ((exampleCollectionWith [intervalRecorder] exampleData).executeCells
      exampleInterval).boundaryHandlers.map Handler.st = [4] := by
  decide

/-- C9, amended: the interval-taking query and treatment operations use the interval
as given, without clipping.  `consideredByAllHandlers(interval)` returns whether every
handler reports every cell of the interval itself as not empty and changes nothing but
the record of the calls; it consults the handlers only for cells of the interval itself
(hence, when the interval is contained in the outer bounding box, as the debug assertion
demands, only for cells of the box); it consults no handler exactly when the interval is
empty or the list of handlers is empty, and then it returns true; for any other interval
it asks the first handler about the first cell of the interval.
`checkConsistency(interval)` returns the conjunction of the `checkConsistency` of the
handlers on the interval unchanged and changes nothing but the record of the calls;
`refresh(interval)` and `operator()(interval)` run the `refresh`, respectively the
`operator()`, of every handler once, in list order, on the interval unchanged, and keep
the flag field and the state every handler returns. -/
theorem interval_queries_use_the_interval_as_given {σ : Type}
    (bhc : BoundaryHandlingCollection σ) (cells : CellInterval) :
    (∃ new, (bhc.consideredByAllHandlersCells cells).2.calls = bhc.calls ++ new ∧
      (∀ call ∈ new, ∃ uid c, call = Call.isEmpty uid c ∧ cells.contains c = true) ∧
      ((∀ c, cells.contains c = true → bhc.outerBB.contains c = true) →
        ∀ call ∈ new, ∃ uid c, call = Call.isEmpty uid c ∧ bhc.outerBB.contains c = true)) ∧
    (cells.empty = true → bhc.consideredByAllHandlersCells cells = (true, bhc)) ∧
    (∃ new, (bhc.checkConsistencyCells cells).2.calls = bhc.calls ++ new ∧
      ∀ call ∈ new, ∃ uid, call = Call.checkConsistency uid cells) ∧
    (bhc.refreshCells cells).calls =
      bhc.calls ++ bhc.boundaryHandlers.map (fun h => Call.refresh h.uid cells) ∧
    (bhc.executeCells cells).calls =
      bhc.calls ++ bhc.boundaryHandlers.map (fun h => Call.execute h.uid cells) ∧
    ((bhc.consideredByAllHandlersCells cells).1 =
        cells.cells.all (fun c =>
          bhc.boundaryHandlers.all (fun h => !h.isEmpty c bhc.flagField.data h.st)) ∧
      (∀ c, c ∈ cells.cells ↔ cells.contains c = true) ∧
      (bhc.consideredByAllHandlersCells cells).2 =
        { bhc with calls := (bhc.consideredByAllHandlersCells cells).2.calls }) ∧
    (((bhc.consideredByAllHandlersCells cells).2.calls = bhc.calls ↔
        (cells.empty = true ∨ bhc.boundaryHandlers = [])) ∧
      (cells.empty = true ∨ bhc.boundaryHandlers = [] →
        bhc.consideredByAllHandlersCells cells = (true, bhc)) ∧
      (∀ (c : Cell) (rest : List Cell) (h : Handler σ) (t : List (Handler σ)),
        cells.cells = c :: rest → bhc.boundaryHandlers = h :: t →
        ∃ more, (bhc.consideredByAllHandlersCells cells).2.calls =
          bhc.calls ++ Call.isEmpty h.uid c :: more)) ∧
    ((bhc.checkConsistencyCells cells).1 =
        bhc.boundaryHandlers.all (fun h => h.checkConsistency cells bhc.flagField.data h.st) ∧
      (bhc.checkConsistencyCells cells).2 =
        { bhc with calls := (bhc.checkConsistencyCells cells).2.calls }) ∧
    (bhc.refreshCells cells =
        bhc.store (Tuple.refresh cells bhc.boundaryHandlers bhc.mem).1
          (Tuple.refresh cells bhc.boundaryHandlers bhc.mem).2 ∧
      bhc.executeCells cells =
        bhc.store (Tuple.execute cells bhc.boundaryHandlers bhc.mem).1
          (Tuple.execute cells bhc.boundaryHandlers bhc.mem).2) ∧
    (Tuple.VisitsEach (Tuple.refresh cells) (fun (h : Handler σ) => h.refresh cells)
        (fun h => Call.refresh h.uid cells) ∧
      Tuple.VisitsEach (Tuple.execute cells) (fun (h : Handler σ) => h.execute cells)
        (fun h => Call.execute h.uid cells)) := by
  have hempty : cells.empty = true → bhc.consideredByAllHandlersCells cells = (true, bhc) := by
    intro he
    simp only [BoundaryHandlingCollection.consideredByAllHandlersCells,
      CellInterval.cells_of_empty cells he,
      BoundaryHandlingCollection.consideredByAllHandlersLoop]
  have hnoop : cells.empty = true ∨ bhc.boundaryHandlers = [] →
      bhc.consideredByAllHandlersCells cells = (true, bhc) := by
    rintro (he | hno)
    · exact hempty he
    · exact BoundaryHandlingCollection.consideredByAllHandlersLoop_of_no_handler _ bhc hno
  have hfirst : ∀ (c : Cell) (rest : List Cell) (h : Handler σ) (t : List (Handler σ)),
      cells.cells = c :: rest → bhc.boundaryHandlers = h :: t →
      ∃ more, (bhc.consideredByAllHandlersCells cells).2.calls =
        bhc.calls ++ Call.isEmpty h.uid c :: more := by
    intro c rest h t hcs hhs
    have := BoundaryHandlingCollection.consideredByAllHandlersLoop_first_call c rest bhc h t hhs
    rw [← hcs] at this
    exact this
  have hframe : ∀ (cs : List Cell) (b : BoundaryHandlingCollection σ),
      (BoundaryHandlingCollection.consideredByAllHandlersLoop cs b).2 =
        { b with calls := (BoundaryHandlingCollection.consideredByAllHandlersLoop cs b).2.calls } := by
    intro cs
    induction cs with
    | nil => intro b; rfl
    | cons c t ih =>
      intro b
      by_cases hr : (b.consideredByAllHandlers c).1 = true
      · have e : BoundaryHandlingCollection.consideredByAllHandlersLoop (c :: t) b =
            BoundaryHandlingCollection.consideredByAllHandlersLoop t
              (b.consideredByAllHandlers c).2 := by
          simp only [BoundaryHandlingCollection.consideredByAllHandlersLoop, hr, Bool.not_true,
            Bool.false_eq_true, if_false]
        rw [e, ih]
        rfl
      · have hr1 : (b.consideredByAllHandlers c).1 = false := by
          cases hb : (b.consideredByAllHandlers c).1
          · rfl
          · exact absurd hb hr
        have e : BoundaryHandlingCollection.consideredByAllHandlersLoop (c :: t) b =
            (false, (b.consideredByAllHandlers c).2) := by
          simp only [BoundaryHandlingCollection.consideredByAllHandlersLoop, hr1, Bool.not_false,
            if_true]
        rw [e]
        rfl
  refine ⟨?_, hempty, ?_, ?_, ?_, ⟨?_, fun c => cells.mem_cells c, hframe cells.cells bhc⟩,
    ⟨?_, hnoop, hfirst⟩, ⟨Tuple.checkConsistency_eq_all cells _ _ _, rfl⟩, ⟨rfl, rfl⟩,
    ⟨Tuple.refresh_visitsEach cells, Tuple.execute_visitsEach cells⟩⟩
  · obtain ⟨new, hnew, hall⟩ :=
      BoundaryHandlingCollection.consideredByAllHandlersLoop_calls cells.cells bhc
    have hin : ∀ call ∈ new, ∃ uid c, call = Call.isEmpty uid c ∧ cells.contains c = true := by
      intro call hcall
      obtain ⟨uid, c, hc, hmem⟩ := hall call hcall
      exact ⟨uid, c, hc, (cells.mem_cells c).mp hmem⟩
    refine ⟨new, hnew, hin, ?_⟩
    intro hsub call hcall
    obtain ⟨uid, c, hc, hcon⟩ := hin call hcall
    exact ⟨uid, c, hc, hsub c hcon⟩
  · exact Tuple.checkConsistency_calls cells _ _ _
  · exact Tuple.refresh_calls cells _ _
  · exact Tuple.execute_calls cells _ _
  · show (BoundaryHandlingCollection.consideredByAllHandlersLoop cells.cells bhc).1 = _
    rw [BoundaryHandlingCollection.consideredByAllHandlersLoop_eq_all]
    simp only [BoundaryHandlingCollection.considered_eq_all]
  · constructor
    · intro hcalls
      by_contra hcon
      rw [not_or] at hcon
      obtain ⟨hne, hhs⟩ := hcon
      have hcs : cells.cells ≠ [] := fun e => hne ((cells.cells_eq_nil_iff).mp e)
      obtain ⟨c, rest, hc⟩ := List.exists_cons_of_ne_nil hcs
      obtain ⟨h, t, hh⟩ := List.exists_cons_of_ne_nil hhs
      obtain ⟨more, hmore⟩ := hfirst c rest h t hc hh
      rw [hcalls] at hmore
      have hlen := congrArg List.length hmore
      simp only [List.length_append, List.length_cons] at hlen
      omega
    · intro h
      rw [hnoop h]

/-- C9 amended, at an example: the interval `x = 0..1` inside the box; the first cell is
considered by both handlers, the second by none, and only these two cells are asked
about, so the answer is false; the empty interval asks nothing and gives true; and on
`exampleInterval`, which sticks out of the box, `refresh` and `operator()` hand the
handler all four cells of it. -/
theorem interval_queries_use_the_interval_as_given_witness :
    ((exampleCollectionWith [handlerA, handlerB] exampleData).consideredByAllHandlersCells
      (CellInterval.mk 0 0 0 1 0 0)).2.calls =
      [Call.isEmpty 1 (Cell.mk 0 0 0), Call.isEmpty 2 (Cell.mk 0 0 0),
       Call.isEmpty 1 (Cell.mk 1 0 0)] ∧
    (exampleCollectionWith [handlerA, handlerB] exampleData).consideredByAllHandlersCells
      (CellInterval.mk 0 0 0 (-1) 0 0) =
      (true, exampleCollectionWith [handlerA, handlerB] exampleData) ∧
    ((exampleCollectionWith [handlerA, handlerB] exampleData).consideredByAllHandlersCells
      (CellInterval.mk 0 0 0 1 0 0)).1 = false ∧
    ((exampleCollectionWith [intervalRecorder] exampleData).refreshCells
      exampleInterval).boundaryHandlers.map Handler.st = [4] ∧
    ((exampleCollectionWith [intervalRecorder] exampleData).executeCells
      exampleInterval).boundaryHandlers.map Handler.st = [4] :=
  ⟨by decide,
   (interval_queries_use_the_interval_as_given
      (exampleCollectionWith [handlerA, handlerB] exampleData)
      (CellInterval.mk 0 0 0 (-1) 0 0)).2.1 (by decide),
   by decide, by decide, by decide⟩

/-- C26: `checkConsistency(region)`, for an interval and for a number of ghost layers,
returns true if and only if every handler of the list reports consistency for the region;
it is the logical AND of the handlers' results, true for a collection without handlers,
and the same for every order of the handlers. -/
theorem checkConsistency_is_conjunction {σ : Type} (bhc : BoundaryHandlingCollection σ)
    (cells : CellInterval) (n : Nat) :
    ((bhc.checkConsistencyCells cells).1 = true ↔
      ∀ h ∈ bhc.boundaryHandlers, h.checkConsistency cells bhc.flagField.data h.st = true) ∧
    (bhc.checkConsistencyCells cells).1 =
      bhc.boundaryHandlers.foldr
        (fun h rest => h.checkConsistency cells bhc.flagField.data h.st && rest) true ∧
    (bhc.boundaryHandlers = [] → (bhc.checkConsistencyCells cells).1 = true) ∧
    (∀ hs, bhc.boundaryHandlers.Perm hs →
      ((BoundaryHandlingCollection.mk bhc.flagField bhc.outerBB hs
        bhc.calls).checkConsistencyCells cells).1 = (bhc.checkConsistencyCells cells).1) ∧
    ((bhc.checkConsistencyLayers n).1 = true ↔
      ∀ h ∈ bhc.boundaryHandlers,
        h.checkConsistency (bhc.getGhostLayerCellInterval n) bhc.flagField.data h.st = true) := by
  have hall : ∀ (region : CellInterval) (hs : List (Handler σ)),
      ((BoundaryHandlingCollection.mk bhc.flagField bhc.outerBB hs
        bhc.calls).checkConsistencyCells region).1 =
      hs.all (fun h => h.checkConsistency region bhc.flagField.data h.st) := by
    intro region hs
    exact Tuple.checkConsistency_eq_all region _ hs _
  have hself : ∀ region : CellInterval, (bhc.checkConsistencyCells region).1 =
      bhc.boundaryHandlers.all (fun h => h.checkConsistency region bhc.flagField.data h.st) :=
    fun region => Tuple.checkConsistency_eq_all region _ _ _
  refine ⟨?_, ?_, ?_, ?_, ?_⟩
  · rw [hself, List.all_eq_true]
  · rw [hself]
    generalize bhc.boundaryHandlers = hs
    induction hs with
    | nil => rfl
    | cons a t ih => rw [List.all_cons, List.foldr_cons, ih]
  · intro he
    rw [hself, he]
    rfl
  · intro hs hperm
    rw [hall, hself, Bool.eq_iff_iff, List.all_eq_true, List.all_eq_true]
    constructor
    · intro h x hx
      exact h x (hperm.mem_iff.mp hx)
    · intro h x hx
      exact h x (hperm.mem_iff.mpr hx)
  · unfold BoundaryHandlingCollection.checkConsistencyLayers
    simp only
    rw [hself, List.all_eq_true]

/-- C26, at an example: a handler that reports an inconsistency makes the check fail
wherever it stands in the list, and the check of a collection without handlers
succeeds. -/
theorem checkConsistency_is_conjunction_witness :
    ((exampleCollection [handlerA, handlerE]).checkConsistencyCells exampleInterval).1 = false ∧
    ((exampleCollection [handlerE, handlerA]).checkConsistencyCells exampleInterval).1 = false ∧
    ((exampleCollection [handlerA, handlerB]).checkConsistencyCells exampleInterval).1 = true ∧
    ((exampleCollection ([] : List (Handler Nat))).checkConsistencyCells exampleInterval).1 =
      true :=
  ⟨by decide,
   ((checkConsistency_is_conjunction (exampleCollection [handlerA, handlerE]) exampleInterval
      0).2.2.2.1 [handlerE, handlerA] (List.Perm.swap _ _ _)).trans (by decide),
   by decide,
   (checkConsistency_is_conjunction (exampleCollection ([] : List (Handler Nat)))
      exampleInterval 0).2.2.1 rfl⟩

/-! ## Comparison of collections -/

/-- C27, refuted as stated: in a build without `NDEBUG` the comparison of a collection
with itself does not report false and the inequality does not report true: both stop on
`WALBERLA_ASSERT( false )`. -/
theorem comparison_stops_in_debug_build :
    BoundaryHandlingCollection.operatorEq false exampleSender exampleSender =
      Except.error Abort.assertionFailed ∧
    BoundaryHandlingCollection.operatorNe false exampleSender exampleSender =
      Except.error Abort.assertionFailed ∧
    BoundaryHandlingCollection.operatorEq false exampleSender exampleSender ≠ Except.ok false ∧
    BoundaryHandlingCollection.operatorNe false exampleSender exampleSender ≠ Except.ok true :=
  ⟨rfl, rfl, (fun h => by cases h), (fun h => by cases h)⟩

/-- C27, amended: in a build with `NDEBUG`, for every two collections `a` and `b`
(including `a` compared with itself) `a == b` reports false and `a != b` reports true; in
a build without `NDEBUG` both comparisons stop on the assertion; in no build does either
of them report two collections as equal. -/
theorem comparison_never_reports_equal {σ : Type} (NDEBUG : Bool)
    (a b : BoundaryHandlingCollection σ) :
    BoundaryHandlingCollection.operatorEq NDEBUG a b =
      (if NDEBUG then Except.ok false else Except.error Abort.assertionFailed) ∧
    BoundaryHandlingCollection.operatorNe NDEBUG a b =
      (if NDEBUG then Except.ok true else Except.error Abort.assertionFailed) ∧
    BoundaryHandlingCollection.operatorEq true a a = Except.ok false ∧
    BoundaryHandlingCollection.operatorNe true a a = Except.ok true ∧
    BoundaryHandlingCollection.operatorEq NDEBUG a b ≠ Except.ok true ∧
    BoundaryHandlingCollection.operatorNe NDEBUG a b ≠ Except.ok false := by
  cases NDEBUG
  · exact ⟨rfl, rfl, rfl, rfl, (fun h => by cases h), (fun h => by cases h)⟩
  · exact ⟨rfl, rfl, rfl, rfl, (fun h => by cases h), (fun h => by cases h)⟩

/-! ## The mask of the flags to remove -/

theorem Tuple.flagsToRemove_eq_union {σ : Type} (flag : flag_t) (c : Cell) (f : FlagData)
    (hs : List (Handler σ)) :
    Tuple.flagsToRemove flag c f hs =
      f c &&& ownershipUnion (hs.filter (fun h => h.owns flag)) := by
  induction hs with
  | nil => exact (Nat.and_zero _).symm
  | cons h t ih =>
    by_cases ho : h.owns flag = true
    · simp only [Tuple.flagsToRemove, List.filter_cons, ho, if_true, ownershipUnion, ih]
      rw [Nat.land_comm h.ownership (f c), and_or_and]
    · simp only [Tuple.flagsToRemove, List.filter_cons, ho, if_false, Bool.false_eq_true, ih,
        Nat.zero_or]

theorem and_and_self_left (a m : Nat) : (a &&& m) &&& a = a &&& m := by
  apply Nat.eq_of_testBit_eq
  intro i
  simp only [Nat.testBit_and]
  cases a.testBit i <;> cases m.testBit i <;> rfl

/-- C28: for every flag, cell, flag field contents and handler list, the mask computed by
`flagsToRemove(flag, cell)` is the mask of the cell AND-ed with the union of the ownership
masks of exactly the handlers whose ownership mask contains the flag; it is 0 when no
handler owns the flag, and all its bits are set at the cell. -/
theorem flagsToRemove_is_mask_within_owner_union {σ : Type} (flag : flag_t) (c : Cell)
    (f : FlagData) (hs : List (Handler σ)) :
    Tuple.flagsToRemove flag c f hs =
      f c &&& ownershipUnion (hs.filter (fun h => decide (h.ownership &&& flag = flag))) ∧
    ((∀ h ∈ hs, h.ownership &&& flag ≠ flag) → Tuple.flagsToRemove flag c f hs = 0) ∧
    Tuple.flagsToRemove flag c f hs &&& f c = Tuple.flagsToRemove flag c f hs ∧
    (∀ i, (Tuple.flagsToRemove flag c f hs).testBit i = true ↔
      (f c).testBit i = true ∧
        ∃ h ∈ hs, h.ownership &&& flag = flag ∧ h.ownership.testBit i = true) := by
  have hfilter : hs.filter (fun h => decide (h.ownership &&& flag = flag)) =
      hs.filter (fun h => h.owns flag) := by
    apply List.filter_congr
    intro h _
    show decide (h.ownership &&& flag = flag) = (h.ownership &&& flag == flag)
    by_cases e : h.ownership &&& flag = flag
    · rw [e]
      simp
    · simp [e]
  have heq := Tuple.flagsToRemove_eq_union flag c f hs
  refine ⟨?_, ?_, ?_, ?_⟩
  · rw [hfilter]
    exact heq
  · intro hno
    have hnil : hs.filter (fun h => h.owns flag) = [] := by
      rw [List.filter_eq_nil_iff]
      intro h hh
      simpa [Handler.owns] using hno h hh
    rw [heq, hnil]
    exact Nat.and_zero _
  · rw [heq]
    exact and_and_self_left _ _
  · intro i
    rw [Tuple.testBit_flagsToRemove]
    constructor
    · rintro ⟨h, hh, ho, hb, hf⟩
      exact ⟨hf, h, hh, by simpa [Handler.owns] using ho, hb⟩
    · rintro ⟨hf, h, hh, ho, hb⟩
      exact ⟨h, hh, by simpa [Handler.owns] using ho, hb, hf⟩

/-- C28, at an example: the cell holds the mask 13; the flag 1 is owned by the first
handler only (ownership mask 3), so the mask to remove is 13 & 3 = 1; the flag 8 is owned
by no handler and the mask to remove is 0. -/
theorem flagsToRemove_is_mask_within_owner_union_witness :
    Tuple.flagsToRemove 1 originCell exampleData [handlerA, handlerB] = 1 ∧
    Tuple.flagsToRemove 8 originCell exampleData [handlerA, handlerB] = 0 :=
  ⟨by decide,
   (flagsToRemove_is_mask_within_owner_union 8 originCell exampleData
      [handlerA, handlerB]).2.1
     (by
       intro h hh
       have hcases : h = handlerA ∨ h = handlerB := by simpa using hh
       rcases hcases with rfl | rfl <;> decide)⟩

/-! ## What the handlers see during clear -/

theorem Tuple.clear_append {σ : Type} (c : Cell) (pre post : List (Handler σ)) (m : Mem) :
    Tuple.clear c (pre ++ post) m =
      ((Tuple.clear c pre m).1 ++ (Tuple.clear c post (Tuple.clear c pre m).2.1).1,
       (Tuple.clear c post (Tuple.clear c pre m).2.1).2.1,
       (Tuple.clear c pre m).2.2 ||| (Tuple.clear c post (Tuple.clear c pre m).2.1).2.2) := by
  induction pre generalizing m with
  | nil => simp [Tuple.clear]
  | cons h t ih =>
    rw [List.cons_append]
    simp only [Tuple.clear]
    rw [ih]
    simp only [List.cons_append, Nat.lor_assoc]

theorem Tuple.clear_keeps_mask_at_cell {σ : Type} (c : Cell) (hs : List (Handler σ))
    (hcl : ∀ k ∈ hs, k.ClearSetsNoBit c) (m : Mem) :
    (Tuple.clear c hs m).2.1.flags c = m.flags c := by
  induction hs generalizing m with
  | nil => rfl
  | cons h t ih =>
    have hh := hcl h (List.mem_cons_self h t)
    have ht : ∀ k ∈ t, k.ClearSetsNoBit c := fun k hk => hcl k (List.mem_cons_of_mem h hk)
    simp only [Tuple.clear]
    rw [ih ht]
    simp only [Handler.invoke, FlagData.addMask, FlagData.set_same]
    exact sub_or_self _ _ (hh m.flags h.st)

/-- C29, refuted as stated: the cell holds the mask 13 before `clear(cell)`; the clear of
the first handler sets the bit 32 at the cell, and the clear of the second handler is run
on a flag field with the mask 45 at the cell, not 13: the helper puts back the bits of the
mask from before the call, and does not take away a bit that the call has set. -/
theorem clear_shows_later_handlers_the_bits_set_by_earlier_ones :
    (exampleCollectionWith [bitSettingHandler, maskRecorder] exampleData).flagField.data
      originCell = 13 ∧
    exampleBB.contains originCell = true ∧
    (exampleCollectionWith [bitSettingHandler, maskRecorder] exampleData).boundaryHandlers.map
      Handler.st = [0, 0] ∧
    ((exampleCollectionWith [bitSettingHandler, maskRecorder] exampleData).clear
      originCell).boundaryHandlers.map Handler.st = [1, 45] ∧
    (Tuple.clear originCell [bitSettingHandler]
      (exampleCollectionWith [bitSettingHandler, maskRecorder] exampleData).mem).2.1.flags
      originCell = 45 ∧
    ((exampleCollectionWith [bitSettingHandler, maskRecorder] exampleData).clear
      originCell).calls = [Call.clear 1 originCell, Call.clear 2 originCell] := by
  decide

/-- C29, amended: during `clear(cell)` the clear of every handler, whatever its position
in the list, is invoked on a flag field whose mask at the cell is the mask the cell had
before `clear(cell)` was called, given that the clear of each handler ahead of it sets no
bit at the cell: the helper, having visited the handlers `pre` ahead of `h`, stands at a memory
`m` with that mask at the cell, and continues the visit from `m` by calling the clear of
`h` on the flag field of `m`. -/
theorem clear_hands_every_handler_the_initial_mask {σ : Type}
    (bhc : BoundaryHandlingCollection σ) (c : Cell) (pre post : List (Handler σ))
    (h : Handler σ) (hhs : bhc.boundaryHandlers = pre ++ h :: post)
    (hcl : ∀ k ∈ pre, k.ClearSetsNoBit c) :
    ∃ (visited : List (Handler σ)) (m : Mem) (removed : flag_t),
      Tuple.clear c pre bhc.mem = (visited, m, removed) ∧
      Tuple.clear c bhc.boundaryHandlers bhc.mem =
        (visited ++ (Tuple.clear c (h :: post) m).1, (Tuple.clear c (h :: post) m).2.1,
          removed ||| (Tuple.clear c (h :: post) m).2.2) ∧
      (Tuple.clear c (h :: post) m).1.head? =
        some { h with st := (h.clear c m.flags h.st).2 } ∧
      m.flags c = bhc.flagField.data c := by
  refine ⟨(Tuple.clear c pre bhc.mem).1, (Tuple.clear c pre bhc.mem).2.1,
    (Tuple.clear c pre bhc.mem).2.2, rfl, ?_, rfl, ?_⟩
  · rw [hhs]
    exact Tuple.clear_append c pre (h :: post) bhc.mem
  · exact Tuple.clear_keeps_mask_at_cell c pre hcl bhc.mem

/-- C29 amended, at an example: the cell holds the mask 13; the first handler removes its
bit 1, and the second handler is still called on a flag field with the mask 13 at the
cell. -/
theorem clear_hands_every_handler_the_initial_mask_witness :
    ∃ (visited : List (Handler Nat)) (m : Mem) (removed : flag_t),
      Tuple.clear originCell [handlerA] exampleSender.mem = (visited, m, removed) ∧
      Tuple.clear originCell exampleSender.boundaryHandlers exampleSender.mem =
        (visited ++ (Tuple.clear originCell [handlerB] m).1,
          (Tuple.clear originCell [handlerB] m).2.1,
          removed ||| (Tuple.clear originCell [handlerB] m).2.2) ∧
      (Tuple.clear originCell [handlerB] m).1.head? =
        some { handlerB with st := (handlerB.clear originCell m.flags handlerB.st).2 } ∧
      m.flags originCell = 13 :=
  clear_hands_every_handler_the_initial_mask exampleSender originCell [handlerA] [] handlerB rfl
    (by
      intro k hk
      rw [List.mem_singleton.mp hk]
      exact fun f st => (plainHandler_clearOnlyRemoves _ _ _ _ _ _ originCell f st).2)

/-! ## The scan order of pack and unpack -/

theorem CellInterval.loopRange_increasing (lo hi : Int) :
    (CellInterval.loopRange lo hi).Pairwise (fun a b => a < b) := by
  unfold CellInterval.loopRange
  rw [List.pairwise_map]
  exact (List.pairwise_lt_range _).imp (fun {a b} hab => by omega)

theorem CellInterval.cells_scan_order (ci : CellInterval) :
    ci.cells.Pairwise Cell.scansBefore := by
  unfold CellInterval.cells
  rw [List.pairwise_flatMap]
  constructor
  · intro z _
    rw [List.pairwise_flatMap]
    constructor
    · intro y _
      rw [List.pairwise_map]
      exact (CellInterval.loopRange_increasing _ _).imp
        (fun {a b} hab => Or.inr ⟨rfl, Or.inr ⟨rfl, hab⟩⟩)
    · exact (CellInterval.loopRange_increasing _ _).imp (fun {a b} hab => by
        intro p hp q hq
        obtain ⟨x1, _, rfl⟩ := List.mem_map.mp hp
        obtain ⟨x2, _, rfl⟩ := List.mem_map.mp hq
        exact Or.inr ⟨rfl, Or.inl hab⟩)
  · exact (CellInterval.loopRange_increasing _ _).imp (fun {a b} hab => by
      intro p hp q hq
      obtain ⟨y1, _, hp1⟩ := List.mem_flatMap.mp hp
      obtain ⟨x1, _, rfl⟩ := List.mem_map.mp hp1
      obtain ⟨y2, _, hq1⟩ := List.mem_flatMap.mp hq
      obtain ⟨x2, _, rfl⟩ := List.mem_map.mp hq1
      exact Or.inl hab)

/-- C25, at an example: the treatment of an interval and the two hooks run the operation
of the first and then of the second example handler, each once (the state of an example
handler counts the operations it has run), and the interval arrives unchanged. -/
theorem treatment_invokes_every_handler_once_in_order_witness :
    exampleSender.beforeBoundaryTreatment.calls =
      [Call.beforeBoundaryTreatment 1, Call.beforeBoundaryTreatment 2] ∧
    (exampleSender.executeCells exampleInterval).calls =
      [Call.execute 1 exampleInterval, Call.execute 2 exampleInterval] ∧
    exampleSender.afterBoundaryTreatment.calls =
      [Call.afterBoundaryTreatment 1, Call.afterBoundaryTreatment 2] ∧
    exampleSender.boundaryHandlers.map Handler.st = [0, 0] ∧
    exampleSender.beforeBoundaryTreatment.boundaryHandlers.map Handler.st = [1, 1] ∧
    (exampleSender.executeCells exampleInterval).boundaryHandlers.map Handler.st = [1, 1] ∧
    ((exampleSender.beforeBoundaryTreatment.executeCells
      exampleInterval).afterBoundaryTreatment).boundaryHandlers.map Handler.st = [3, 3] ∧
    Tuple.execute exampleInterval [handlerA, handlerB] exampleSender.mem =
      ([{ handlerA with st := 1 }, { handlerB with st := 1 }],
       { flags := exampleData,
         calls := [Call.execute 1 exampleInterval, Call.execute 2 exampleInterval] }) :=
  ⟨(treatment_invokes_every_handler_once_in_order exampleSender 0 originCell exampleInterval
      []).1.1,
   (treatment_invokes_every_handler_once_in_order exampleSender 0 originCell exampleInterval
      []).1.2.2.2.1,
   (treatment_invokes_every_handler_once_in_order exampleSender 0 originCell exampleInterval
      []).1.2.2.2.2.2,
   by decide, by decide, by decide, by decide,
   ((treatment_invokes_every_handler_once_in_order exampleSender 0 originCell exampleInterval
      []).2.2.2.2.2.1.2 [] handlerA [handlerB] exampleSender.mem).trans rfl⟩

/-- C27 amended, at an example: in a build with `NDEBUG` the sender compared with itself
is reported as not equal, and so is the sender compared with the receiver. -/
theorem comparison_never_reports_equal_witness :
    BoundaryHandlingCollection.operatorEq true exampleSender exampleSender = Except.ok false ∧
    BoundaryHandlingCollection.operatorNe true exampleSender exampleReceiver = Except.ok true :=
  ⟨(comparison_never_reports_equal true exampleSender exampleSender).1,
   (comparison_never_reports_equal true exampleSender exampleReceiver).2.1⟩

/-! ## The outer bounding box and the ghost-layer intervals -/

theorem length_flatMap_const {α β : Type} (l : List α) (f : α → List β) (k : Nat)
    (hk : ∀ a ∈ l, (f a).length = k) : (l.flatMap f).length = l.length * k := by
  induction l with
  | nil => simp
  | cons a t ih =>
    rw [List.flatMap_cons, List.length_append, hk a (List.mem_cons_self _ _),
      ih (fun b hb => hk b (List.mem_cons_of_mem _ hb)), List.length_cons]
    ring

theorem CellInterval.length_loopRange (lo hi : Int) :
    (CellInterval.loopRange lo hi).length = (hi + 1 - lo).toNat := by
  simp [CellInterval.loopRange]

theorem CellInterval.length_cells (ci : CellInterval) :
    ci.cells.length =
      (ci.zMax + 1 - ci.zMin).toNat *
        ((ci.yMax + 1 - ci.yMin).toNat * (ci.xMax + 1 - ci.xMin).toNat) := by
  unfold CellInterval.cells
  rw [length_flatMap_const _ _ ((ci.yMax + 1 - ci.yMin).toNat * (ci.xMax + 1 - ci.xMin).toNat),
    CellInterval.length_loopRange]
  intro z _
  rw [length_flatMap_const _ _ ((ci.xMax + 1 - ci.xMin).toNat), CellInterval.length_loopRange]
  intro y _
  rw [List.length_map, CellInterval.length_loopRange]

theorem CellInterval.contains_iff (ci : CellInterval) (c : Cell) :
    ci.contains c = true ↔
      ci.xMin ≤ c.x ∧ c.x ≤ ci.xMax ∧ ci.yMin ≤ c.y ∧ c.y ≤ ci.yMax ∧
        ci.zMin ≤ c.z ∧ c.z ≤ ci.zMax := by
  simp only [CellInterval.contains, Bool.and_eq_true, decide_eq_true_eq]
  tauto

theorem toNat_span (size layers : Nat) :
    (((size + layers : Nat) : Int) - 1 + 1 - -(layers : Int)).toNat = size + 2 * layers := by
  have e : ((size + layers : Nat) : Int) - 1 + 1 - -(layers : Int) =
      ((size + 2 * layers : Nat) : Int) := by
    push_cast
    ring
  rw [e, Int.toNat_ofNat]

theorem cell_idx_t.wrap_neg_cast (layers : Nat) (h : layers < 2147483648) :
    cell_idx_t.wrap (-cell_idx_c layers) = -(layers : Int) := by
  unfold cell_idx_c cell_idx_t.wrap
  omega

theorem cell_idx_t.wrap_cast_sum (size layers : Nat) (h : size + layers < 2147483648) :
    cell_idx_t.wrap (cell_idx_c (uint_t.add size layers) - 1) =
      ((size + layers : Nat) : Int) - 1 := by
  unfold cell_idx_c cell_idx_t.wrap uint_t.add
  omega

/-- C31, refuted as stated: for the field of 2 x 2 x 2 cells with one ghost layer and
`n = 4294967295` the cast of `n` to `cell_idx_t` is -1 and the cast of `2 + n` is 1, so
that the interval of the overloads that take a number of ghost layers is
`[1, 0] x [1, 0] x [1, 0]`, not `[-n, 2+n-1]` in every direction; it has no cell and so
lies inside the outer bounding box, although `n` is larger than the number of ghost
layers of the field. -/
theorem ghost_layer_interval_wraps_around :
    exampleSender.flagField.xSize = 2 ∧ exampleSender.flagField.ySize = 2 ∧
    exampleSender.flagField.zSize = 2 ∧ exampleSender.flagField.nrOfGhostLayers = 1 ∧
    exampleSender.outerBB = BoundaryHandlingCollection.initOuterBB exampleSender.flagField ∧
    cell_idx_c 4294967295 = -1 ∧
    cell_idx_c (uint_t.add 2 4294967295) = 1 ∧
    exampleSender.getGhostLayerCellInterval 4294967295 = CellInterval.mk 1 1 1 0 0 0 ∧
    exampleSender.getGhostLayerCellInterval 4294967295 ≠
      CellInterval.mk (-4294967295) (-4294967295) (-4294967295)
        (2 + 4294967295 - 1) (2 + 4294967295 - 1) (2 + 4294967295 - 1) ∧
    (exampleSender.getGhostLayerCellInterval 4294967295).cells = [] ∧
    (∀ c, (exampleSender.getGhostLayerCellInterval 4294967295).contains c = true →
      exampleSender.outerBB.contains c = true) ∧
    ¬ (4294967295 ≤ exampleSender.flagField.nrOfGhostLayers) := by
  have hcells : (exampleSender.getGhostLayerCellInterval 4294967295).cells = [] := by decide
  refine ⟨rfl, rfl, rfl, rfl, rfl, by decide, by decide, by decide, by decide, hcells, ?_,
    by decide⟩
  intro c hc
  have hmem := (CellInterval.mem_cells _ c).mpr hc
  rw [hcells] at hmem
  exact absurd hmem (List.not_mem_nil c)

/-- C31, amended: for a flag field of size `(xs, ys, zs)` with `g` ghost layers, where
`xs + g`, `ys + g` and `zs + g` are below `2^31`, the outer bounding box cached by the
constructor is `[-g, xs+g-1] x [-g, ys+g-1] x [-g, zs+g-1]`, which has
`(xs+2g)(ys+2g)(zs+2g)` cells; for a number `n` of ghost layers with `xs + n`, `ys + n`
and `zs + n` below `2^31` the interval of the overloads that take a number of ghost
layers is `[-n, xs+n-1] x [-n, ys+n-1] x [-n, zs+n-1]`; it is the outer bounding box for
`n = g`, and for a field with at least one cell in every direction all its cells lie
in the outer bounding box if and only if `n <= g`. -/
theorem outerBB_and_ghost_layer_interval {σ : Type} (bhc : BoundaryHandlingCollection σ)
    (n : Nat)
    (hgx : bhc.flagField.xSize + bhc.flagField.nrOfGhostLayers < 2147483648)
    (hgy : bhc.flagField.ySize + bhc.flagField.nrOfGhostLayers < 2147483648)
    (hgz : bhc.flagField.zSize + bhc.flagField.nrOfGhostLayers < 2147483648)
    (hnx : bhc.flagField.xSize + n < 2147483648)
    (hny : bhc.flagField.ySize + n < 2147483648)
    (hnz : bhc.flagField.zSize + n < 2147483648) :
    (∀ (flagField : FlagField) (hs : List (Handler σ)),
      BoundaryHandlingCollection.construct flagField hs = Except.ok bhc →
      bhc.flagField = flagField ∧
        bhc.outerBB = BoundaryHandlingCollection.initOuterBB flagField) ∧
    BoundaryHandlingCollection.initOuterBB bhc.flagField =
      CellInterval.mk (-(bhc.flagField.nrOfGhostLayers : Int))
        (-(bhc.flagField.nrOfGhostLayers : Int)) (-(bhc.flagField.nrOfGhostLayers : Int))
        ((bhc.flagField.xSize : Int) + bhc.flagField.nrOfGhostLayers - 1)
        ((bhc.flagField.ySize : Int) + bhc.flagField.nrOfGhostLayers - 1)
        ((bhc.flagField.zSize : Int) + bhc.flagField.nrOfGhostLayers - 1) ∧
    (BoundaryHandlingCollection.initOuterBB bhc.flagField).cells.length =
      (bhc.flagField.xSize + 2 * bhc.flagField.nrOfGhostLayers) *
        (bhc.flagField.ySize + 2 * bhc.flagField.nrOfGhostLayers) *
        (bhc.flagField.zSize + 2 * bhc.flagField.nrOfGhostLayers) ∧
    bhc.getGhostLayerCellInterval n =
      CellInterval.mk (-(n : Int)) (-(n : Int)) (-(n : Int))
        ((bhc.flagField.xSize : Int) + n - 1) ((bhc.flagField.ySize : Int) + n - 1)
        ((bhc.flagField.zSize : Int) + n - 1) ∧
    (bhc.outerBB = BoundaryHandlingCollection.initOuterBB bhc.flagField →
      bhc.getGhostLayerCellInterval bhc.flagField.nrOfGhostLayers = bhc.outerBB) ∧
    (bhc.outerBB = BoundaryHandlingCollection.initOuterBB bhc.flagField →
      1 ≤ bhc.flagField.xSize → 1 ≤ bhc.flagField.ySize → 1 ≤ bhc.flagField.zSize →
      ((∀ c, (bhc.getGhostLayerCellInterval n).contains c = true →
          bhc.outerBB.contains c = true) ↔ n ≤ bhc.flagField.nrOfGhostLayers)) := by
  have hg : bhc.flagField.nrOfGhostLayers < 2147483648 := by omega
  have hn : n < 2147483648 := by omega
  have hbox : BoundaryHandlingCollection.initOuterBB bhc.flagField =
      CellInterval.mk (-(bhc.flagField.nrOfGhostLayers : Int))
        (-(bhc.flagField.nrOfGhostLayers : Int)) (-(bhc.flagField.nrOfGhostLayers : Int))
        (((bhc.flagField.xSize + bhc.flagField.nrOfGhostLayers : Nat) : Int) - 1)
        (((bhc.flagField.ySize + bhc.flagField.nrOfGhostLayers : Nat) : Int) - 1)
        (((bhc.flagField.zSize + bhc.flagField.nrOfGhostLayers : Nat) : Int) - 1) := by
    simp only [BoundaryHandlingCollection.initOuterBB, cell_idx_t.wrap_neg_cast _ hg,
      cell_idx_t.wrap_cast_sum _ _ hgx, cell_idx_t.wrap_cast_sum _ _ hgy,
      cell_idx_t.wrap_cast_sum _ _ hgz]
  have hint : bhc.getGhostLayerCellInterval n =
      CellInterval.mk (-(n : Int)) (-(n : Int)) (-(n : Int))
        (((bhc.flagField.xSize + n : Nat) : Int) - 1)
        (((bhc.flagField.ySize + n : Nat) : Int) - 1)
        (((bhc.flagField.zSize + n : Nat) : Int) - 1) := by
    simp only [BoundaryHandlingCollection.getGhostLayerCellInterval,
      cell_idx_t.wrap_neg_cast _ hn, cell_idx_t.wrap_cast_sum _ _ hnx,
      cell_idx_t.wrap_cast_sum _ _ hny, cell_idx_t.wrap_cast_sum _ _ hnz]
  refine ⟨?_, ?_, ?_, ?_, ?_, ?_⟩
  · intro flagField hs hok
    unfold BoundaryHandlingCollection.construct at hok
    simp only at hok
    split at hok
    · cases hok
    · split at hok
      · cases hok
      · split at hok
        · cases hok
        · split at hok
          · cases hok
          · injection hok with hb
            subst hb
            exact ⟨rfl, rfl⟩
  · rw [hbox]
    simp only [Nat.cast_add]
  · rw [hbox, CellInterval.length_cells]
    simp only [toNat_span]
    ring
  · rw [hint]
    simp only [Nat.cast_add]
  · intro hbb
    rw [hbb]
    rfl
  · intro hbb hx hy hz
    rw [hbb, hbox, hint]
    simp only [CellInterval.contains_iff, Nat.cast_add]
    constructor
    · intro hall
      have h := hall (Cell.mk (-(n : Int)) 0 0)
        ⟨le_refl _, by simp only; omega, by simp only; omega, by simp only; omega,
          by simp only; omega, by simp only; omega⟩
      simp only at h
      omega
    · intro hle c hc
      omega

/-- C31 amended, at an example: the field of 2 x 2 x 2 cells with one ghost layer has the
outer bounding box `[-1, 2]` in every direction with 64 cells; the interval for one ghost
layer is that box, and the interval for no ghost layer lies inside it. -/
theorem outerBB_and_ghost_layer_interval_witness :
    exampleSender.outerBB = CellInterval.mk (-1) (-1) (-1) 2 2 2 ∧
    exampleSender.outerBB.cells.length = 64 ∧
    exampleSender.getGhostLayerCellInterval 1 = exampleSender.outerBB ∧
    (∀ c, (exampleSender.getGhostLayerCellInterval 0).contains c = true →
      exampleSender.outerBB.contains c = true) :=
  ⟨by decide, by decide,
   (outerBB_and_ghost_layer_interval exampleSender 1 (by decide) (by decide) (by decide)
      (by decide) (by decide) (by decide)).2.2.2.2.1 rfl,
   ((outerBB_and_ghost_layer_interval exampleSender 0 (by decide) (by decide) (by decide)
      (by decide) (by decide) (by decide)).2.2.2.2.2 rfl (by decide) (by decide)
      (by decide)).mpr (by decide)⟩

/-! ## The two reverse lookups -/

theorem exists_first_match {α : Type} (p : α → Bool) (l : List α)
    (hex : ∃ a ∈ l, p a = true) :
    ∃ pre H post, l = pre ++ H :: post ∧ (∀ k ∈ pre, p k = false) ∧ p H = true := by
  induction l with
  | nil =>
    obtain ⟨a, ha, _⟩ := hex
    exact absurd ha (List.not_mem_nil a)
  | cons b t ih =>
    by_cases hb : p b = true
    · exact ⟨[], b, t, rfl, fun k hk => absurd hk (List.not_mem_nil k), hb⟩
    · have hex2 : ∃ a ∈ t, p a = true := by
        obtain ⟨a, ha, hpa⟩ := hex
        rcases List.mem_cons.mp ha with rfl | hat
        · exact absurd hpa hb
        · exact ⟨a, hat, hpa⟩
      obtain ⟨pre, H, post, hl, hpre, hH⟩ := ih hex2
      refine ⟨b :: pre, H, post, by rw [hl, List.cons_append], ?_, hH⟩
      intro k hk
      rcases List.mem_cons.mp hk with rfl | hkt
      · simpa using hb
      · exact hpre k hkt

theorem eq_zero_of_sub_disjoint (f a b : Nat) (ha : a &&& f = f) (hb : b &&& f = f)
    (hab : a &&& b = 0) : f = 0 := by
  apply Nat.eq_of_testBit_eq
  intro i
  have h1 : (a &&& f).testBit i = f.testBit i := by rw [ha]
  have h2 : (b &&& f).testBit i = f.testBit i := by rw [hb]
  have h3 : (a &&& b).testBit i = false := by rw [hab, Nat.zero_testBit]
  rw [Nat.testBit_and] at h1 h2 h3
  rw [Nat.zero_testBit]
  cases hf : f.testBit i <;> cases hai : a.testBit i <;> cases hbi : b.testBit i <;> simp_all

theorem plainHandler_lookupConsistent (uid u flagFieldId : Nat) (outerBB : CellInterval)
    (boundaryMask domainMask : flag_t) (hbm : boundaryMask ≠ 0) :
    (plainHandler uid [u] flagFieldId outerBB boundaryMask domainMask).LookupConsistent := by
  constructor
  · intro v hv
    have hv1 : v = u := by
      have e : (plainHandler uid [u] flagFieldId outerBB boundaryMask
          domainMask).containsBoundaryConditionUID v = decide (v ∈ [u]) := rfl
      rw [e] at hv
      simpa using hv
    subst hv1
    refine ⟨List.mem_singleton.mpr rfl, hbm, ?_, rfl⟩
    show (decide (boundaryMask ≠ 0) && (boundaryMask &&& boundaryMask) == boundaryMask) = true
    simp [hbm]
  · intro flag hflag
    have e : (decide (flag ≠ 0) && (boundaryMask &&& flag) == flag) = true := hflag
    simp only [Bool.and_eq_true, decide_eq_true_eq, beq_iff_eq] at e
    refine ⟨?_, e.2⟩
    show decide (u ∈ [u]) = true
    simp

/-- C32: in a collection whose handlers have pairwise disjoint boundary masks and
consistent lookups, `getBoundaryUID(getBoundaryMask(u)) = u` for every Boundary UID `u`
that some handler contains; and, the Boundary UIDs of the collection being pairwise
distinct as the constructor demands, for every flag `f` that some handler contains a
boundary condition for, `getBoundaryUID(f)` returns a Boundary UID whose mask
`getBoundaryMask` contains `f`. -/
theorem reverse_lookups_round_trip {σ : Type} (bhc : BoundaryHandlingCollection σ)
    (hd : bhc.boundaryHandlers.Pairwise (fun a b => a.boundaryMask &&& b.boundaryMask = 0))
    (hb : ∀ h ∈ bhc.boundaryHandlers, h.BoundaryConsistent)
    (hl : ∀ h ∈ bhc.boundaryHandlers, h.LookupConsistent) :
    (∀ u, (∃ h ∈ bhc.boundaryHandlers, h.containsBoundaryConditionUID u = true) →
      bhc.getBoundaryUID (bhc.getBoundaryMask u) = Except.ok u) ∧
    ((bhc.boundaryHandlers.flatMap Handler.boundaryUIDs).Nodup →
      ∀ f, (∃ h ∈ bhc.boundaryHandlers, h.containsBoundaryCondition f = true) →
      ∃ u, bhc.getBoundaryUID f = Except.ok u ∧ bhc.getBoundaryMask u &&& f = f) := by
  constructor
  · intro u hex
    obtain ⟨pre, H, post, hhs, hpre, hH⟩ :=
      exists_first_match (fun h => h.containsBoundaryConditionUID u) _ hex
    have hHmem : H ∈ bhc.boundaryHandlers := by
      rw [hhs]
      exact List.mem_append_right _ (List.mem_cons_self _ _)
    obtain ⟨_, hne, hcon, huid⟩ := (hl H hHmem).1 u hH
    have hmask : bhc.getBoundaryMask u = H.getBoundaryMaskOf u := by
      unfold BoundaryHandlingCollection.getBoundaryMask
      rw [Tuple.getBoundaryMask_eq_find, hhs,
        find_first_match (fun h => h.containsBoundaryConditionUID u) pre post H hpre hH]
    rw [hhs] at hd
    have hdis := (List.pairwise_append.mp hd).2.2
    have hpre2 : ∀ k ∈ pre, k.containsBoundaryCondition (H.getBoundaryMaskOf u) = false := by
      intro k hk
      cases hkc : k.containsBoundaryCondition (H.getBoundaryMaskOf u) with
      | false => rfl
      | true =>
        have hkmem : k ∈ bhc.boundaryHandlers := by
          rw [hhs]
          exact List.mem_append_left _ hk
        have h1 := (hb k hkmem _ hkc).1
        have h2 := (hb H hHmem _ hcon).1
        exact absurd (eq_zero_of_sub_disjoint _ _ _ h1 h2
          (hdis k hk H (List.mem_cons_self _ _))) hne
    rw [hmask]
    unfold BoundaryHandlingCollection.getBoundaryUID
    rw [hhs, Tuple.getBoundaryUID_first _ _ pre post H hpre2 hcon, huid]
  · intro hu f hex
    obtain ⟨pre, K, post, hhs, hpre, hK⟩ :=
      exists_first_match (fun h => h.containsBoundaryCondition f) _ hex
    have hKmem : K ∈ bhc.boundaryHandlers := by
      rw [hhs]
      exact List.mem_append_right _ (List.mem_cons_self _ _)
    obtain ⟨hKu, hKm⟩ := (hl K hKmem).2 f hK
    have hKin := (hb K hKmem f hK).2
    refine ⟨K.getBoundaryUID f, ?_, ?_⟩
    · unfold BoundaryHandlingCollection.getBoundaryUID
      rw [hhs]
      exact Tuple.getBoundaryUID_first _ _ pre post K hpre hK
    · rw [hhs] at hu
      have hdisj := (List.pairwise_append.mp (List.nodup_flatMap.mp hu).2).2.2
      have hpre2 : ∀ j ∈ pre, j.containsBoundaryConditionUID (K.getBoundaryUID f) = false := by
        intro j hj
        cases hjc : j.containsBoundaryConditionUID (K.getBoundaryUID f) with
        | false => rfl
        | true =>
          have hjmem : j ∈ bhc.boundaryHandlers := by
            rw [hhs]
            exact List.mem_append_left _ hj
          have hjin := ((hl j hjmem).1 _ hjc).1
          exact absurd hKin (hdisj j hj K (List.mem_cons_self _ _) hjin)
      unfold BoundaryHandlingCollection.getBoundaryMask
      rw [Tuple.getBoundaryMask_eq_find, hhs,
        find_first_match (fun h => h.containsBoundaryConditionUID (K.getBoundaryUID f))
          pre post K hpre2 hKu]
      exact hKm

/-- C32, at an example: the Boundary UID 40 of the second handler has the mask 4, for
which the lookup returns 40 again; and the flag 4 has the Boundary UID 40, whose mask
contains the flag. -/
theorem reverse_lookups_round_trip_witness :
    (exampleCollection [handlerA, handlerF]).getBoundaryUID
        ((exampleCollection [handlerA, handlerF]).getBoundaryMask 40) = Except.ok 40 ∧
    ∃ u, (exampleCollection [handlerA, handlerF]).getBoundaryUID 4 = Except.ok u ∧
      (exampleCollection [handlerA, handlerF]).getBoundaryMask u &&& 4 = 4 :=
  ⟨(reverse_lookups_round_trip (exampleCollection [handlerA, handlerF])
      (List.Pairwise.cons
        (fun b hb => by
          rw [List.mem_singleton.mp hb]
          decide)
        (List.Pairwise.cons (fun b hb => absurd hb (List.not_mem_nil b)) List.Pairwise.nil))
      (by
        intro h hh
        have hcases : h = handlerA ∨ h = handlerF := by simpa [exampleCollection] using hh
        rcases hcases with rfl | rfl <;> exact plainHandler_boundaryConsistent _ _ _ _ _ _ _)
      (by
        intro h hh
        have hcases : h = handlerA ∨ h = handlerF := by simpa [exampleCollection] using hh
        rcases hcases with rfl | rfl <;>
          exact plainHandler_lookupConsistent _ _ _ _ _ _ (by decide))).1 40
      ⟨handlerF, by simp [exampleCollection], by decide⟩,
   (reverse_lookups_round_trip (exampleCollection [handlerA, handlerF])
      (List.Pairwise.cons
        (fun b hb => by
          rw [List.mem_singleton.mp hb]
          decide)
        (List.Pairwise.cons (fun b hb => absurd hb (List.not_mem_nil b)) List.Pairwise.nil))
      (by
        intro h hh
        have hcases : h = handlerA ∨ h = handlerF := by simpa [exampleCollection] using hh
        rcases hcases with rfl | rfl <;> exact plainHandler_boundaryConsistent _ _ _ _ _ _ _)
      (by
        intro h hh
        have hcases : h = handlerA ∨ h = handlerF := by simpa [exampleCollection] using hh
        rcases hcases with rfl | rfl <;>
          exact plainHandler_lookupConsistent _ _ _ _ _ _ (by decide))).2 (by decide) 4
      ⟨handlerF, by simp [exampleCollection], by decide⟩⟩

/-! ## setFlag and removeFlag: the final write and the handlers invoked -/

theorem or_and_self_right (a flag : Nat) : (a ||| flag) &&& flag = flag := by
  apply Nat.eq_of_testBit_eq
  intro i
  rw [Nat.testBit_and, Nat.testBit_or]
  cases a.testBit i <;> cases flag.testBit i <;> rfl

theorem Tuple.setFlag_ends_with_addFlag {σ : Type} (flag : flag_t) (c : Cell)
    (p : BoundaryConfiguration) (hs : List (Handler σ)) (m : Mem) :
    ∃ last : Mem, (Tuple.setFlag flag c p hs m).2 =
      { last with flags := last.flags.addFlag c flag } := by
  induction hs generalizing m with
  | nil => exact ⟨m, rfl⟩
  | cons h t ih =>
    by_cases ho : h.owns flag = true
    · simp only [Tuple.setFlag, ho, if_true]
      exact ih _
    · simp only [Tuple.setFlag, ho, if_false, Bool.false_eq_true]
      exact ih _

/-- C33: for every handler list, flag and cell inside the outer bounding box, the flag is
set at the cell after `setFlag(flag, cell)`, whether or not handlers own the flag and
whatever they do: the last write of the helper is the `addFlag` of the `null_type` base
case, after all handlers have been consulted; and if the handlers change at most the
addressed flag bit, the flag field after the call is the old one with the flag added at
the cell. -/
theorem setFlag_leaves_the_flag_set {σ : Type} (bhc : BoundaryHandlingCollection σ)
    (flag : flag_t) (c : Cell) (p : BoundaryConfiguration)
    (hin : bhc.outerBB.contains c = true) :
    (bhc.setFlag flag c p).flagField.data.isFlagSet c flag = true ∧
    (bhc.setFlag flag c p).flagField.data c &&& flag = flag ∧
    (∃ last : Mem, (bhc.setFlag flag c p).flagField.data = last.flags.addFlag c flag ∧
      (bhc.setFlag flag c p).calls = last.calls) ∧
    ((∀ h ∈ bhc.boundaryHandlers, h.ChangesOnlyFlagBit) →
      (bhc.setFlag flag c p).flagField.data = bhc.flagField.data.addFlag c flag) := by
  have e : bhc.setFlag flag c p =
      bhc.store (Tuple.setFlag flag c p bhc.boundaryHandlers bhc.mem).1
        (Tuple.setFlag flag c p bhc.boundaryHandlers bhc.mem).2 := by
    simp only [BoundaryHandlingCollection.setFlag, hin, Bool.not_true, Bool.false_eq_true,
      if_false]
  obtain ⟨last, hlast⟩ := Tuple.setFlag_ends_with_addFlag flag c p bhc.boundaryHandlers bhc.mem
  have hdata : (bhc.setFlag flag c p).flagField.data = last.flags.addFlag c flag := by
    rw [e]
    simp only [BoundaryHandlingCollection.store, hlast]
  have hbits : (bhc.setFlag flag c p).flagField.data c &&& flag = flag := by
    rw [hdata]
    simp only [FlagData.addFlag, FlagData.set_same]
    exact or_and_self_right _ _
  refine ⟨?_, hbits, ⟨last, hdata, ?_⟩, ?_⟩
  · simp only [FlagData.isFlagSet, hbits, beq_self_eq_true]
  · rw [e]
    simp only [BoundaryHandlingCollection.store, hlast]
  · intro hc
    rw [e]
    simp only [BoundaryHandlingCollection.store]
    exact Tuple.setFlag_flags flag c p _ hc _

/-- C33, at an example: the flag 2 is owned by the first handler; after `setFlag` the cell
with the mask 13 carries 15, with the flag set. -/
theorem setFlag_leaves_the_flag_set_witness :
    (exampleSender.setFlag 2 originCell 0).flagField.data.isFlagSet originCell 2 = true ∧
    (exampleSender.setFlag 2 originCell 0).flagField.data originCell = 15 :=
  ⟨(setFlag_leaves_the_flag_set exampleSender 2 originCell 0 (by decide)).1, by decide⟩

theorem Tuple.removeFlag_calls {σ : Type} (flag : flag_t) (c : Cell) (hs : List (Handler σ))
    (m : Mem) :
    (Tuple.removeFlag flag c hs m).2.calls =
      m.calls ++ (hs.filter (fun h => h.owns flag)).map
        (fun h => Call.removeFlag h.uid flag c) := by
  induction hs generalizing m with
  | nil => simp [Tuple.removeFlag]
  | cons h t ih =>
    by_cases ho : h.owns flag = true
    · simp only [Tuple.removeFlag, ho, if_true, ih, Handler.invoke,
        List.filter_cons_of_pos, List.map_cons, List.append_assoc, List.singleton_append]
    · simp only [Tuple.removeFlag, ho, if_false, ih, List.filter_cons_of_neg,
        not_false_eq_true, Bool.false_eq_true]

theorem owners_length_eq_numberOfMatchingHandlers {σ : Type} (flag : flag_t)
    (hs : List (Handler σ)) :
    (hs.filter (fun h => h.owns flag)).length = Tuple.numberOfMatchingHandlers flag hs := by
  induction hs with
  | nil => rfl
  | cons h t ih =>
    by_cases ho : h.owns flag = true
    · have e : (h.boundaryMask ||| h.domainMask) &&& flag = flag := by
        simpa [Handler.owns, Handler.ownership] using ho
      simp only [List.filter_cons, ho, if_true, List.length_cons, ih,
        Tuple.numberOfMatchingHandlers, e]
      omega
    · have e : ¬ ((h.boundaryMask ||| h.domainMask) &&& flag = flag) := by
        simpa [Handler.owns, Handler.ownership] using ho
      simp only [List.filter_cons, ho, if_false, Bool.false_eq_true, ih,
        Tuple.numberOfMatchingHandlers, e]
      omega

theorem Tuple.removeFlag_first_owner {σ : Type} (flag : flag_t) (c : Cell)
    (pre : List (Handler σ)) (h : Handler σ) (post : List (Handler σ)) (m : Mem)
    (hpre : ∀ k ∈ pre, k.owns flag = false) (ho : h.owns flag = true) :
    Tuple.removeFlag flag c (pre ++ h :: post) m =
      (pre ++ { h with st := (h.removeFlag flag c (m.flags.addFlag c flag) h.st).2 } ::
          (Tuple.removeFlag flag c post
            { flags := (h.removeFlag flag c (m.flags.addFlag c flag) h.st).1,
              calls := m.calls ++ [Call.removeFlag h.uid flag c] }).1,
       (Tuple.removeFlag flag c post
          { flags := (h.removeFlag flag c (m.flags.addFlag c flag) h.st).1,
            calls := m.calls ++ [Call.removeFlag h.uid flag c] }).2) := by
  induction pre with
  | nil =>
    simp only [List.nil_append, Tuple.removeFlag, ho, if_true]
    rfl
  | cons a t ih =>
    have ha := hpre a (List.mem_cons_self _ _)
    rw [List.cons_append]
    simp only [Tuple.removeFlag, ha, Bool.false_eq_true, if_false]
    rw [ih (fun k hk => hpre k (List.mem_cons_of_mem _ hk))]
    rfl

/-- C34: one call `setFlag(flag, cell)` on a cell inside the outer bounding box runs the
`setFlag` of exactly the handlers that own the flag, each once, and one call
`removeFlag(flag, cell)` on such a cell at which the flag is set runs the `removeFlag`
of exactly these handlers: the handlers ahead of the first owner are left as they are,
the operation of the first owner runs and its results are kept, and the same holds for
the handlers after it, while a list without an owner is left as it is; in both cases the
number of handlers invoked is `numberOfMatchingHandlers(flag)`, so that for a single-bit
flag and pairwise disjoint ownership masks at most one handler is invoked. -/
theorem invoked_handlers_are_the_matching_handlers {σ : Type}
    (bhc : BoundaryHandlingCollection σ) (flag : flag_t) (c : Cell)
    (p : BoundaryConfiguration) (hin : bhc.outerBB.contains c = true) :
    (bhc.setFlag flag c p).calls =
      bhc.calls ++ (bhc.boundaryHandlers.filter (fun h => h.owns flag)).map
        (fun h => Call.setFlag h.uid flag c p) ∧
    (bhc.flagField.data.isFlagSet c flag = true →
      (bhc.removeFlag flag c).calls =
        bhc.calls ++ (bhc.boundaryHandlers.filter (fun h => h.owns flag)).map
          (fun h => Call.removeFlag h.uid flag c)) ∧
    ((bhc.boundaryHandlers.filter (fun h => h.owns flag)).map
        (fun h => Call.setFlag h.uid flag c p)).length = bhc.numberOfMatchingHandlers flag ∧
    ((bhc.boundaryHandlers.filter (fun h => h.owns flag)).map
        (fun h => Call.removeFlag h.uid flag c)).length = bhc.numberOfMatchingHandlers flag ∧
    (bhc.boundaryHandlers.Pairwise (fun a b => a.ownership &&& b.ownership = 0) →
      (∃ k : Nat, flag = 1 <<< k) →
      (bhc.boundaryHandlers.filter (fun h => h.owns flag)).length ≤ 1) ∧
    bhc.setFlag flag c p =
      bhc.store (Tuple.setFlag flag c p bhc.boundaryHandlers bhc.mem).1
        (Tuple.setFlag flag c p bhc.boundaryHandlers bhc.mem).2 ∧
    (bhc.flagField.data.isFlagSet c flag = true →
      bhc.removeFlag flag c =
        bhc.store (Tuple.removeFlag flag c bhc.boundaryHandlers bhc.mem).1
          (Tuple.removeFlag flag c bhc.boundaryHandlers bhc.mem).2) ∧
    (∀ (pre : List (Handler σ)) (h : Handler σ) (post : List (Handler σ)) (m : Mem),
      (∀ k ∈ pre, k.owns flag = false) → h.owns flag = true →
      Tuple.setFlag flag c p (pre ++ h :: post) m =
        (pre ++ { h with st := (h.setFlag flag c p (m.flags.removeFlag c flag) h.st).2 } ::
            (Tuple.setFlag flag c p post
              { flags := (h.setFlag flag c p (m.flags.removeFlag c flag) h.st).1,
                calls := m.calls ++ [Call.setFlag h.uid flag c p] }).1,
         (Tuple.setFlag flag c p post
            { flags := (h.setFlag flag c p (m.flags.removeFlag c flag) h.st).1,
              calls := m.calls ++ [Call.setFlag h.uid flag c p] }).2) ∧
      Tuple.removeFlag flag c (pre ++ h :: post) m =
        (pre ++ { h with st := (h.removeFlag flag c (m.flags.addFlag c flag) h.st).2 } ::
            (Tuple.removeFlag flag c post
              { flags := (h.removeFlag flag c (m.flags.addFlag c flag) h.st).1,
                calls := m.calls ++ [Call.removeFlag h.uid flag c] }).1,
         (Tuple.removeFlag flag c post
            { flags := (h.removeFlag flag c (m.flags.addFlag c flag) h.st).1,
              calls := m.calls ++ [Call.removeFlag h.uid flag c] }).2)) ∧
    (∀ (hs : List (Handler σ)) (m : Mem), (∀ h ∈ hs, h.owns flag = false) →
      Tuple.setFlag flag c p hs m = (hs, { m with flags := m.flags.addFlag c flag }) ∧
      Tuple.removeFlag flag c hs m = (hs, { m with flags := m.flags.removeFlag c flag })) := by
  refine ⟨?_, ?_, ?_, ?_, ?_, ?_, ?_, ?_, ?_⟩
  · simp only [BoundaryHandlingCollection.setFlag, hin, Bool.not_true, Bool.false_eq_true,
      if_false, BoundaryHandlingCollection.store]
    exact Tuple.setFlag_calls flag c p _ _
  · intro hset
    simp only [BoundaryHandlingCollection.removeFlag, hin, hset, Bool.not_true, Bool.or_self,
      Bool.false_eq_true, if_false, BoundaryHandlingCollection.store]
    exact Tuple.removeFlag_calls flag c _ _
  · rw [List.length_map]
    exact owners_length_eq_numberOfMatchingHandlers flag _
  · rw [List.length_map]
    exact owners_length_eq_numberOfMatchingHandlers flag _
  · rintro hd ⟨k, rfl⟩
    rw [owners_length_eq_numberOfMatchingHandlers, Tuple.numberOfMatchingHandlers_eq_countP]
    exact countP_single_bit_le_one Handler.ownership k _ hd
  · simp only [BoundaryHandlingCollection.setFlag, hin, Bool.not_true, Bool.false_eq_true,
      if_false]
  · intro hset
    simp only [BoundaryHandlingCollection.removeFlag, hin, hset, Bool.not_true, Bool.or_self,
      Bool.false_eq_true, if_false]
  · intro pre h post m hpre ho
    exact ⟨Tuple.setFlag_first_owner flag c p pre h post m hpre ho,
      Tuple.removeFlag_first_owner flag c pre h post m hpre ho⟩
  · intro hs m hno
    exact ⟨Tuple.setFlag_of_no_owner flag c p hs hno m,
      Tuple.removeFlag_of_no_owner flag c hs hno m⟩

/-- C34, at an example: the flag 4 is owned by the second example handler only; `setFlag`
at a cell without it and `removeFlag` at a cell with it each run the operation of that one
handler (the state of an example handler counts the operations it has run). -/
theorem invoked_handlers_are_the_matching_handlers_witness :
    (exampleReceiver.setFlag 4 originCell 0).calls = [Call.setFlag 2 4 originCell 0] ∧
    (exampleSender.removeFlag 4 originCell).calls = [Call.removeFlag 2 4 originCell] ∧
    exampleSender.numberOfMatchingHandlers 4 = 1 ∧
    (exampleReceiver.setFlag 4 originCell 0).boundaryHandlers.map Handler.st = [0, 1] ∧
    (exampleSender.removeFlag 4 originCell).boundaryHandlers.map Handler.st = [0, 1] ∧
    (exampleReceiver.setFlag 4 originCell 0).flagField.data originCell = 4 ∧
    (exampleSender.removeFlag 4 originCell).flagField.data originCell = 9 :=
  ⟨(invoked_handlers_are_the_matching_handlers exampleReceiver 4 originCell 0 (by decide)).1,
   (invoked_handlers_are_the_matching_handlers exampleSender 4 originCell 0
      (by decide)).2.1 (by decide),
   by decide, by decide, by decide, by decide, by decide⟩

/-! ## setFlag followed by removeFlag -/

theorem FlagData.add_then_remove_flag (f : FlagData) (c : Cell) (flag : flag_t)
    (h0 : f c &&& flag = 0) : (f.addFlag c flag).removeFlag c flag = f := by
  funext d
  by_cases hd : d = c
  · subst hd
    simp only [FlagData.removeFlag, FlagData.addFlag, FlagData.set_same]
    apply Nat.eq_of_testBit_eq
    intro i
    have hi : (f d &&& flag).testBit i = false := by rw [h0, Nat.zero_testBit]
    rw [Nat.testBit_and] at hi
    rw [testBit_removed, Nat.testBit_or]
    cases ha : (f d).testBit i <;> cases hf : flag.testBit i <;> simp_all
  · simp only [FlagData.removeFlag, FlagData.addFlag, FlagData.set_other _ _ _ _ hd]

theorem and_two_pow_eq_zero (a k : Nat) (h : a.testBit k = false) : a &&& (1 <<< k) = 0 := by
  apply Nat.eq_of_testBit_eq
  intro i
  rw [Nat.testBit_and, Nat.one_shiftLeft, Nat.testBit_two_pow, Nat.zero_testBit]
  by_cases hi : k = i
  · subst hi
    simp [h]
  · simp [hi]

theorem BoundaryHandlingCollection.setFlag_then_removeFlag_data {σ : Type}
    (bhc : BoundaryHandlingCollection σ) (flag : flag_t) (c : Cell)
    (p : BoundaryConfiguration) (hin : bhc.outerBB.contains c = true)
    (hc : ∀ h ∈ bhc.boundaryHandlers, h.ChangesOnlyFlagBit) :
    ((bhc.setFlag flag c p).removeFlag flag c).flagField.data =
      (bhc.flagField.data.addFlag c flag).removeFlag c flag := by
  have e : bhc.setFlag flag c p =
      bhc.store (Tuple.setFlag flag c p bhc.boundaryHandlers bhc.mem).1
        (Tuple.setFlag flag c p bhc.boundaryHandlers bhc.mem).2 := by
    simp only [BoundaryHandlingCollection.setFlag, hin, Bool.not_true, Bool.false_eq_true,
      if_false]
  have hdata : (bhc.setFlag flag c p).flagField.data = bhc.flagField.data.addFlag c flag := by
    rw [e]
    exact Tuple.setFlag_flags flag c p _ hc _
  have hbb : (bhc.setFlag flag c p).outerBB.contains c = true := by
    rw [e]
    exact hin
  have hc1 : ∀ h ∈ (bhc.setFlag flag c p).boundaryHandlers, h.ChangesOnlyFlagBit := by
    rw [e]
    exact sameClass_forall (Tuple.setFlag_sameClass flag c p bhc.boundaryHandlers bhc.mem) _
      (fun _ _ a b => a.changesOnlyFlagBit b) hc
  have hset : (bhc.setFlag flag c p).flagField.data.isFlagSet c flag = true := by
    rw [hdata]
    simp only [FlagData.isFlagSet, FlagData.addFlag, FlagData.set_same, or_and_self_right,
      beq_self_eq_true]
  have e2 : (bhc.setFlag flag c p).removeFlag flag c =
      (bhc.setFlag flag c p).store
        (Tuple.removeFlag flag c (bhc.setFlag flag c p).boundaryHandlers
          (bhc.setFlag flag c p).mem).1
        (Tuple.removeFlag flag c (bhc.setFlag flag c p).boundaryHandlers
          (bhc.setFlag flag c p).mem).2 := by
    simp only [BoundaryHandlingCollection.removeFlag, hbb, hset, Bool.not_true, Bool.or_self,
      Bool.false_eq_true, if_false]
  rw [e2]
  have hflags := Tuple.removeFlag_flags flag c (bhc.setFlag flag c p).boundaryHandlers hc1
    (bhc.setFlag flag c p).mem
  show (Tuple.removeFlag flag c (bhc.setFlag flag c p).boundaryHandlers
    (bhc.setFlag flag c p).mem).2.flags = _
  rw [hflags]
  show (bhc.setFlag flag c p).flagField.data.removeFlag c flag = _
  rw [hdata]

/-- C35: for every cell inside the outer bounding box and every flag of which no bit is
set at the cell (for a single-bit flag: the flag is not set at the cell),
`setFlag(flag, cell)` followed by `removeFlag(flag, cell)` restores the flag field to its
contents before the two calls, given that the `setFlag` and `removeFlag` of each handler
change at most the addressed flag bit of the addressed cell. -/
theorem setFlag_then_removeFlag_restores_the_field {σ : Type}
    (bhc : BoundaryHandlingCollection σ) (flag : flag_t) (c : Cell)
    (p : BoundaryConfiguration) (hin : bhc.outerBB.contains c = true)
    (hc : ∀ h ∈ bhc.boundaryHandlers, h.ChangesOnlyFlagBit) :
    (bhc.flagField.data c &&& flag = 0 →
      ((bhc.setFlag flag c p).removeFlag flag c).flagField.data = bhc.flagField.data) ∧
    ((∃ k : Nat, flag = 1 <<< k) → bhc.flagField.data.isFlagSet c flag = false →
      ((bhc.setFlag flag c p).removeFlag flag c).flagField.data = bhc.flagField.data) := by
  have hdata := bhc.setFlag_then_removeFlag_data flag c p hin hc
  constructor
  · intro h0
    rw [hdata]
    exact FlagData.add_then_remove_flag _ c flag h0
  · rintro ⟨k, rfl⟩ hnot
    rw [hdata]
    apply FlagData.add_then_remove_flag
    apply and_two_pow_eq_zero
    cases hb : (bhc.flagField.data c).testBit k with
    | false => rfl
    | true =>
      have hset : bhc.flagField.data.isFlagSet c (1 <<< k) = true := by
        simp only [FlagData.isFlagSet, beq_iff_eq]
        exact (mask_and_two_pow_iff _ k).mpr hb
      rw [hset] at hnot
      cases hnot

/-- C35, at an example: the flag 2 of the first handler is not set at the cell with the
mask 13; setting and then removing it leaves the flag field as it was. -/
theorem setFlag_then_removeFlag_restores_the_field_witness :
    ((exampleSender.setFlag 2 originCell 0).removeFlag 2 originCell).flagField.data =
      exampleSender.flagField.data :=
  (setFlag_then_removeFlag_restores_the_field exampleSender 2 originCell 0 (by decide)
    example_changesOnlyFlagBit).1 (by decide)

/-! ## forceFlag: the new mask and the frame -/

theorem BoundaryHandlingCollection.forceFlagBit_zero {σ : Type} (c : Cell)
    (bhc : BoundaryHandlingCollection σ) (bit : Nat) :
    BoundaryHandlingCollection.forceFlagBit 0 c bhc bit = bhc := by
  have hne : ¬ ((1 <<< bit) &&& 0 = 1 <<< bit) := by
    rw [Nat.and_zero, Nat.one_shiftLeft]
    exact (Nat.pos_iff_ne_zero.mp (Nat.two_pow_pos bit)).symm
  simp only [BoundaryHandlingCollection.forceFlagBit, hne, if_false]

theorem BoundaryHandlingCollection.forceFlagBits_zero {σ : Type} (c : Cell)
    (bhc : BoundaryHandlingCollection σ) (bits : List Nat) :
    bits.foldl (BoundaryHandlingCollection.forceFlagBit 0 c) bhc = bhc := by
  induction bits with
  | nil => rfl
  | cons b t ih => rw [List.foldl_cons, BoundaryHandlingCollection.forceFlagBit_zero, ih]

/-- C36: for a cell inside the outer bounding box, `forceFlag(flag, cell)` changes the
mask of the cell to `(old AND NOT flagsToRemove(flag, cell)) OR flag` and leaves all other
cells alone, so that every bit outside the flag that belongs to no handler owning the
flag (a bit of other handlers only, or of no handler) keeps its value, given that the
`setFlag` and `removeFlag` of each handler change at most the addressed flag bit and that
the masks of the handlers are `flag_t` values; for a cell outside the outer bounding box
the whole state is unchanged; and when `flagsToRemove` is 0 the result is that of
`setFlag(flag, cell)`. -/
theorem forceFlag_new_mask_and_frame {σ : Type} (bhc : BoundaryHandlingCollection σ)
    (flag : flag_t) (c : Cell) (p : BoundaryConfiguration) :
    (bhc.outerBB.contains c = true →
      (∀ h ∈ bhc.boundaryHandlers, h.ChangesOnlyFlagBit) →
      (∀ h ∈ bhc.boundaryHandlers, h.ownership < 2 ^ bhc.flagField.digits) →
      (bhc.forceFlag flag c p).flagField.data c =
        (bhc.flagField.data c ^^^
          (bhc.flagField.data c &&&
            Tuple.flagsToRemove flag c bhc.flagField.data bhc.boundaryHandlers)) ||| flag ∧
      (∀ d, d ≠ c → (bhc.forceFlag flag c p).flagField.data d = bhc.flagField.data d) ∧
      (∀ i, ((bhc.forceFlag flag c p).flagField.data c).testBit i =
        (((bhc.flagField.data c).testBit i &&
          !(Tuple.flagsToRemove flag c bhc.flagField.data bhc.boundaryHandlers).testBit i) ||
          flag.testBit i)) ∧
      (∀ i, flag.testBit i = false →
        (∀ h ∈ bhc.boundaryHandlers, h.owns flag = true → h.ownership.testBit i = false) →
        ((bhc.forceFlag flag c p).flagField.data c).testBit i =
          (bhc.flagField.data c).testBit i)) ∧
    (bhc.outerBB.contains c = false → bhc.forceFlag flag c p = bhc) ∧
    (Tuple.flagsToRemove flag c bhc.flagField.data bhc.boundaryHandlers = 0 →
      bhc.forceFlag flag c p = bhc.setFlag flag c p) := by
  refine ⟨?_, ?_, ?_⟩
  · intro hin hc hw
    have hd := (bhc.forceFlag_spec flag c p hin hc hw).1
    have hbit : ∀ i, ((bhc.forceFlag flag c p).flagField.data c).testBit i =
        (((bhc.flagField.data c).testBit i &&
          !(Tuple.flagsToRemove flag c bhc.flagField.data bhc.boundaryHandlers).testBit i) ||
          flag.testBit i) := by
      intro i
      rw [hd]
      exact testBit_forced flag c _ _ i
    refine ⟨?_, ?_, hbit, ?_⟩
    · rw [hd]
      simp only [forcedData, FlagData.addFlag, FlagData.removeMask, FlagData.set_same]
    · intro d hdc
      rw [hd]
      simp only [forcedData, FlagData.addFlag, FlagData.removeMask,
        FlagData.set_other _ _ _ _ hdc]
    · intro i hf hno
      rw [hbit i, hf, Bool.or_false]
      have hz : (Tuple.flagsToRemove flag c bhc.flagField.data bhc.boundaryHandlers).testBit i =
          false := by
        cases hb : (Tuple.flagsToRemove flag c bhc.flagField.data
            bhc.boundaryHandlers).testBit i with
        | false => rfl
        | true =>
          obtain ⟨h, hh, ho, hown, _⟩ := (Tuple.testBit_flagsToRemove flag c _ _ i).mp hb
          rw [hno h hh ho] at hown
          cases hown
      rw [hz]
      simp
  · intro hout
    simp only [BoundaryHandlingCollection.forceFlag, hout, Bool.not_false, if_true]
  · intro hz
    cases hin : bhc.outerBB.contains c with
    | false =>
      simp only [BoundaryHandlingCollection.forceFlag, BoundaryHandlingCollection.setFlag, hin,
        Bool.not_false, if_true]
    | true =>
      simp only [BoundaryHandlingCollection.forceFlag, BoundaryHandlingCollection.setFlag, hin,
        Bool.not_true, Bool.false_eq_true, if_false,
        BoundaryHandlingCollection.forceFlagHelper, hz,
        BoundaryHandlingCollection.forceFlagBits_zero]

/-- C36, at an example: the cell carries 13 = 8 + 4 + 1; forcing the flag 2 of the handler
owning the bits 1 and 2 removes the bit 1 and sets the bit 2, the bit 4 of the other
handler and the bit 8 of no handler stay; a cell outside the box leaves the state alone;
and forcing the flag 16, for which nothing is to remove, is `setFlag`. -/
theorem forceFlag_new_mask_and_frame_witness :
    (exampleSender.forceFlag 2 originCell 0).flagField.data originCell = 14 ∧
    exampleSender.forceFlag 2 (Cell.mk 5 0 0) 0 = exampleSender ∧
    exampleSender.forceFlag 16 originCell 0 = exampleSender.setFlag 16 originCell 0 :=
  ⟨((forceFlag_new_mask_and_frame exampleSender 2 originCell 0).1 (by decide)
      example_changesOnlyFlagBit
      (by
        intro h hh
        have hcases : h = handlerA ∨ h = handlerB := by
          simpa [exampleSender, exampleCollectionWith] using hh
        rcases hcases with rfl | rfl <;> decide)).1.trans (by decide),
   (forceFlag_new_mask_and_frame exampleSender 2 (Cell.mk 5 0 0) 0).2.1 (by decide),
   (forceFlag_new_mask_and_frame exampleSender 16 originCell 0).2.2 (by decide)⟩

/-! ## unpack overwrites the masks of the unpacking interval -/

theorem ownershipUnion_sameClass {σ : Type} {as bs : List (Handler σ)}
    (x : List.Forall₂ Handler.SameClass as bs) : ownershipUnion bs = ownershipUnion as := by
  induction x with
  | nil => rfl
  | cons hab _ ih => simp only [ownershipUnion, hab.ownership, ih]

theorem Handler.SameClass.unpackChangesOnlyFlag {σ : Type} {h k : Handler σ}
    (a : h.SameClass k) (hc : h.UnpackChangesOnlyFlag) : k.UnpackChangesOnlyFlag := by
  obtain ⟨s, rfl⟩ := a
  exact hc

theorem Handler.SameClass.clearsOwnBits {σ : Type} {h k : Handler σ}
    (a : h.SameClass k) (hc : ∀ c, h.ClearsOwnBits c) : ∀ c, k.ClearsOwnBits c := by
  obtain ⟨s, rfl⟩ := a
  exact hc

theorem Tuple.unpack_unowned {σ : Type} (mask : flag_t) (c : Cell) (hs : List (Handler σ))
    (hU : ∀ h ∈ hs, h.UnpackChangesOnlyFlag) (buffer : Buffer) (m : Mem) :
    (∀ d, d ≠ c → (Tuple.unpack mask c hs buffer m).2.2.flags d = m.flags d) ∧
    (∀ i, (ownershipUnion hs).testBit i = false →
      ((Tuple.unpack mask c hs buffer m).2.2.flags c).testBit i = (m.flags c).testBit i) := by
  induction hs generalizing buffer m with
  | nil => exact ⟨fun _ _ => rfl, fun _ _ => rfl⟩
  | cons h t ih =>
    have hh := hU h (List.mem_cons_self h t)
    have ht : ∀ k ∈ t, k.UnpackChangesOnlyFlag := fun k hk => hU k (List.mem_cons_of_mem h hk)
    by_cases hf : h.ownership &&& mask = 0
    · simp only [Tuple.unpack, hf, ne_eq, not_true_eq_false, if_false]
      refine ⟨(ih ht buffer m).1, ?_⟩
      intro i hi
      simp only [ownershipUnion, Nat.testBit_or, Bool.or_eq_false_iff] at hi
      exact (ih ht buffer m).2 i hi.2
    · simp only [Tuple.unpack, hf, ne_eq, not_false_eq_true, if_true]
      have hag := (hh (h.ownership &&& mask) c buffer
        (m.flags.removeFlag c (h.ownership &&& mask)) h.st).agreeTrans
        (FlagData.agreeOff_removeFlag (h.ownership &&& mask) c m.flags)
      constructor
      · intro d hd
        rw [(ih ht _ _).1 d hd]
        exact hag.1 d hd
      · intro i hi
        simp only [ownershipUnion, Nat.testBit_or, Bool.or_eq_false_iff] at hi
        rw [(ih ht _ _).2 i hi.2]
        apply hag.2 i
        rw [Nat.testBit_and, hi.1]
        rfl

namespace BoundaryHandlingCollection

variable {σ : Type}

theorem unpackCell_unowned (identical : Bool) (flagMapping : List flag_t)
    (b : BoundaryHandlingCollection σ) (first : Handler σ) (tl : List (Handler σ))
    (hhs : b.boundaryHandlers = first :: tl)
    (hU : ∀ h ∈ b.boundaryHandlers, h.UnpackChangesOnlyFlag) (raw : flag_t) (rest : Buffer)
    (c : Cell) :
    ∃ r, unpackCell identical flagMapping (some (BufferItem.mask raw :: rest, b)) c = some r ∧
      List.Forall₂ Handler.SameClass b.boundaryHandlers r.2.boundaryHandlers ∧
      (∀ d, d ≠ c → r.2.flagField.data d = b.flagField.data d) ∧
      (∀ i, (ownershipUnion b.boundaryHandlers).testBit i = false →
        (r.2.flagField.data c).testBit i =
          (if !identical then first.translateMask raw flagMapping else raw).testBit i) := by
  have key := Tuple.unpack_unowned
    (if !identical then first.translateMask raw flagMapping else raw) c b.boundaryHandlers hU
    rest { flags := b.flagField.data.set c
            (if !identical then first.translateMask raw flagMapping else raw),
           calls := b.calls }
  refine ⟨((Tuple.unpack (if !identical then first.translateMask raw flagMapping else raw) c
        b.boundaryHandlers rest
        { flags := b.flagField.data.set c
            (if !identical then first.translateMask raw flagMapping else raw),
          calls := b.calls }).2.1,
      b.store (Tuple.unpack (if !identical then first.translateMask raw flagMapping else raw) c
        b.boundaryHandlers rest
        { flags := b.flagField.data.set c
            (if !identical then first.translateMask raw flagMapping else raw),
          calls := b.calls }).1
        (Tuple.unpack (if !identical then first.translateMask raw flagMapping else raw) c
        b.boundaryHandlers rest
        { flags := b.flagField.data.set c
            (if !identical then first.translateMask raw flagMapping else raw),
          calls := b.calls }).2.2), ?_, ?_, ?_, ?_⟩
  · simp only [unpackCell, hhs]
  · exact Tuple.unpack_sameClass _ _ _ _ _
  · intro d hd
    simp only [store]
    rw [key.1 d hd]
    exact FlagData.set_other _ _ _ _ hd
  · intro i hi
    simp only [store]
    rw [key.2 i hi]
    simp only [FlagData.set_same]

theorem unpackLoop_unowned (identical : Bool) (flagMapping : List flag_t) (cells : List Cell)
    (hnd : cells.Nodup) :
    ∀ (buffer : Buffer) (b : BoundaryHandlingCollection σ) (buffer1 : Buffer)
      (b1 : BoundaryHandlingCollection σ),
      (∀ h ∈ b.boundaryHandlers, h.UnpackChangesOnlyFlag) →
      cells.foldl (unpackCell identical flagMapping) (some (buffer, b)) = some (buffer1, b1) →
      (unpackReads identical flagMapping cells (some (buffer, b))).length = cells.length ∧
      (∀ d, d ∉ cells → b1.flagField.data d = b.flagField.data d) ∧
      (∀ cm ∈ cells.zip (unpackReads identical flagMapping cells (some (buffer, b))),
        ∀ i, (ownershipUnion b.boundaryHandlers).testBit i = false →
          (b1.flagField.data cm.1).testBit i = cm.2.testBit i) := by
  induction cells with
  | nil =>
    intro buffer b buffer1 b1 _ h
    simp only [List.foldl_nil, Option.some.injEq, Prod.mk.injEq] at h
    refine ⟨rfl, ?_, ?_⟩
    · intro d _
      rw [← h.2]
    · intro cm hcm
      simp [unpackReads] at hcm
  | cons c t ih =>
    intro buffer b buffer1 b1 hU h
    rw [List.foldl_cons] at h
    rw [List.nodup_cons] at hnd
    cases buffer with
    | nil =>
      have hn : unpackCell identical flagMapping (some (([] : Buffer), b)) c = none := rfl
      rw [hn, unpackCell_none] at h
      cases h
    | cons item rest =>
      cases item with
      | flagMapping mapping =>
        have hn : unpackCell identical flagMapping
            (some (BufferItem.flagMapping mapping :: rest, b)) c = none := rfl
        rw [hn, unpackCell_none] at h
        cases h
      | payload word =>
        have hn : unpackCell identical flagMapping
            (some (BufferItem.payload word :: rest, b)) c = none := rfl
        rw [hn, unpackCell_none] at h
        cases h
      | mask raw =>
        cases hhs : b.boundaryHandlers with
        | nil =>
          have hn : unpackCell identical flagMapping
              (some (BufferItem.mask raw :: rest, b)) c = none := by
            simp only [unpackCell, hhs]
          rw [hn, unpackCell_none] at h
          cases h
        | cons first tl =>
          obtain ⟨r, hr, hsame, hother, hbits⟩ :=
            unpackCell_unowned identical flagMapping b first tl hhs hU raw rest c
          rw [hr] at h
          have hU1 : ∀ k ∈ r.2.boundaryHandlers, k.UnpackChangesOnlyFlag :=
            sameClass_forall hsame _ (fun _ _ a x => a.unpackChangesOnlyFlag x) hU
          obtain ⟨hlen, hframe, hzip⟩ := ih hnd.2 r.1 r.2 buffer1 b1 hU1 h
          have hreads : unpackReads identical flagMapping (c :: t)
              (some (BufferItem.mask raw :: rest, b)) =
              (if !identical then first.translateMask raw flagMapping else raw) ::
                unpackReads identical flagMapping t (some (r.1, r.2)) := by
            simp only [unpackReads, hhs, hr]
          rw [hreads]
          refine ⟨?_, ?_, ?_⟩
          · rw [List.length_cons, List.length_cons, hlen]
          · intro d hd
            rw [List.mem_cons, not_or] at hd
            rw [hframe d hd.2]
            exact hother d hd.1
          · intro cm hcm i hi
            rw [List.zip_cons_cons, List.mem_cons] at hcm
            rcases hcm with rfl | hcm
            · simp only
              rw [hframe c hnd.1]
              rw [← hhs] at hi
              exact hbits i hi
            · apply hzip cm hcm i
              rw [ownershipUnion_sameClass hsame, hhs]
              exact hi

theorem clearCell_unowned (b : BoundaryHandlingCollection σ) (c : Cell)
    (hcl : ∀ h ∈ b.boundaryHandlers, ∀ c, h.ClearsOwnBits c) (d : Cell) (i : Nat)
    (hi : (ownershipUnion b.boundaryHandlers).testBit i = false) :
    ((b.clearCell c).flagField.data d).testBit i = (b.flagField.data d).testBit i := by
  have key := Tuple.clear_of_clearsOwnBits c b.boundaryHandlers (fun h hh => hcl h hh c) b.mem
  have hdata : (b.clearCell c).flagField.data =
      b.flagField.data.removeMask c (b.flagField.data c &&& ownershipUnion b.boundaryHandlers) := by
    simp only [clearCell, store, key.1, key.2]
    rfl
  rw [hdata]
  by_cases hd : d = c
  · subst hd
    simp only [FlagData.removeMask, FlagData.set_same, testBit_removed, Nat.testBit_and, hi]
    simp
  · simp only [FlagData.removeMask, FlagData.set_other _ _ _ _ hd]

theorem clearCells_unowned (bhc : BoundaryHandlingCollection σ) (cells : CellInterval)
    (hcl : ∀ h ∈ bhc.boundaryHandlers, ∀ c, h.ClearsOwnBits c) (d : Cell) (i : Nat)
    (hi : (ownershipUnion bhc.boundaryHandlers).testBit i = false) :
    ((bhc.clearCells cells).flagField.data d).testBit i = (bhc.flagField.data d).testBit i := by
  have hfold : ∀ (cs : List Cell) (b : BoundaryHandlingCollection σ),
      (∀ h ∈ b.boundaryHandlers, ∀ c, h.ClearsOwnBits c) →
      (ownershipUnion b.boundaryHandlers).testBit i = false →
      ((cs.foldl clearCell b).flagField.data d).testBit i = (b.flagField.data d).testBit i := by
    intro cs
    induction cs with
    | nil => intro b _ _; rfl
    | cons c t ih =>
      intro b hb hbi
      rw [List.foldl_cons]
      have hsame : List.Forall₂ Handler.SameClass b.boundaryHandlers
          (b.clearCell c).boundaryHandlers := Tuple.clear_sameClass c b.boundaryHandlers b.mem
      rw [ih (b.clearCell c)
        (sameClass_forall hsame _ (fun _ _ a x => a.clearsOwnBits x) hb)
        (by rw [ownershipUnion_sameClass hsame]; exact hbi)]
      exact clearCell_unowned b c hb d i hbi
  unfold clearCells
  simp only
  split
  · rfl
  · exact hfold _ _ hcl hi

end BoundaryHandlingCollection

theorem plainHandler_unpackChangesOnlyFlag (uid : Nat) (boundaryUIDs : List Nat)
    (flagFieldId : Nat) (outerBB : CellInterval) (boundaryMask domainMask : flag_t) :
    (plainHandler uid boundaryUIDs flagFieldId outerBB boundaryMask
      domainMask).UnpackChangesOnlyFlag := by
  intro flag c buffer f st
  have e : ((plainHandler uid boundaryUIDs flagFieldId outerBB boundaryMask domainMask).unpack
      flag c buffer f st).2.1 = f.addFlag c flag := by
    cases buffer with
    | nil => rfl
    | cons item rest => cases item <;> rfl
  rw [e]
  exact FlagData.agreeOff_addFlag flag c f

theorem CellInterval.cells_nodup (ci : CellInterval) : ci.cells.Nodup :=
  ci.cells_scan_order.imp (fun {a b} hab hne => by
    subst hne
    rcases hab with h | ⟨_, h | ⟨_, h⟩⟩ <;> exact lt_irrefl _ h)

/-- C37: `unpack` writes, for every cell of the unpacking interval, the received mask
(translated unless the flag mappings are identical) over the complete mask of the cell
before the handlers unpack; given that the `unpack` of a handler changes at most the bits
of the flag handed to it at the addressed cell, every bit that no handler owns has, at
each cell of the interval after `unpack`, the value it has in the mask received for that
cell, whatever it was locally, although the preceding `clear(interval)` keeps the bits
that no handler owns (for handlers whose clear removes exactly their own bits). -/
theorem unpack_overwrites_unowned_bits {σ : Type} (bhc : BoundaryHandlingCollection σ)
    (buffer : Buffer) (direction : Direction) (numberOfLayers : Nat)
    (assumeIdenticalFlagMapping : Bool) (first : Handler σ) (rest : List (Handler σ))
    (hhs : bhc.boundaryHandlers = first :: rest)
    (hU : ∀ h ∈ bhc.boundaryHandlers, h.UnpackChangesOnlyFlag) :
    (∀ (identical : Bool) (flagMapping : List flag_t) (raw : flag_t) (tl : Buffer) (c : Cell),
      ∃ r, BoundaryHandlingCollection.unpackCell identical flagMapping
          (some (BufferItem.mask raw :: tl, bhc)) c = some r ∧
        (∀ d, d ≠ c → r.2.flagField.data d = bhc.flagField.data d) ∧
        (∀ i, (ownershipUnion bhc.boundaryHandlers).testBit i = false →
          (r.2.flagField.data c).testBit i =
            (if !identical then first.translateMask raw flagMapping else raw).testBit i)) ∧
    (∀ (buffer1 : Buffer) (b1 : BoundaryHandlingCollection σ),
      bhc.unpack buffer direction numberOfLayers assumeIdenticalFlagMapping =
        some (buffer1, b1) →
      (BoundaryHandlingCollection.unpackReads
          (first.getNeighborFlagMapping buffer assumeIdenticalFlagMapping).2.1
          (first.getNeighborFlagMapping buffer assumeIdenticalFlagMapping).2.2
          (first.getUnpackingInterval direction numberOfLayers).cells
          (some ((first.getNeighborFlagMapping buffer assumeIdenticalFlagMapping).1,
            bhc.clearCells (first.getUnpackingInterval direction numberOfLayers)))).length =
        (first.getUnpackingInterval direction numberOfLayers).cells.length ∧
      ∀ cm ∈ (first.getUnpackingInterval direction numberOfLayers).cells.zip
          (BoundaryHandlingCollection.unpackReads
            (first.getNeighborFlagMapping buffer assumeIdenticalFlagMapping).2.1
            (first.getNeighborFlagMapping buffer assumeIdenticalFlagMapping).2.2
            (first.getUnpackingInterval direction numberOfLayers).cells
            (some ((first.getNeighborFlagMapping buffer assumeIdenticalFlagMapping).1,
              bhc.clearCells (first.getUnpackingInterval direction numberOfLayers)))),
        ∀ i, (ownershipUnion bhc.boundaryHandlers).testBit i = false →
          (b1.flagField.data cm.1).testBit i = cm.2.testBit i) ∧
    ((∀ h ∈ bhc.boundaryHandlers, ∀ c, h.ClearsOwnBits c) →
      ∀ d i, (ownershipUnion bhc.boundaryHandlers).testBit i = false →
        ((bhc.clearCells (first.getUnpackingInterval direction numberOfLayers)).flagField.data
          d).testBit i = (bhc.flagField.data d).testBit i) := by
  refine ⟨?_, ?_, ?_⟩
  · intro identical flagMapping raw tl c
    obtain ⟨r, hr, _, hother, hbits⟩ :=
      BoundaryHandlingCollection.unpackCell_unowned identical flagMapping bhc first rest hhs hU
        raw tl c
    exact ⟨r, hr, hother, hbits⟩
  · intro buffer1 b1 hres
    have hdef : bhc.unpack buffer direction numberOfLayers assumeIdenticalFlagMapping =
        (first.getUnpackingInterval direction numberOfLayers).cells.foldl
          (BoundaryHandlingCollection.unpackCell
            (first.getNeighborFlagMapping buffer assumeIdenticalFlagMapping).2.1
            (first.getNeighborFlagMapping buffer assumeIdenticalFlagMapping).2.2)
          (some ((first.getNeighborFlagMapping buffer assumeIdenticalFlagMapping).1,
            bhc.clearCells (first.getUnpackingInterval direction numberOfLayers))) := by
      simp only [BoundaryHandlingCollection.unpack, hhs]
    rw [hdef] at hres
    have hsame := BoundaryHandlingCollection.clearCells_sameClass bhc
      (first.getUnpackingInterval direction numberOfLayers)
    have hU1 : ∀ h ∈ (bhc.clearCells
        (first.getUnpackingInterval direction numberOfLayers)).boundaryHandlers,
        h.UnpackChangesOnlyFlag :=
      sameClass_forall hsame _ (fun _ _ a x => a.unpackChangesOnlyFlag x) hU
    obtain ⟨hlen, _, hzip⟩ := BoundaryHandlingCollection.unpackLoop_unowned _ _ _
      (first.getUnpackingInterval direction numberOfLayers).cells_nodup _ _ buffer1 b1 hU1 hres
    refine ⟨hlen, ?_⟩
    intro cm hcm i hi
    apply hzip cm hcm i
    rw [ownershipUnion_sameClass hsame]
    exact hi
  · intro hcl d i hi
    exact BoundaryHandlingCollection.clearCells_unowned bhc _ hcl d i hi

/-- C37, at an example: every cell of the receiver carries the bit 8, which no handler
owns; `clear` of the unpacking interval keeps it, and after unpacking the mask 5 the cell
carries 5: the bit 8 is lost. -/
theorem unpack_overwrites_unowned_bits_witness :
    ((exampleReceiverWithRawBits.clearCells
        (handlerA.getUnpackingInterval 0 1)).flagField.data (Cell.mk (-1) 0 0)).testBit 3 =
      true ∧
    (exampleReceiverWithRawBits.unpack
        [BufferItem.mask 5, BufferItem.payload 100, BufferItem.payload 200] 0 1 true).map
      (fun r => r.2.flagField.data (Cell.mk (-1) 0 0)) = some 5 ∧
    Nat.testBit 5 3 = false :=
  ⟨((unpack_overwrites_unowned_bits exampleReceiverWithRawBits
      [BufferItem.mask 5, BufferItem.payload 100, BufferItem.payload 200] 0 1 true
      handlerA [handlerB] rfl
      (by
        intro h hh
        have hcases : h = handlerA ∨ h = handlerB := by
          simpa [exampleReceiverWithRawBits, exampleCollectionWith] using hh
        rcases hcases with rfl | rfl <;>
          exact plainHandler_unpackChangesOnlyFlag _ _ _ _ _ _)).2.2
      (by
        intro h hh c
        have hcases : h = handlerA ∨ h = handlerB := by
          simpa [exampleReceiverWithRawBits, exampleCollectionWith] using hh
        rcases hcases with rfl | rfl <;> intro f st <;> rfl)
      (Cell.mk (-1) 0 0) 3 (by decide)).trans (by decide),
   by decide, by decide⟩

end boundary

namespace pe_coupling
namespace amr

/-! ## The vertex weights of the Metis weight assignment -/

end amr
end pe_coupling

end walberla
